import Mathlib

/-!
# go-vbeam: the TypeScript bridge (`tsbridge`)

A shallow embedding of `src/tsbridge/struct.go` and `src/tsbridge/parser.go`.

Go's `reflect.Type` values form a (possibly cyclic) graph.  A type is identified
by a `TypeId`; the environment `TypeEnv` gives, for each identifier, what the
`reflect` accessors used by the code return (`Kind`, `Name`, `String`, `PkgPath`,
`Elem`, `Key`, the fields).  `t == pt` on `reflect.Type` is equality of identifiers.

Recursion of the Go code that is not structural is modelled with a depth budget;
running out of it is the fault `Fault.fuel`.  A Go run-time panic is `Fault.panic`.
-/

namespace Vbeam

/-! ## reflect -/

/-- The kinds of `reflect.Kind`. -/
inductive Kind
  | Invalid | Bool | Int | Int8 | Int16 | Int32 | Int64
  | Uint | Uint8 | Uint16 | Uint32 | Uint64 | Uintptr
  | Float32 | Float64 | Complex64 | Complex128
  | Array | Chan | Func | Interface | Map | Ptr | Slice | String | Struct | UnsafePointer
  deriving DecidableEq, Repr

/-- The text of `reflect.Kind.String()`. -/
def kindString : Kind → String
  | .Invalid => "invalid"
  | .Bool => "bool"
  | .Int => "int"
  | .Int8 => "int8"
  | .Int16 => "int16"
  | .Int32 => "int32"
  | .Int64 => "int64"
  | .Uint => "uint"
  | .Uint8 => "uint8"
  | .Uint16 => "uint16"
  | .Uint32 => "uint32"
  | .Uint64 => "uint64"
  | .Uintptr => "uintptr"
  | .Float32 => "float32"
  | .Float64 => "float64"
  | .Complex64 => "complex64"
  | .Complex128 => "complex128"
  | .Array => "array"
  | .Chan => "chan"
  | .Func => "func"
  | .Interface => "interface"
  | .Map => "map"
  | .Ptr => "ptr"
  | .Slice => "slice"
  | .String => "string"
  | .Struct => "struct"
  | .UnsafePointer => "unsafe.Pointer"

/-- Identity of a `reflect.Type`. -/
abbrev TypeId := Nat

namespace reflect

/-- What the code reads of a `reflect.StructField`: `Name`, `Type`, `Anonymous`,
and the two tag lookups `Tag.Get("json")` and `Tag.Get("ts")`. -/
structure StructField where
  Name : String
  Typ : TypeId
  Anonymous : Bool
  jsonTag : String
  tsTag : String
  deriving DecidableEq, Repr

/-- What the code reads of a `reflect.Type`. `Elem` is meaningful for array, chan,
map, pointer and slice kinds, `Key` for maps, `Fields` for structs. -/
structure RType where
  kind : Kind
  Name : String
  Str : String
  PkgPath : String
  Elem : TypeId
  Key : TypeId
  Fields : List StructField
  deriving DecidableEq, Repr

end reflect

/-- The type graph: every `reflect.Type` the program can meet. -/
abbrev TypeEnv := TypeId → reflect.RType

/-! ## struct.go: data -/

/-- Type `StructField` of struct.go. -/
structure StructField where
  Name : String
  TypeName : String
  TypeCustom : Bool
  deriving DecidableEq, Repr

/-- Type `StructInfo` of struct.go. -/
structure StructInfo where
  Name : String
  Fields : List StructField
  deriving DecidableEq, Repr

/-- The dynamic values stored in `ConstValue.Value` (Go `any`). -/
inductive GoAny
  | nil
  | int (n : Int)
  | str (s : String)
  deriving DecidableEq, Repr

/-- Type `ConstValue` of struct.go. -/
structure ConstValue where
  Name : String
  Value : GoAny
  deriving DecidableEq, Repr

/-- Type `EnumInfo` of struct.go. -/
structure EnumInfo where
  Name : String
  TypeName : String
  Consts : List ConstValue
  deriving DecidableEq, Repr

/-- Type `ErrorInfo` of struct.go. -/
structure ErrorInfo where
  Name : String
  Value : String
  deriving DecidableEq, Repr

/-- Type `Bridge` of struct.go. -/
structure Bridge where
  Structs : List StructInfo
  Enums : List EnumInfo
  Errors : List ErrorInfo
  ProcessedTypes : List TypeId
  QueuedTypes : List TypeId
  QueuedPackages : List String
  ProcessedPackages : List String
  deriving DecidableEq, Repr

/-- The zero value `var s2t tsbridge.Bridge`. -/
def Bridge.empty : Bridge :=
  { Structs := [], Enums := [], Errors := [], ProcessedTypes := [], QueuedTypes := [],
    QueuedPackages := [], ProcessedPackages := [] }

/-- Abnormal ends of a run: a Go panic, or the depth budget of the model used up. -/
inductive Fault
  | panic
  | fuel
  deriving DecidableEq, Repr

deriving instance DecidableEq for Except

/-! ## struct.go: operations -/

/-- `Bridge.QueueType`. -/
def Bridge.QueueType (env : TypeEnv) (b : Bridge) (t : TypeId) : Bridge :=
  if (env t).Name = kindString (env t).kind then b
  else if t ∈ b.QueuedTypes then b
  else if t ∈ b.ProcessedTypes then b
  else { b with QueuedTypes := b.QueuedTypes ++ [t] }

/-- `Bridge.QueuePackage`. -/
def Bridge.QueuePackage (b : Bridge) (pkgPath : String) : Bridge :=
  if pkgPath ∈ b.QueuedPackages then b
  else if pkgPath ∈ b.ProcessedPackages then b
  else { b with QueuedPackages := b.QueuedPackages ++ [pkgPath] }

/-- Splitting a character list at every separator (never the empty list). -/
def splitChars (sep : Char) : List Char → List (List Char)
  | [] => [[]]
  | c :: cs =>
    if c = sep then [] :: splitChars sep cs
    else
      match splitChars sep cs with
      | [] => [[c]]
      | p :: ps => (c :: p) :: ps

/-- `strings.Split(s, sep)` for a one-character separator. -/
def stringsSplit (s : String) (sep : Char) : List String :=
  (splitChars sep s.data).map String.mk

/-- `parts[0]` of `strings.Split(tag, ",")`. -/
def firstPart (tag : String) : String :=
  (stringsSplit tag ',').headD ""

/-- The kinds of the first numeric `case` of `DecideTypescriptTypeName`. -/
def numericKinds : List Kind :=
  [.Int, .Int8, .Int16, .Int32, .Int64, .Uint, .Uint8, .Uint16, .Uint32, .Uint64,
   .Float32, .Float64]

/-- The kinds of the first `case` of `DecideEnumTypeName`. -/
def enumNumberKinds : List Kind :=
  [.Int, .Int8, .Int16, .Int32, .Int64, .Uint, .Uint8, .Uint16, .Uint32, .Uint64]

/-- `DecideEnumTypeName`. -/
def DecideEnumTypeName (env : TypeEnv) (t : TypeId) : String :=
  if (env t).kind ∈ enumNumberKinds then "number"
  else if (env t).kind = .String then "string"
  else "void"

/-- `Bridge.DecideTypescriptTypeName`; the first argument bounds the recursion depth. -/
def DecideTypescriptTypeName (env : TypeEnv) :
    Nat → Bridge → TypeId → Except Fault (Bridge × String)
  | 0, _, _ => .error .fuel
  | fuel + 1, b, t =>
    let kind := (env t).kind
    if kind = .Struct then
      .ok (b.QueueType env t, (env t).Name)
    else if kind ∈ numericKinds then
      if (env t).Str ≠ kindString kind then
        .ok (b.QueueType env t, (env t).Name)
      else
        .ok (b, "number")
    else if kind = .String then
      if (env t).Str ≠ kindString kind then
        .ok (b.QueueType env t, (env t).Name)
      else
        .ok (b, "string")
    else if kind = .Bool then
      .ok (b, "boolean")
    else if kind = .Slice ∨ kind = .Array then
      match DecideTypescriptTypeName env fuel b (env t).Elem with
      | .error e => .error e
      | .ok (b1, elementType) =>
        if elementType = "" then .ok (b1, "")
        else .ok (b1, elementType ++ "[]")
    else if kind = .Map then
      match DecideTypescriptTypeName env fuel b (env t).Elem with
      | .error e => .error e
      | .ok (b1, elementType) =>
        if elementType = "" then .ok (b1, "")
        else
          match DecideTypescriptTypeName env fuel b1 (env t).Key with
          | .error e => .error e
          | .ok (b2, keyType) =>
            if keyType = "" then .ok (b2, "")
            else .ok (b2, "Record<" ++ keyType ++ ", " ++ elementType ++ ">")
    else if kind = .Ptr then
      match DecideTypescriptTypeName env fuel b (env t).Elem with
      | .error e => .error e
      | .ok (b1, elementType) =>
        if elementType = "" then .ok (b1, "")
        else .ok (b1, elementType ++ " | null")
    else if kind = .Interface then
      .ok (b, "any")
    else
      .ok (b, "unknown")

/-- The json-tag step of the loop body of `AddStructFields`: `none` is the
`continue` of the omission marker, otherwise the field with its name settled. -/
def applyJsonTag (jsonTag : String) (sField : StructField) : Option StructField :=
  if jsonTag ≠ "" then
    if firstPart jsonTag ≠ "" then
      if firstPart jsonTag = "-" then none
      else some { sField with Name := firstPart jsonTag }
    else some sField
  else some sField

/-- The ts-tag step of the loop body of `AddStructFields`. -/
def applyTsTag (tsTag : String) (sField : StructField) : StructField :=
  if tsTag ≠ "" then
    if firstPart tsTag ≠ "" then
      { sField with TypeName := firstPart tsTag, TypeCustom := true }
    else sField
  else sField

/-- The `for index` loop of `AddStructFields` over the fields still to visit;
`recur` is the recursive call on an embedded field and `decide` the call of
`DecideTypescriptTypeName`. -/
def addFieldsLoop (env : TypeEnv)
    (recur : Bridge → StructInfo → TypeId → Except Fault (Bridge × StructInfo))
    (decide : Bridge → TypeId → Except Fault (Bridge × String)) :
    List reflect.StructField → Bridge → StructInfo → Except Fault (Bridge × StructInfo)
  | [], b, sinfo => .ok (b, sinfo)
  | field :: rest, b, sinfo =>
    if field.Anonymous then
      match recur (b.QueueType env field.Typ) sinfo field.Typ with
      | .error e => .error e
      | .ok (b1, sinfo1) => addFieldsLoop env recur decide rest b1 sinfo1
    else
      let sField : StructField :=
        { Name := field.Name, TypeName := (env field.Typ).Name, TypeCustom := false }
      match applyJsonTag field.jsonTag sField with
      | none => addFieldsLoop env recur decide rest b sinfo
      | some sField1 =>
        let sField2 := applyTsTag field.tsTag sField1
        if ¬ sField2.TypeCustom then
          match decide b field.Typ with
          | .error e => .error e
          | .ok (b1, typeName) =>
            addFieldsLoop env recur decide rest b1
              { sinfo with Fields := sinfo.Fields ++ [{ sField2 with TypeName := typeName }] }
        else
          addFieldsLoop env recur decide rest b
            { sinfo with Fields := sinfo.Fields ++ [sField2] }

/-- `Bridge.AddStructFields`; `t.NumField()` panics when `t` is not a struct. The
first argument bounds the recursion depth. -/
def AddStructFields (env : TypeEnv) :
    Nat → Bridge → StructInfo → TypeId → Except Fault (Bridge × StructInfo)
  | 0, _, _, _ => .error .fuel
  | fuel + 1, b, sinfo, t =>
    if (env t).kind ≠ .Struct then .error .panic
    else
      addFieldsLoop env (AddStructFields env fuel) (DecideTypescriptTypeName env fuel)
        (env t).Fields b sinfo

/-- `Bridge.processType`. -/
def processType (env : TypeEnv) (fuel : Nat) (b : Bridge) (t : TypeId) : Except Fault Bridge :=
  if (env t).kind = .Struct then
    match AddStructFields env fuel b { Name := (env t).Name, Fields := [] } t with
    | .error e => .error e
    | .ok (b1, sinfo) =>
      .ok { b1 with Structs := b1.Structs ++ [sinfo], ProcessedTypes := b1.ProcessedTypes ++ [t] }
  else
    let b1 := b.QueuePackage (env t).PkgPath
    let einfo : EnumInfo :=
      { Name := (env t).Name, TypeName := DecideEnumTypeName env t, Consts := [] }
    .ok { b1 with Enums := b1.Enums ++ [einfo], ProcessedTypes := b1.ProcessedTypes ++ [t] }

/-- The first loop of `Bridge.Process`: `steps` bounds the number of iterations
(calls of `processType`), `fuel` the recursion depth inside each. -/
def processQueue (env : TypeEnv) (fuel : Nat) : Nat → Bridge → Except Fault Bridge
  | 0, b => if b.QueuedTypes = [] then .ok b else .error .fuel
  | steps + 1, b =>
    match b.QueuedTypes with
    | [] => .ok b
    | t :: _ =>
      match processType env fuel b t with
      | .error e => .error e
      | .ok b1 => processQueue env fuel steps { b1 with QueuedTypes := b1.QueuedTypes.tail }

/-- Queueing the root types, as `GenerateTSBindings` does before `Process`. -/
def queueRoots (env : TypeEnv) (roots : List TypeId) : Bridge :=
  roots.foldl (Bridge.QueueType env) Bridge.empty

/-! ## go/token, go/ast: what parser.go reads of a parsed package -/

namespace token

/-- The tokens that `GenDecl.Tok` and `BasicLit.Kind` can hold and the code tells apart. -/
inductive Token
  | IMPORT | CONST | TYPE | VAR
  | INT | FLOAT | IMAG | CHAR | STRING
  deriving DecidableEq, Repr

end token

namespace ast

/-- Type `ast.ObjKind`. -/
inductive ObjKind
  | Bad | Pkg | Con | Typ | Var | Fun | Lbl
  deriving DecidableEq, Repr

/-- What the code reads of an `ast.Object`. -/
structure Object where
  Kind : ObjKind
  Name : String
  Data : GoAny
  deriving DecidableEq, Repr

/-- Expression nodes, as far as the code inspects them; `Other` is every other node. -/
inductive Expr
  | Ident (Name : String)
  | BasicLit (Kind : token.Token) (Value : String)
  | SelectorExpr (X : Expr) (Sel : String)
  | CallExpr (Fun : Expr) (Args : List Expr)
  | Other
  deriving Repr

/-- Type `ast.ValueSpec`: `Names`, the optional `Type`, `Values`. -/
structure ValueSpec where
  Names : List String
  Typ : Option Expr
  Values : List Expr
  deriving Repr

/-- Type `ast.Spec`: a `*ValueSpec`, or an import or type spec. -/
inductive Spec
  | ValueSpec (v : ValueSpec)
  | Other
  deriving Repr

/-- Type `ast.Decl`: a `*GenDecl` with its token and specs, or another declaration. -/
inductive Decl
  | GenDecl (Tok : token.Token) (Specs : List Spec)
  | Other
  deriving Repr

/-- What the code reads of an `ast.File`: `Scope.Objects` (a Go map, listed here
in the order the `range` statement happens to yield it) and `Decls`. -/
structure File where
  ScopeObjects : List Object
  Decls : List Decl
  deriving Repr

/-- An `ast.Package`: its `Files` map, listed in the order `range` yields it. -/
structure Package where
  Files : List File
  deriving Repr

end ast

/-! ## parser.go -/

/-- The map `enumTypesMap` built at the start of `ProcessPackage`: the position in
`b.Enums` of the last entry with the given name. -/
def enumTypesMap (enums : List EnumInfo) (name : String) : Option Nat :=
  ((List.range enums.length).filter
    (fun i => (enums.get? i).map (fun e => e.Name) = some name)).getLast?

/-- The map `nameValues` of one file: for every constant object of the file scope,
its `Data`; `GoAny.nil` for names without an entry. -/
def nameValues (objects : List ast.Object) : String → GoAny :=
  objects.foldl
    (fun m object => if object.Kind = .Con then Function.update m object.Name object.Data else m)
    (fun _ => GoAny.nil)

/-- The loop over `valSpec.Names`, appending to the `Consts` of one `EnumInfo`. -/
def appendConsts (values : String → GoAny) (names : List String) (consts : List ConstValue) :
    List ConstValue :=
  names.foldl
    (fun cs name => if name = "_" then cs else cs ++ [{ Name := name, Value := values name }])
    consts

/-- Updating the element at a position of `b.Enums` through the pointer held in
`enumTypesMap`. -/
def modifyAt (f : EnumInfo → EnumInfo) : List EnumInfo → Nat → List EnumInfo
  | [], _ => []
  | e :: es, 0 => f e :: es
  | e :: es, i + 1 => e :: modifyAt f es i

/-- The statement `if typeIdent, ok := valSpec.Type.(*ast.Ident); ok { enumInfo =
enumTypesMap[typeIdent.String()] }`: the value of `enumInfo` after it. -/
def assignEnumInfo (typesMap : String → Option Nat) (valSpec : ast.ValueSpec)
    (enumInfo : Option Nat) : Option Nat :=
  match valSpec.Typ with
  | some (.Ident typeIdent) => typesMap typeIdent
  | _ => enumInfo

/-- The loop over `genDecl.Specs` of a constant declaration; `enumInfo` is the
pointer variable of that name (the position in `b.Enums`, or `none` for nil). The
type assertion `spec.(*ast.ValueSpec)` panics on any other spec. -/
def constSpecsLoop (typesMap : String → Option Nat) (values : String → GoAny) :
    List ast.Spec → Option Nat → List EnumInfo → Except Fault (List EnumInfo)
  | [], _, enums => .ok enums
  | .Other :: _, _, _ => .error .panic
  | .ValueSpec valSpec :: rest, enumInfo, enums =>
    match assignEnumInfo typesMap valSpec enumInfo with
    | none => constSpecsLoop typesMap values rest none enums
    | some idx =>
      constSpecsLoop typesMap values rest (some idx)
        (modifyAt (fun e => { e with Consts := appendConsts values valSpec.Names e.Consts })
          enums idx)

/-- The loop "process enums" over `file.Decls`. -/
def constDeclsLoop (typesMap : String → Option Nat) (values : String → GoAny) :
    List ast.Decl → List EnumInfo → Except Fault (List EnumInfo)
  | [], enums => .ok enums
  | .Other :: rest, enums => constDeclsLoop typesMap values rest enums
  | .GenDecl tok specs :: rest, enums =>
    if tok ≠ .CONST then constDeclsLoop typesMap values rest enums
    else
      match constSpecsLoop typesMap values specs none enums with
      | .error e => .error e
      | .ok enums1 => constDeclsLoop typesMap values rest enums1

/-- The body of the loop "process error decls" for one declaration: the `ErrorInfo`
to append, `none` for every `continue`. Indexing `varName[0]` panics on an empty
name; the first byte of a name lies in `A..Z` exactly when its first character does. -/
def errorOfDecl : ast.Decl → Except Fault (Option ErrorInfo)
  | .Other => .ok none
  | .GenDecl tok specs =>
    if tok ≠ .VAR then .ok none
    else
      match specs with
      | [.ValueSpec valSpec] =>
        match valSpec.Names with
        | [varName] =>
          match varName.data with
          | [] => .error .panic
          | c :: _ =>
            if c < 'A' ∨ c > 'Z' then .ok none
            else
              match valSpec.Values with
              | [.CallExpr (.SelectorExpr (.Ident fnPkgName) fnName) args] =>
                if fnPkgName ≠ "errors" then .ok none
                else if fnName ≠ "New" then .ok none
                else
                  match args with
                  | [.BasicLit kind value] =>
                    if kind ≠ .STRING then .ok none
                    else .ok (some { Name := varName, Value := value })
                  | _ => .ok none
              | _ => .ok none
        | _ => .ok none
      | _ => .ok none

/-- The loop "process error decls" over `file.Decls`. -/
def errorDeclsLoop : List ast.Decl → List ErrorInfo → Except Fault (List ErrorInfo)
  | [], errors => .ok errors
  | decl :: rest, errors =>
    match errorOfDecl decl with
    | .error e => .error e
    | .ok none => errorDeclsLoop rest errors
    | .ok (some einfo) => errorDeclsLoop rest (errors ++ [einfo])

/-- The body of the loop over `pkg.Files`. -/
def processFile (typesMap : String → Option Nat) (file : ast.File) (b : Bridge) :
    Except Fault Bridge :=
  match constDeclsLoop typesMap (nameValues file.ScopeObjects) file.Decls b.Enums with
  | .error e => .error e
  | .ok enums =>
    match errorDeclsLoop file.Decls b.Errors with
    | .error e => .error e
    | .ok errors => .ok { b with Enums := enums, Errors := errors }

/-- The loop over the files of the parsed packages, in the order of iteration. -/
def processFiles (typesMap : String → Option Nat) : List ast.File → Bridge → Except Fault Bridge
  | [], b => .ok b
  | file :: rest, b =>
    match processFile typesMap file b with
    | .error e => .error e
    | .ok b1 => processFiles typesMap rest b1

/-- The result of `build.Import` followed by `parser.ParseDir` for a package path:
`none` when either reports an error, otherwise the parsed packages in the order
the `range` over the map yields them. -/
abbrev Sources := String → Option (List ast.Package)

/-- `Bridge.ProcessPackage`. -/
def ProcessPackage (src : Sources) (b : Bridge) (pkgPath : String) : Except Fault Bridge :=
  match src pkgPath with
  | none => .ok b
  | some pkgs =>
    processFiles (enumTypesMap b.Enums) (pkgs.flatMap (fun pkg => pkg.Files)) b

/-- The second loop of `Bridge.Process`, over `b.QueuedPackages`. -/
def processPackages (src : Sources) : List String → Bridge → Except Fault Bridge
  | [], b => .ok b
  | pkgPath :: rest, b =>
    match ProcessPackage src b pkgPath with
    | .error e => .error e
    | .ok b1 => processPackages src rest b1

/-- `Bridge.Process`: `steps` bounds the iterations of the first loop and `fuel`
the recursion depth inside `processType`. -/
def Process (env : TypeEnv) (src : Sources) (fuel steps : Nat) (b : Bridge) :
    Except Fault Bridge :=
  match processQueue env fuel steps b with
  | .error e => .error e
  | .ok b1 => processPackages src b1.QueuedPackages b1

/-- The object resolution of `go/parser` for the value declarations of a file, as
documented in `go/ast` (`Object.Data` of a constant is the iota of its
declaration, that is the position of its spec in the group): every name other than
`_` is entered once, the first declaration winning. -/
def resolveSpecs (kind : ast.ObjKind) :
    List ast.Spec → Nat → List ast.Object → List ast.Object
  | [], _, scope => scope
  | .Other :: rest, i, scope => resolveSpecs kind rest (i + 1) scope
  | .ValueSpec v :: rest, i, scope =>
    resolveSpecs kind rest (i + 1)
      (v.Names.foldl
        (fun sc name =>
          if name = "_" ∨ name ∈ sc.map (fun o => o.Name) then sc
          else sc ++ [{ Kind := kind, Name := name, Data := GoAny.int i }])
        scope)

/-- The file scope that `go/parser` builds from the constant and variable
declarations of a file. -/
def resolveDecls : List ast.Decl → List ast.Object → List ast.Object
  | [], scope => scope
  | .Other :: rest, scope => resolveDecls rest scope
  | .GenDecl tok specs :: rest, scope =>
    if tok = .CONST then resolveDecls rest (resolveSpecs .Con specs 0 scope)
    else if tok = .VAR then resolveDecls rest (resolveSpecs .Var specs 0 scope)
    else resolveDecls rest scope

/-! ## struct.go: WriteStructTSBinding

A writer is the text written so far; every `Fprintf` and `Fprintln` appends to it.
In the calls with operands the format is a constant and every operand is a string
printed with `%s`, so the text written is the format with the operands in place. -/

/-- The body of the loop over `b.Enums` in `WriteStructTSBinding`. `marshal` is
`json.Marshal` of `encoding/json` on the values held in `Consts`. -/
def writeEnum (marshal : GoAny → String) (w : String) (einfo : EnumInfo) : String :=
  let w := w ++ ("export type " ++ einfo.Name ++ " = " ++ einfo.TypeName ++ ";\n")
  let w := einfo.Consts.foldl
    (fun w c =>
      w ++ ("export const " ++ c.Name ++ ": " ++ einfo.Name ++ " = " ++ marshal c.Value ++ ";\n"))
    w
  w ++ "\n"

/-- The body of the loop over `b.Errors` in `WriteStructTSBinding`. -/
def writeError (w : String) (einfo : ErrorInfo) : String :=
  w ++ ("export const " ++ einfo.Name ++ " = " ++ einfo.Value ++ ";\n")

/-- The body of the loop over `b.Structs` in `WriteStructTSBinding`. -/
def writeStruct (w : String) (sinfo : StructInfo) : String :=
  let w := w ++ ("export interface " ++ sinfo.Name ++ " \x7b\n")
  let w := sinfo.Fields.foldl
    (fun w field => w ++ ("    " ++ field.Name ++ ": " ++ field.TypeName ++ "\n")) w
  w ++ "\x7d\n\n"

/-- `WriteStructTSBinding`. -/
def WriteStructTSBinding (marshal : GoAny → String) (b : Bridge) (w : String) : String :=
  let w := b.Enums.foldl (writeEnum marshal) w
  let w :=
    if b.Errors.length > 0 then
      let w := w ++ "// Errors\n"
      let w := b.Errors.foldl writeError w
      w ++ "\n"
    else w
  b.Structs.foldl writeStruct w

/-! ## Package fmt: a format without operands -/

namespace fmt

/-- Function `parsenum` of package fmt on the text at the current position: whether
digits were read, and the text after them. A number that grows above `10^6` makes
it give up with the position at the end of the text. -/
def parsenum : List Char → Nat → Bool → Bool × List Char
  | [], _, isnum => (isnum, [])
  | c :: cs, num, isnum =>
    if '0' ≤ c ∧ c ≤ '9' then
      if num > 1000000 then (false, [])
      else parsenum cs (num * 10 + (c.toNat - '0'.toNat)) true
    else (isnum, c :: cs)

/-- Method `argNumber` for a call without operands, on the text at the current
position: whether an index `[n]` was found, whether the text had an opening
bracket at all (no index is good when there is no operand), and the text after it. -/
def argNumber (s : List Char) : Bool × Bool × List Char :=
  match s with
  | '[' :: rest =>
    if s.length < 3 then (false, true, rest)
    else
      let inside := rest.takeWhile (fun c => c ≠ ']')
      if inside.length = rest.length then (false, true, rest)
      else
        let after := rest.drop (inside.length + 1)
        let r := parsenum inside 0 false
        (r.1 && r.2.isEmpty, true, after)
  | _ => (false, false, s)

/-- One verb of `doPrintf` for a call without operands, on the text after the
percent sign: the text written for it, and the text after the verb. -/
def verb (s : List Char) : List Char × List Char :=
  let s := s.dropWhile (fun c => c = '#' ∨ c = '0' ∨ c = '+' ∨ c = '-' ∨ c = ' ')
  let a1 := argNumber s
  let bad := a1.2.1
  let afterIndex := a1.1
  let s := a1.2.2
  -- the width
  let w : List Char × Bool × Bool × List Char :=
    match s with
    | '*' :: rest => ("%!(BADWIDTH)".data, bad, false, rest)
    | _ =>
      let r := parsenum s 0 false
      ([], bad || (afterIndex && r.1), afterIndex, r.2)
  let out := w.1
  let bad := w.2.1
  let afterIndex := w.2.2.1
  let s := w.2.2.2
  -- the precision, for a point that is not the last character of the format
  let p : List Char × Bool × Bool × List Char :=
    match s with
    | '.' :: next :: more =>
      let rest := next :: more
      let bad := bad || afterIndex
      let a2 := argNumber rest
      let bad := bad || a2.2.1
      match a2.2.2 with
      | '*' :: rest2 => (out ++ "%!(BADPREC)".data, bad, false, rest2)
      | _ => (out, bad, a2.1, (parsenum a2.2.2 0 false).2)
    | _ => (out, bad, afterIndex, s)
  let out := p.1
  let bad := p.2.1
  let afterIndex := p.2.2.1
  let s := p.2.2.2
  let a3 := if afterIndex then (false, false, s) else argNumber s
  let bad := bad || a3.2.1
  match a3.2.2 with
  | [] => (out ++ "%!(NOVERB)".data, [])
  | c :: rest =>
    if c = '%' then (out ++ ['%'], rest)
    else if bad then (out ++ "%!".data ++ [c] ++ "(BADINDEX)".data, rest)
    else (out ++ "%!".data ++ [c] ++ "(MISSING)".data, rest)

/-- The loop of `doPrintf` for a call without operands; the first argument bounds
the number of iterations. -/
def doPrintf : Nat → List Char → List Char
  | 0, _ => []
  | _ + 1, [] => []
  | fuel + 1, c :: cs =>
    if c ≠ '%' then c :: doPrintf fuel cs
    else
      let r := verb cs
      r.1 ++ doPrintf fuel r.2

/-- The text that `fmt.Fprintf(w, format)` writes: `format` is interpreted as a
format and there is no operand. -/
def Sprintf (format : String) : String :=
  String.mk (doPrintf (format.data.length + 1) format.data)

end fmt

/-! ## Package strings -/

/-- `strings.TrimPrefix`. -/
def stringsTrimPrefix (s pre : String) : String :=
  if pre.data.isPrefixOf s.data then String.mk (s.data.drop pre.data.length) else s

/-! ## procs.go and handlers.go: values, requests, contexts -/

/-- What a call of a method of a value gives: the result it returns, or a panic. -/
inductive MethodResult (α : Type)
  | returns (result : α)
  | panics
  deriving DecidableEq, Repr

/-- What the code observes of a non-nil Go value held in an interface: the kind of
its dynamic type, what the call `String()` gives when the dynamic type implements
`fmt.Stringer`, the string when the dynamic type is `string`, and what
`json.Marshal` gives for the value: the text, `none` when it reports an error, or
the panic of a marshalling method of the value, which `encoding/json` lets pass. -/
structure Value where
  kind : Kind
  stringer : Option (MethodResult String)
  str : Option String
  json : MethodResult (Option String)
  deriving DecidableEq, Repr

namespace vbolt

/-- A transaction of package vbolt: its database and whether it is writable. -/
structure Tx where
  db : Nat
  writable : Bool
  deriving DecidableEq, Repr

end vbolt

/-- Type `Context` of procs.go; `Tx` is `none` for the nil pointer. -/
structure Context where
  AppName : String
  Token : String
  Tx : Option vbolt.Tx
  deriving DecidableEq, Repr

/-- What happens outside the response while a request is served, in order: the
calls into package vbolt, the calls of registered procedures, and whatever a
procedure does itself. -/
inductive Event
  | ReadTx (db : Nat)
  | WriteTx (db : Nat)
  | TxClose (tx : Option vbolt.Tx)
  | Call (procName : String)
  | Effect (what : String)
  deriving DecidableEq, Repr

/-- A request body as a reader: the bytes it hands out, and whether it then stops
with an error and not with the end of the data. -/
structure Body where
  data : List Nat
  err : Bool
  deriving DecidableEq, Repr

/-- `http.MaxBytesReader(w, body, n)`: the reader hands out at most `n` bytes of
`body` and, when `body` has more, stops after them with the error "request body
too large"; a negative limit counts as zero. -/
def MaxBytesReader (body : Body) (n : Int) : Body :=
  if n.toNat < body.data.length then { data := body.data.take n.toNat, err := true }
  else body

/-- What the code reads of an `http.Request`: `Header.Get` and `Cookie` are given
as functions. -/
structure Request where
  Method : String
  RequestURI : String
  Header : String → String
  Cookie : String → Option (String × String)
  Body : Body

/-- The second argument of a registered procedure: the decoded request object, or
the request itself. -/
inductive Input
  | object (v : Value)
  | request (r : Request)

/-- The two results of a procedure (`err` is `none` for a nil error, otherwise the
text of `err.Error()`), or a panic. -/
inductive Returned (Output : Type)
  | values (output : Output) (err : Option String)
  | panic

/-- One call of a procedure: what it returns, the context it leaves behind its
pointer argument, and what it did. -/
structure HandlerRun (Output : Type) where
  returned : Returned Output
  context : Context
  events : List Event

/-- A registered procedure, as a function of the context and the input. -/
abbrev Handler (Output : Type) := Context → Input → HandlerRun Output

/-- Type `ContentDownload` of handlers.go, with the text that `WriteTo` writes. -/
structure ContentDownload where
  ContentType : String
  Filename : String
  content : String
  deriving DecidableEq, Repr

/-- Type `ProcedureInfo` of procs.go. The first result of the procedure is handed
on as an interface value, `none` when that is the nil interface. -/
structure ProcedureInfo where
  ProcValue : Handler (Option Value)
  ProcName : String
  InputType : TypeId
  OutputType : TypeId
  MaxBytes : Int

/-- Type `DataProcInfo` of procs.go. -/
structure DataProcInfo where
  ProcValue : Handler ContentDownload
  ProcName : String
  InputType : TypeId

/-- Type `Application` of procs.go, without the file systems and the mux; `DB` is
`none` for the nil pointer, and a Go map is a function to `Option`. -/
structure Application where
  Name : String
  DB : Option Nat
  procMap : String → Option ProcedureInfo
  procList : List String
  dataProcMap : String → Option DataProcInfo

/-- `NewApplication`, as far as the fields above go. -/
def NewApplication (name : String) (db : Option Nat) : Application :=
  { Name := name, DB := db, procMap := fun _ => none, procList := [],
    dataProcMap := fun _ => none }

/-- What reflection gives of a function passed to `RegisterProc`,
`RegisterProcRawInput` or `RegisterDataProc`, whose signatures fix two parameters
and two results: the name of the function in the runtime, the function, the type
`In(1)` of its second parameter and the type `Out(0)` of its first result. -/
structure ProcFunc (Output : Type) where
  fullName : String
  call : Handler Output
  In1 : TypeId
  Out0 : TypeId

/-- `_LocalProcName`: the text after the last dot of the full name, the whole name
when it has no dot. -/
def _LocalProcName (fullName : String) : String :=
  String.mk (fullName.data.reverse.takeWhile (fun c => c ≠ '.')).reverse

/-- `_RegisterProc`. -/
def _RegisterProc (app : Application) (proc : ProcFunc (Option Value)) (maxBytes : Int) : Application :=
  let procName := _LocalProcName proc.fullName
  let procInfo : ProcedureInfo :=
    { ProcValue := proc.call, ProcName := procName, InputType := proc.In1,
      OutputType := proc.Out0, MaxBytes := maxBytes }
  { app with
    procMap := Function.update app.procMap procName (some procInfo),
    procList := app.procList ++ [procName] }

/-- `RegisterProc`. -/
def RegisterProc (app : Application) (proc : ProcFunc (Option Value)) : Application :=
  _RegisterProc app proc (1024 * 1024)

/-- `RegisterProcRawInput`. -/
def RegisterProcRawInput (app : Application) (proc : ProcFunc (Option Value)) (maxBytes : Int) :
    Application :=
  _RegisterProc app proc maxBytes

/-- `_RegisterDataProc`. -/
def _RegisterDataProc (app : Application) (proc : ProcFunc ContentDownload) : Application :=
  let procName := _LocalProcName proc.fullName
  let procInfo : DataProcInfo :=
    { ProcValue := proc.call, ProcName := procName, InputType := proc.In1 }
  { app with dataProcMap := Function.update app.dataProcMap procName (some procInfo) }

/-- `WriteProcTSBinding`; `httpRequestPtr` is the type `*http.Request`. -/
def WriteProcTSBinding (env : TypeEnv) (httpRequestPtr : TypeId) (p : ProcedureInfo)
    (w : String) : String :=
  let inputTypeName := (env p.InputType).Name
  let outputTypeName := (env p.OutputType).Name
  if p.InputType = httpRequestPtr then
    let w := w ++ ("export async function " ++ p.ProcName ++
      "(data: BodyInit): Promise<rpc.Response<" ++ outputTypeName ++ ">> \x7b\n")
    let w := w ++ ("    return await rpc.call<" ++ outputTypeName ++ ">('" ++ p.ProcName ++
      "', data);\n")
    w ++ fmt.Sprintf "\x7d\n\n"
  else
    let w := w ++ ("export async function " ++ p.ProcName ++ "(data: " ++ inputTypeName ++
      "): Promise<rpc.Response<" ++ outputTypeName ++ ">> \x7b\n")
    let w := w ++ ("    return await rpc.call<" ++ outputTypeName ++ ">('" ++ p.ProcName ++
      "', JSON.stringify(data));\n")
    w ++ fmt.Sprintf "\x7d\n\n"

/-- The first loop of `GenerateTSBindings`, queueing the input and output types of
the procedures; a name of `procList` without an entry in `procMap` gives the zero
`ProcedureInfo`, on whose nil types `QueueType` panics. -/
def queueProcTypes (env : TypeEnv) (httpRequestPtr : TypeId) (app : Application) :
    List String → Bridge → Except Fault Bridge
  | [], s2t => .ok s2t
  | procName :: rest, s2t =>
    match app.procMap procName with
    | none => .error .panic
    | some proc =>
      let s2t := if proc.InputType ≠ httpRequestPtr then s2t.QueueType env proc.InputType else s2t
      queueProcTypes env httpRequestPtr app rest (s2t.QueueType env proc.OutputType)

/-- The last loop of `GenerateTSBindings`, writing the stubs. -/
def writeProcs (env : TypeEnv) (httpRequestPtr : TypeId) (app : Application) :
    List String → String → Except Fault String
  | [], f => .ok f
  | name :: rest, f =>
    match app.procMap name with
    | none => .error .panic
    | some proc => writeProcs env httpRequestPtr app rest (WriteProcTSBinding env httpRequestPtr proc f)

/-- `GenerateTSBindings`: the text of the target file, which is taken to open;
`none` when no target file is named. -/
def GenerateTSBindings (env : TypeEnv) (src : Sources) (fuel steps : Nat)
    (marshal : GoAny → String) (httpRequestPtr : TypeId) (app : Application)
    (targetFile : String) : Except Fault (Option String) :=
  if targetFile = "" then .ok none
  else
    let f := fmt.Sprintf "import * as rpc from \"vlens/rpc\""
    let f := f ++ "\n"
    let f := f ++ "\n"
    match queueProcTypes env httpRequestPtr app app.procList Bridge.empty with
    | .error e => .error e
    | .ok s2t =>
      match Process env src fuel steps s2t with
      | .error e => .error e
      | .ok s2t =>
        let f := WriteStructTSBinding marshal s2t f
        match writeProcs env httpRequestPtr app app.procList f with
        | .error e => .error e
        | .ok f => .ok (some f)

/-- `getCookieValue`; `req.Cookie(name)` gives the name and value of a cookie, or
nil with an error. -/
def getCookieValue (req : Request) (name : String) : String :=
  match req.Cookie name with
  | some c => if c.1 = name then c.2 else ""
  | none => ""

/-- `MakeContext`: the context, and the call of `vbolt.ReadTx` when the application
has a database. -/
def MakeContext (app : Application) (req : Request) : Context × List Event :=
  let token := req.Header "x-auth-token"
  let token := if token = "" then getCookieValue req "authToken" else token
  match app.DB with
  | some db =>
    ({ AppName := app.Name, Token := token, Tx := some { db := db, writable := false } },
      [.ReadTx db])
  | none => ({ AppName := app.Name, Token := token, Tx := none }, [])

/-- `CloseContext`: the call of `vbolt.TxClose` on the transaction of the context. -/
def CloseContext (ctx : Context) : List Event :=
  [.TxClose ctx.Tx]

/-- Type `ResponseWriter` of handlers.go with the state of the `http.ResponseWriter`
it wraps: the header map, the status line sent (`none` before any is sent) and the
body written. -/
structure ResponseWriter where
  statusCode : Int
  procDur : Int
  header : List (String × String)
  sent : Option Int
  body : String
  deriving DecidableEq, Repr

/-- The writer that `WrapHttpResponeWriter` makes around a fresh response. -/
def ResponseWriter.fresh : ResponseWriter :=
  { statusCode := 0, procDur := 0, header := [], sent := none, body := "" }

/-- `ResponseWriter.WriteHeader`: the wrapped writer sends the status line unless
one was sent before. -/
def ResponseWriter.WriteHeader (w : ResponseWriter) (statusCode : Int) : ResponseWriter :=
  { w with statusCode := statusCode,
           sent := match w.sent with
             | none => some statusCode
             | some code => some code }

/-- `Write` of the wrapped writer: the first write sends status 200 unless a status
line was sent before. -/
def ResponseWriter.Write (w : ResponseWriter) (text : String) : ResponseWriter :=
  { w with sent := match w.sent with
             | none => some 200
             | some code => some code,
           body := w.body ++ text }

/-- `w.Header().Set(key, value)` for a key in canonical form. -/
def ResponseWriter.SetHeader (w : ResponseWriter) (key value : String) : ResponseWriter :=
  { w with header := w.header.filter (fun kv => decide (kv.1 ≠ key)) ++ [(key, value)] }

/-- `RespondError`, with `err.Error()` for the error: the text is passed to
`Fprintf` as the format. -/
def RespondError (w : ResponseWriter) (err : String) : ResponseWriter :=
  (w.WriteHeader 400).Write (fmt.Sprintf err)

/-- `ServerTimingHeaderValue`; `formatFloat us` is `Sprintf("%f", float64(us)/1000.0)`
for a number of microseconds. -/
def ServerTimingHeaderValue (formatFloat : Int → String) (dur : Int) : String :=
  "proc;dur=" ++ formatFloat (Int.tdiv dur 1000)

/-- `Respond`: the writer it leaves, and whether it ended in a panic. For the nil
interface `reflect.TypeOf` gives nil, on which `t.Kind()` panics. `Encode` writes
the encoding followed by a newline, and nothing when the encoding fails or a
marshalling method panics. The call `s.String()` is made after the content type is
set and before anything is written. -/
def Respond (formatFloat : Int → String) (w : ResponseWriter) (object : Option Value) :
    ResponseWriter × Bool :=
  let w := w.SetHeader "Server-Timing" (ServerTimingHeaderValue formatFloat w.procDur)
  match object with
  | none => (w, true)
  | some object =>
    if object.kind = .Struct then
      let w := w.SetHeader "Content-Type" "application/json"
      match object.json with
      | .returns (some text) => (w.Write (text ++ "\n"), false)
      | .returns none => (w, false)
      | .panics => (w, true)
    else
      match object.stringer with
      | some (.returns s) => ((w.SetHeader "Content-Type" "text/plain").Write s, false)
      | some .panics => (w.SetHeader "Content-Type" "text/plain", true)
      | none =>
        match object.str with
        | some str => ((w.SetHeader "Content-Type" "text/plain").Write str, false)
        | none => ((w.WriteHeader 500).Write (fmt.Sprintf "INTERNAL PROGRAMMING ERROR"), false)

/-- `PREFIX_RPC`. -/
def PREFIX_RPC : String := "/rpc/"

/-- What serving a request leaves: the response writer, what happened outside the
response, and whether the handler function ended in a panic. -/
structure Served where
  w : ResponseWriter
  events : List Event
  panicked : Bool
  deriving DecidableEq, Repr

/-- The scoped call of the procedure in `HandleRPC` and the statements after it:
`MakeContext`, the call, the deferred `CloseContext` on the context the procedure
leaves, then `Respond` or `RespondError`. A panic of the procedure passes through
after `CloseContext`. `procDur` is the duration that `time.Since` measures. -/
def invokeProc (formatFloat : Int → String) (procDur : Int) (app : Application)
    (w : ResponseWriter) (request : Request) (proc : ProcedureInfo) (arg : Input) : Served :=
  let made := MakeContext app request
  let run := proc.ProcValue made.1 arg
  let events := made.2 ++ [Event.Call proc.ProcName] ++ run.events ++ CloseContext run.context
  match run.returned with
  | .panic => { w := w, events := events, panicked := true }
  | .values output err =>
    let rw := { w with procDur := procDur }
    match err with
    | none =>
      let r := Respond formatFloat rw output
      { w := r.1, events := events, panicked := r.2 }
    | some e => { w := RespondError rw e, events := events, panicked := false }

/-- `Application.HandleRPC`. `decode t body` is `json.NewDecoder(body).Decode` into a
new value of type `t`: the decoded value, or `none` when it reports an error. -/
def HandleRPC (httpRequestPtr : TypeId) (decode : TypeId → Body → Option Value)
    (formatFloat : Int → String) (procDur : Int) (app : Application) (w : ResponseWriter)
    (request : Request) : Served :=
  if request.Method ≠ "POST" then
    { w := RespondError w "RPC calls must be POST", events := [], panicked := false }
  else
    let procName := stringsTrimPrefix request.RequestURI PREFIX_RPC
    match app.procMap procName with
    | none => { w := RespondError w "Procedure Not Found", events := [], panicked := false }
    | some proc =>
      let request := { request with Body := MaxBytesReader request.Body proc.MaxBytes }
      if proc.InputType = httpRequestPtr then
        invokeProc formatFloat procDur app w request proc (.request request)
      else
        match decode proc.InputType request.Body with
        | none => { w := RespondError w "InvalidRequest", events := [], panicked := false }
        | some requestObject =>
          invokeProc formatFloat procDur app w request proc (.object requestObject)

/-! ## handlers.go: DigitsIn -/

/-- The loop `for n > 0 { count++; n /= 10 }` of `DigitsIn`: the values of `count`
and `n` after it. The first argument bounds the number of iterations. -/
def digitsLoop : Nat → Int → Int → Option (Int × Int)
  | 0, count, n => if n > 0 then none else some (count, n)
  | fuel + 1, count, n =>
    if n > 0 then digitsLoop fuel (count + 1) (Int.tdiv n 10) else some (count, n)

/-- `DigitsIn`, with a bound on the iterations of its loop; `none` when the bound is
too small. -/
def DigitsIn (fuel : Nat) (n : Int) : Option Int :=
  if n = 0 then some 1
  else
    match digitsLoop fuel 0 n with
    | none => none
    | some (count, n) => if n < 0 then some (count + 1) else some count

/-! ## procs.go: UseWriteTx -/

/-- `UseWriteTx`: the context it leaves behind its pointer argument, and the calls
of `vbolt.TxClose` and `vbolt.WriteTx` it makes. `WriteTx` of package vbolt gives a
writable transaction on the database. -/
def UseWriteTx (ctx : Context) : Context × List Event :=
  match ctx.Tx with
  | none => (ctx, [])
  | some tx =>
    if tx.writable then (ctx, [])
    else
      let db := tx.db
      ({ ctx with Tx := some { db := db, writable := true } },
        [.TxClose (some tx), .WriteTx db])

/-! ## handlers.go: data procedures and the outer handler -/

namespace http

/-- `http.Error` of package net/http: two headers, the status, and the message
followed by a newline. -/
def Error (w : ResponseWriter) (error : String) (code : Int) : ResponseWriter :=
  let w := w.SetHeader "Content-Type" "text/plain; charset=utf-8"
  let w := w.SetHeader "X-Content-Type-Options" "nosniff"
  (w.WriteHeader code).Write (error ++ "\n")

end http

/-- `PREFIX_DATA`. -/
def PREFIX_DATA : String := "/data/"

/-- `RespondContentDownload`: the three headers, then what `WriteTo` writes, which
reaches the response through the buffered writer and its `Flush`; an empty buffer
is not written. -/
def RespondContentDownload (formatFloat : Int → String) (w : ResponseWriter)
    (content : ContentDownload) : ResponseWriter :=
  let w := w.SetHeader "Server-Timing" (ServerTimingHeaderValue formatFloat w.procDur)
  let w := w.SetHeader "Content-Type" content.ContentType
  let w := w.SetHeader "Content-Disposition"
    ("attachment; filename=\"" ++ content.Filename ++ "\"")
  if content.content = "" then w else w.Write content.content

/-- The scoped call of the procedure in `HandleData` and the statements after it. -/
def invokeDataProc (formatFloat : Int → String) (procDur : Int) (app : Application)
    (w : ResponseWriter) (request : Request) (proc : DataProcInfo) (arg : Input) : Served :=
  let made := MakeContext app request
  let run := proc.ProcValue made.1 arg
  let events := made.2 ++ [Event.Call proc.ProcName] ++ run.events ++ CloseContext run.context
  match run.returned with
  | .panic => { w := w, events := events, panicked := true }
  | .values output err =>
    let rw := { w with procDur := procDur }
    match err with
    | none =>
      { w := RespondContentDownload formatFloat rw output, events := events, panicked := false }
    | some e => { w := RespondError rw e, events := events, panicked := false }

/-- `Application.HandleData`. `zero t` is the zero value of type `t`, which
`reflect.New(t).Elem()` holds. -/
def HandleData (zero : TypeId → Value) (formatFloat : Int → String) (procDur : Int)
    (app : Application) (w : ResponseWriter) (request : Request) : Served :=
  if request.Method ≠ "GET" then
    { w := http.Error w "Only GET requests supported" 400, events := [], panicked := false }
  else
    let procName := stringsTrimPrefix request.RequestURI PREFIX_DATA
    match app.dataProcMap procName with
    | none => { w := RespondError w "Procedure Not Found", events := [], panicked := false }
    | some proc =>
      invokeDataProc formatFloat procDur app w request proc (.object (zero proc.InputType))

/-- `postProcess`, deferred by `ServeHTTP`, on what the handler left: a panic is
recovered and answered with status 500 and a fixed text. The line written to the
log is not part of the response. -/
def postProcess (served : Served) : Served :=
  if served.panicked then
    { served with
      w := (served.w.WriteHeader 500).Write (fmt.Sprintf "Server Error"),
      panicked := false }
  else served

/-- `WrapHttpResponeWriter`: a `*ResponseWriter` is taken as it is; a writer of the
server, which is given here as the wrapper with zero `statusCode` and `procDur`
around it, is wrapped so. -/
def WrapHttpResponeWriter (w : ResponseWriter) : ResponseWriter := w

/-- `Application.ServeHTTP`; `mux` is the handler that the `ServeMux` of the
application picks for the request. -/
def ServeHTTP (mux : ResponseWriter → Request → Served) (wp : ResponseWriter) (request : Request) :
    Served :=
  let w := WrapHttpResponeWriter wp
  postProcess (mux w request)

/-! ## Big-step readings of the recursive operations -/

/-- Big-step reading of `DecideTypescriptTypeName`: from bridge `b`, type `t`
is translated to `s`, leaving bridge `b'`. -/
inductive Translates (env : TypeEnv) : Bridge → TypeId → Bridge → String → Prop
  | struct (b : Bridge) (t : TypeId) : (env t).kind = .Struct →
      Translates env b t (b.QueueType env t) (env t).Name
  | named (b : Bridge) (t : TypeId) :
      ((env t).kind ∈ numericKinds ∨ (env t).kind = .String) →
      (env t).Str ≠ kindString (env t).kind →
      Translates env b t (b.QueueType env t) (env t).Name
  | number (b : Bridge) (t : TypeId) : (env t).kind ∈ numericKinds →
      (env t).Str = kindString (env t).kind → Translates env b t b "number"
  | string (b : Bridge) (t : TypeId) : (env t).kind = .String →
      (env t).Str = kindString (env t).kind → Translates env b t b "string"
  | bool (b : Bridge) (t : TypeId) : (env t).kind = .Bool → Translates env b t b "boolean"
  | seq (b b1 : Bridge) (t : TypeId) (el : String) :
      ((env t).kind = .Slice ∨ (env t).kind = .Array) →
      Translates env b (env t).Elem b1 el →
      Translates env b t b1 (if el = "" then "" else el ++ "[]")
  | mapNoElem (b b1 : Bridge) (t : TypeId) : (env t).kind = .Map →
      Translates env b (env t).Elem b1 "" → Translates env b t b1 ""
  | map (b b1 b2 : Bridge) (t : TypeId) (el k : String) : (env t).kind = .Map →
      Translates env b (env t).Elem b1 el → el ≠ "" →
      Translates env b1 (env t).Key b2 k →
      Translates env b t b2 (if k = "" then "" else "Record<" ++ k ++ ", " ++ el ++ ">")
  | ptr (b b1 : Bridge) (t : TypeId) (el : String) : (env t).kind = .Ptr →
      Translates env b (env t).Elem b1 el →
      Translates env b t b1 (if el = "" then "" else el ++ " | null")
  | any (b : Bridge) (t : TypeId) : (env t).kind = .Interface → Translates env b t b "any"
  | unknown (b : Bridge) (t : TypeId) :
      (env t).kind ∉ [Kind.Struct, .String, .Bool, .Slice, .Array, .Map, .Ptr, .Interface] →
      (env t).kind ∉ numericKinds → Translates env b t b "unknown"

/-- The field record before the tags are looked at. -/
def rawField (env : TypeEnv) (f : reflect.StructField) : StructField :=
  { Name := f.Name, TypeName := (env f.Typ).Name, TypeCustom := false }

/-- Big-step reading of the loop of `AddStructFields` over a list of fields. -/
inductive Adds (env : TypeEnv) :
    Bridge → List StructField → List reflect.StructField → Bridge → List StructField → Prop
  | nil (b : Bridge) (acc : List StructField) : Adds env b acc [] b acc
  | embed (b b1 b2 : Bridge) (acc acc1 acc2 : List StructField) (f : reflect.StructField)
      (rest : List reflect.StructField) :
      f.Anonymous = true → (env f.Typ).kind = .Struct →
      Adds env (b.QueueType env f.Typ) acc (env f.Typ).Fields b1 acc1 →
      Adds env b1 acc1 rest b2 acc2 → Adds env b acc (f :: rest) b2 acc2
  | omitted (b b2 : Bridge) (acc acc2 : List StructField) (f : reflect.StructField)
      (rest : List reflect.StructField) :
      f.Anonymous = false → applyJsonTag f.jsonTag (rawField env f) = none →
      Adds env b acc rest b2 acc2 → Adds env b acc (f :: rest) b2 acc2
  | custom (b b2 : Bridge) (acc acc2 : List StructField) (f : reflect.StructField)
      (rest : List reflect.StructField) (sf : StructField) :
      f.Anonymous = false → applyJsonTag f.jsonTag (rawField env f) = some sf →
      (applyTsTag f.tsTag sf).TypeCustom = true →
      Adds env b (acc ++ [applyTsTag f.tsTag sf]) rest b2 acc2 →
      Adds env b acc (f :: rest) b2 acc2
  | plain (b b1 b2 : Bridge) (acc acc2 : List StructField) (f : reflect.StructField)
      (rest : List reflect.StructField) (sf : StructField) (s : String) :
      f.Anonymous = false → applyJsonTag f.jsonTag (rawField env f) = some sf →
      (applyTsTag f.tsTag sf).TypeCustom = false →
      Translates env b f.Typ b1 s →
      Adds env b1 (acc ++ [{ applyTsTag f.tsTag sf with TypeName := s }]) rest b2 acc2 →
      Adds env b acc (f :: rest) b2 acc2

/-- Frame of the operations that only queue types: every component but the queue
is unchanged, and the queue is extended at its end by types that are new and
pairwise different. -/
structure Ext (b b' : Bridge) : Prop where
  structs : b'.Structs = b.Structs
  enums : b'.Enums = b.Enums
  errors : b'.Errors = b.Errors
  processed : b'.ProcessedTypes = b.ProcessedTypes
  qpkgs : b'.QueuedPackages = b.QueuedPackages
  ppkgs : b'.ProcessedPackages = b.ProcessedPackages
  queue : ∃ extra, b'.QueuedTypes = b.QueuedTypes ++ extra ∧ extra.Nodup ∧
    ∀ u ∈ extra, u ∉ b.QueuedTypes ∧ u ∉ b.ProcessedTypes

/-- The bookkeeping invariant of the worklist: no type is both or twice in the
processed list and the queue, and the emitted entries are, in order, the
processed types: the structs in `Structs`, the others in `Enums`. -/
def Inv (env : TypeEnv) (b : Bridge) : Prop :=
  (b.ProcessedTypes ++ b.QueuedTypes).Nodup ∧
  b.Structs.map (fun s => s.Name) =
    (b.ProcessedTypes.filter (fun t => decide ((env t).kind = .Struct))).map
      (fun t => (env t).Name) ∧
  b.Enums.map (fun e => (e.Name, e.TypeName)) =
    (b.ProcessedTypes.filter (fun t => decide ((env t).kind ≠ .Struct))).map
      (fun t => ((env t).Name, DecideEnumTypeName env t))

/-- Frame of `ProcessPackage`: it only appends constants to the enums already
there and sentinel errors to `Errors`. -/
structure PkgFrame (b b' : Bridge) : Prop where
  structs : b'.Structs = b.Structs
  processed : b'.ProcessedTypes = b.ProcessedTypes
  queue : b'.QueuedTypes = b.QueuedTypes
  qpkgs : b'.QueuedPackages = b.QueuedPackages
  ppkgs : b'.ProcessedPackages = b.ProcessedPackages
  enums : b'.Enums.map (fun e => (e.Name, e.TypeName)) =
    b.Enums.map (fun e => (e.Name, e.TypeName))

/-! ## Example inputs -/

/-- A type descriptor with the given kind, `Name()`, `String()` and package path. -/
def mkType (k : Kind) (name str pkg : String) (elem key : TypeId)
    (fields : List reflect.StructField) : reflect.RType :=
  { kind := k, Name := name, Str := str, PkgPath := pkg, Elem := elem, Key := key,
    Fields := fields }

/-- A plain named field without tags. -/
def mkField (name : String) (t : TypeId) : reflect.StructField :=
  { Name := name, Typ := t, Anonymous := false, jsonTag := "", tsTag := "" }

/-- The type graph of
    type Role int
    type Base struct { Created int; By *User }
    type Time struct {}
    type User struct {
      Base
      ID int
      Name string `json:"name,omitempty"`
      Secret string `json:"-"`
      Friends []User
      Boss *User
      Role Role
      When Time `ts:"Date"`
      Tags map[string]Role
    }
in package `app`: `0` int, `1` string, `2` User, `3` []User, `4` *User, `5` Role,
`6` Base, `7` map[string]Role, `8` Time. -/
def exEnv : TypeEnv
  | 0 => mkType .Int "int" "int" "" 0 0 []
  | 1 => mkType .String "string" "string" "" 0 0 []
  | 2 => mkType .Struct "User" "app.User" "app" 0 0
      [ { Name := "Base", Typ := 6, Anonymous := true, jsonTag := "", tsTag := "" },
        mkField "ID" 0,
        { Name := "Name", Typ := 1, Anonymous := false, jsonTag := "name,omitempty", tsTag := "" },
        { Name := "Secret", Typ := 1, Anonymous := false, jsonTag := "-", tsTag := "" },
        mkField "Friends" 3,
        mkField "Boss" 4,
        mkField "Role" 5,
        { Name := "When", Typ := 8, Anonymous := false, jsonTag := "", tsTag := "Date" },
        mkField "Tags" 7 ]
  | 3 => mkType .Slice "" "[]app.User" "" 2 0 []
  | 4 => mkType .Ptr "" "*app.User" "" 2 0 []
  | 5 => mkType .Int "Role" "app.Role" "app" 0 0 []
  | 6 => mkType .Struct "Base" "app.Base" "app" 0 0 [mkField "Created" 0, mkField "By" 4]
  | 7 => mkType .Map "" "map[string]app.Role" "" 5 1 []
  | 8 => mkType .Struct "Time" "app.Time" "app" 0 0 []
  | _ => mkType .Invalid "" "" "" 0 0 []

/-- No package source can be read. -/
def noSources : Sources := fun _ => none

/-- What `Process` leaves for the roots `User` and `int` of `exEnv`. -/
def exResult : Bridge :=
  { Structs :=
      [ { Name := "User",
          Fields :=
            [ { Name := "Created", TypeName := "number", TypeCustom := false },
              { Name := "By", TypeName := "User | null", TypeCustom := false },
              { Name := "ID", TypeName := "number", TypeCustom := false },
              { Name := "name", TypeName := "string", TypeCustom := false },
              { Name := "Friends", TypeName := "User[]", TypeCustom := false },
              { Name := "Boss", TypeName := "User | null", TypeCustom := false },
              { Name := "Role", TypeName := "Role", TypeCustom := false },
              { Name := "When", TypeName := "Date", TypeCustom := true },
              { Name := "Tags", TypeName := "Record<string, Role>", TypeCustom := false } ] },
        { Name := "Base",
          Fields :=
            [ { Name := "Created", TypeName := "number", TypeCustom := false },
              { Name := "By", TypeName := "User | null", TypeCustom := false } ] } ],
    Enums := [{ Name := "Role", TypeName := "number", Consts := [] }],
    Errors := [],
    ProcessedTypes := [2, 6, 5],
    QueuedTypes := [],
    QueuedPackages := ["app"],
    ProcessedPackages := [] }

/-! ## Finite type graphs and well-formed inputs -/

/-- The list `S` of types is closed under the references the code can follow:
element and key types of composites and the types of struct fields. -/
def Closed (env : TypeEnv) (S : List TypeId) : Prop :=
  ∀ t ∈ S,
    ((env t).kind ∈ [Kind.Slice, Kind.Array, Kind.Map, Kind.Ptr] → (env t).Elem ∈ S) ∧
    ((env t).kind = .Map → (env t).Key ∈ S) ∧
    ((env t).kind = .Struct → ∀ f ∈ (env t).Fields, f.Typ ∈ S)

/-- Composite types of `S` are well founded: `rank` decreases from a slice, array,
map or pointer type to its element type and from a map to its key type. -/
def CompositeRanked (env : TypeEnv) (S : List TypeId) (rank : TypeId → Nat) : Prop :=
  ∀ t ∈ S,
    ((env t).kind ∈ [Kind.Slice, Kind.Array, Kind.Map, Kind.Ptr] →
      rank (env t).Elem < rank t) ∧
    ((env t).kind = .Map → rank (env t).Key < rank t)

/-- Embedded fields of the structs of `S` are structs embedded by value, and
embedding is well founded: `rank` decreases from a struct to the structs it embeds. -/
def EmbedRanked (env : TypeEnv) (S : List TypeId) (rank : TypeId → Nat) : Prop :=
  ∀ t ∈ S, (env t).kind = .Struct → ∀ f ∈ (env t).Fields, f.Anonymous = true →
    (env f.Typ).kind = .Struct ∧ rank f.Typ < rank t

/-- The shape `go/parser` gives to a declaration: the specs of a constant
declaration are value specs, and a declared variable has a non-empty name. -/
def WellParsedDecl : ast.Decl → Prop
  | .Other => True
  | .GenDecl tok specs =>
    (tok = .CONST → ∀ spec ∈ specs, ∃ v, spec = ast.Spec.ValueSpec v) ∧
    (tok = .VAR → ∀ v, specs = [ast.Spec.ValueSpec v] → ∀ name, v.Names = [name] → name ≠ "")

/-- Every declaration of every file of every package of the sources is well parsed. -/
def WellParsed (src : Sources) : Prop :=
  ∀ path pkgs, src path = some pkgs → ∀ pkg ∈ pkgs, ∀ file ∈ pkg.Files,
    ∀ decl ∈ file.Decls, WellParsedDecl decl

/-- The type graph of
    type Forest []Forest
    type Tree struct { Kids Forest }
in package `app`: `0` Tree, `1` Forest. -/
def loopEnv : TypeEnv
  | 0 => mkType .Struct "Tree" "app.Tree" "app" 0 0 [mkField "Kids" 1]
  | 1 => mkType .Slice "Forest" "app.Forest" "app" 1 0 []
  | _ => mkType .Invalid "" "" "" 0 0 []

/-- Depth of the composite types of `exEnv`. -/
def exCompositeRank : TypeId → Nat := fun t => if t = 3 ∨ t = 4 ∨ t = 7 then 1 else 0

/-- Depth of embedding of the structs of `exEnv`. -/
def exEmbedRank : TypeId → Nat := fun t => if t = 2 then 1 else 0

/-! ## The structural translation of the specification (section 4.2) -/

/-- The kinds of type descriptor the specification tells apart. -/
inductive DescriptorKind
  | primitiveNumeric | primitiveString | boolean | record | namedScalar
  | pointer | sequence | mapping | dynamic | unsupported
  deriving DecidableEq, Repr

/-- Specification: the numeric primitives are the signed and unsigned integers of
every width and the two floats. The kinds `uintptr`, `complex64` and `complex128`
are not among them: they have no translation and count as unsupported. -/
def isNumericPrimitive : Kind → Bool
  | .Int | .Int8 | .Int16 | .Int32 | .Int64 => true
  | .Uint | .Uint8 | .Uint16 | .Uint32 | .Uint64 => true
  | .Float32 | .Float64 => true
  | _ => false

/-- Specification: `describe(type)`, the descriptor kind of a type. A numeric or
string type is plain when it is the predeclared type itself (its `String()` is the
name of its kind) and a named scalar otherwise. -/
def describe (r : reflect.RType) : DescriptorKind :=
  match r.kind with
  | .Struct => .record
  | .Bool => .boolean
  | .String => if r.Str = kindString r.kind then .primitiveString else .namedScalar
  | .Slice => .sequence
  | .Array => .sequence
  | .Map => .mapping
  | .Ptr => .pointer
  | .Interface => .dynamic
  | k =>
    if isNumericPrimitive k then
      if r.Str = kindString k then .primitiveNumeric else .namedScalar
    else .unsupported

/-- Specification: `translated(T)`, defined along the structure of the type up to
a depth; `none` when the depth does not suffice. -/
def translated (env : TypeEnv) : Nat → TypeId → Option String
  | 0, _ => none
  | depth + 1, t =>
    match describe (env t) with
    | .primitiveNumeric => some "number"
    | .primitiveString => some "string"
    | .boolean => some "boolean"
    | .dynamic => some "any"
    | .unsupported => some "unknown"
    | .record => some (env t).Name
    | .namedScalar => some (env t).Name
    | .sequence =>
      (translated env depth (env t).Elem).map (fun e => if e = "" then "" else e ++ "[]")
    | .pointer =>
      (translated env depth (env t).Elem).map (fun e => if e = "" then "" else e ++ " | null")
    | .mapping =>
      match translated env depth (env t).Elem with
      | none => none
      | some v =>
        if v = "" then some ""
        else
          (translated env depth (env t).Key).map
            (fun k => if k = "" then "" else "Record<" ++ k ++ ", " ++ v ++ ">")

/-- The string a run of `DecideTypescriptTypeName` returns, if it returns. -/
def typeNameOf (r : Except Fault (Bridge × String)) : Option String :=
  match r with
  | .ok (_, s) => some s
  | .error _ => none

/-- The type graph of
    type Celsius float64
    type Reading struct { Temp Celsius }
in package `app`: `0` Reading, `1` Celsius. -/
def floatEnv : TypeEnv
  | 0 => mkType .Struct "Reading" "app.Reading" "app" 0 0 [mkField "Temp" 1]
  | 1 => mkType .Float64 "Celsius" "app.Celsius" "app" 0 0 []
  | _ => mkType .Invalid "" "" "" 0 0 []

/-! ## The record shape of the specification (sections 4.1 and 4.2) -/

/-- Specification: the entries that a list of declared fields contributes to the
shape of a record, in declaration order: an embedded field contributes the shape
`recur` of its type in place, a field with the omission marker nothing, a field
with a type-name override its entry with that name, every other field its entry
with the translation `tr` of its type. -/
def shapeLoop (env : TypeEnv) (recur : TypeId → Except Fault (List StructField))
    (tr : TypeId → Option String) : List reflect.StructField → Except Fault (List StructField)
  | [] => .ok []
  | f :: rest =>
    if f.Anonymous then
      match recur f.Typ with
      | .error e => .error e
      | .ok own =>
        match shapeLoop env recur tr rest with
        | .error e => .error e
        | .ok more => .ok (own ++ more)
    else
      match applyJsonTag f.jsonTag (rawField env f) with
      | none => shapeLoop env recur tr rest
      | some sf =>
        if (applyTsTag f.tsTag sf).TypeCustom then
          match shapeLoop env recur tr rest with
          | .error e => .error e
          | .ok more => .ok (applyTsTag f.tsTag sf :: more)
        else
          match tr f.Typ with
          | none => .error .fuel
          | some s =>
            match shapeLoop env recur tr rest with
            | .error e => .error e
            | .ok more => .ok ({ applyTsTag f.tsTag sf with TypeName := s } :: more)

/-- Specification: the shape of a record type, its field entries after flattening,
up to a depth of embedding and translation. Only a struct has a shape. -/
def recordShape (env : TypeEnv) : Nat → TypeId → Except Fault (List StructField)
  | 0, _ => .error .fuel
  | depth + 1, t =>
    if (env t).kind ≠ .Struct then .error .panic
    else shapeLoop env (recordShape env depth) (translated env depth) (env t).Fields

/-- The entries that a list of declared fields contributes at a depth. -/
def shapeOfFields (env : TypeEnv) (depth : Nat) (fields : List reflect.StructField) :
    Except Fault (List StructField) :=
  shapeLoop env (recordShape env depth) (translated env depth) fields

/-! ## Discovery of types -/

/-- `QueueType` accepts the type: its name is not the name of its kind. -/
def Queueable (env : TypeEnv) (t : TypeId) : Prop :=
  (env t).Name ≠ kindString (env t).kind

/-- The type is a record or a named numeric or string type. -/
def Nominal (env : TypeEnv) (t : TypeId) : Prop :=
  describe (env t) = .record ∨ describe (env t) = .namedScalar

/-- The record and named scalar types that the translation of a type names: the
type itself when it is one, otherwise those named by its element type, and by the
key type of a mapping whose element type has a non-empty translation. -/
inductive Mentions (env : TypeEnv) : TypeId → TypeId → Prop
  | struct (t : TypeId) : (env t).kind = .Struct → Mentions env t t
  | named (t : TypeId) : ((env t).kind ∈ numericKinds ∨ (env t).kind = .String) →
      (env t).Str ≠ kindString (env t).kind → Mentions env t t
  | elem (t u : TypeId) : (env t).kind ∈ [Kind.Slice, Kind.Array, Kind.Map, Kind.Ptr] →
      Mentions env (env t).Elem u → Mentions env t u
  | key (t u : TypeId) (d : Nat) (v : String) : (env t).kind = .Map →
      translated env d (env t).Elem = some v → v ≠ "" →
      Mentions env (env t).Key u → Mentions env t u

/-- The types that a list of declared fields refers to: the type of an embedded
field and what its fields refer to, and what the type of a translated field (not
embedded, not omitted, without type-name override) mentions. -/
inductive Refs (env : TypeEnv) : List reflect.StructField → TypeId → Prop
  | embedded (fs : List reflect.StructField) (f : reflect.StructField) :
      f ∈ fs → f.Anonymous = true → Refs env fs f.Typ
  | promoted (fs : List reflect.StructField) (f : reflect.StructField) (u : TypeId) :
      f ∈ fs → f.Anonymous = true → Refs env (env f.Typ).Fields u → Refs env fs u
  | field (fs : List reflect.StructField) (f : reflect.StructField) (sf : StructField)
      (u : TypeId) :
      f ∈ fs → f.Anonymous = false → applyJsonTag f.jsonTag (rawField env f) = some sf →
      (applyTsTag f.tsTag sf).TypeCustom = false → Mentions env f.Typ u → Refs env fs u

/-- One step of discovery: the record `t` refers to the type `u` that `QueueType` accepts. -/
def Discovers (env : TypeEnv) (t u : TypeId) : Prop :=
  (env t).kind = .Struct ∧ Refs env (env t).Fields u ∧ Queueable env u

/-- The types discovered from the roots. -/
def Reachable (env : TypeEnv) (roots : List TypeId) (u : TypeId) : Prop :=
  ∃ r ∈ roots, Queueable env r ∧ Relation.ReflTransGen (Discovers env) r u

/-- The discovery invariant of the worklist: what is processed or queued is
reachable from the roots and is a root or a record or named scalar, the accepted
roots are processed or queued, and so is everything a processed type discovers. -/
structure Disc (env : TypeEnv) (roots : List TypeId) (b : Bridge) : Prop where
  reachP : ∀ u ∈ b.ProcessedTypes, Reachable env roots u
  reachQ : ∀ u ∈ b.QueuedTypes, Reachable env roots u
  nomP : ∀ u ∈ b.ProcessedTypes, Nominal env u ∨ u ∈ roots
  nomQ : ∀ u ∈ b.QueuedTypes, Nominal env u ∨ u ∈ roots
  roots : ∀ r ∈ roots, Queueable env r → r ∈ b.QueuedTypes ∨ r ∈ b.ProcessedTypes
  closed : ∀ t ∈ b.ProcessedTypes, ∀ u, Discovers env t u →
    u ∈ b.QueuedTypes ∨ u ∈ b.ProcessedTypes

/-- The struct info `s` is the one of the record type `t`: it has its name and,
as fields, its shape at the depth. -/
def OwnShape (env : TypeEnv) (fuel : Nat) (s : StructInfo) (t : TypeId) : Prop :=
  s.Name = (env t).Name ∧ recordShape env fuel t = .ok s.Fields

/-- The entries of `Structs` are, position by position, the struct infos of the
processed types of struct kind. -/
def ShapeInv (env : TypeEnv) (fuel : Nat) (b : Bridge) : Prop :=
  List.Forall₂ (OwnShape env fuel) b.Structs
    (b.ProcessedTypes.filter (fun t => decide ((env t).kind = .Struct)))

/-- The type graph of
    type Secret struct { Token string }
    type User struct {
      Secret `json:"-"`
      ID int
    }
in package `app`: `0` User, `1` Secret, `2` int, `3` string. -/
def secretEnv : TypeEnv
  | 0 => mkType .Struct "User" "app.User" "app" 0 0
      [ { Name := "Secret", Typ := 1, Anonymous := true, jsonTag := "-", tsTag := "" },
        mkField "ID" 2 ]
  | 1 => mkType .Struct "Secret" "app.Secret" "app" 0 0 [mkField "Token" 3]
  | 2 => mkType .Int "int" "int" "" 0 0 []
  | 3 => mkType .String "string" "string" "" 0 0 []
  | _ => mkType .Invalid "" "" "" 0 0 []

/-- The type graph of
    type Stamp struct { Wall int; Ext int }
    type Post struct {
      Stamp `ts:"Date"`
      Title string
    }
in package `app` when `embedded` is set; when it is not, the first field of `Post`
is written with a name, as `Stamp Stamp` with the same tag. The types are `0` Post,
`1` Stamp, `2` int, `3` string. -/
def stampEnv (embedded : Bool) : TypeEnv
  | 0 => mkType .Struct "Post" "app.Post" "app" 0 0
      [ { Name := "Stamp", Typ := 1, Anonymous := embedded, jsonTag := "", tsTag := "Date" },
        mkField "Title" 3 ]
  | 1 => mkType .Struct "Stamp" "app.Stamp" "app" 0 0 [mkField "Wall" 2, mkField "Ext" 2]
  | 2 => mkType .Int "int" "int" "" 0 0 []
  | 3 => mkType .String "string" "string" "" 0 0 []
  | _ => mkType .Invalid "" "" "" 0 0 []

/-- The embedded field `Base` of `User` in `exEnv`. -/
def exBaseField : reflect.StructField :=
  { Name := "Base", Typ := 6, Anonymous := true, jsonTag := "", tsTag := "" }

/-- The field `When` of `User` in `exEnv`, with its type-name override. -/
def exWhenField : reflect.StructField :=
  { Name := "When", Typ := 8, Anonymous := false, jsonTag := "", tsTag := "Date" }

/-! ## Constant recovery: the declared constants of a named scalar -/

/-- The names of the constants of an enum. -/
def constNames (e : EnumInfo) : List String :=
  e.Consts.map (fun c => c.Name)

/-- The declared names of a spec without the discard identifier. -/
def keptNames (names : List String) : List String :=
  names.filter (fun name => decide (name ≠ "_"))

/-- Specification (section 4.3, step 2): the constants that a declaration group
gives to the named scalar at position `idx`, in declaration order. A spec with a
type identifier sets the type of the group from there on (`typesMap` tells the
discovered named scalar of that name, if any); a spec without one continues the
type of the spec before it. -/
def groupNames (typesMap : String → Option Nat) (idx : Nat) :
    List ast.Spec → Option Nat → List String
  | [], _ => []
  | .Other :: rest, cur => groupNames typesMap idx rest cur
  | .ValueSpec v :: rest, cur =>
    (if assignEnumInfo typesMap v cur = some idx then keptNames v.Names else []) ++
      groupNames typesMap idx rest (assignEnumInfo typesMap v cur)

/-- Specification: the constants that the declarations of a file give to the named
scalar at position `idx`, group after group in declaration order. -/
def fileNames (typesMap : String → Option Nat) (idx : Nat) : List ast.Decl → List String
  | [] => []
  | .Other :: rest => fileNames typesMap idx rest
  | .GenDecl tok specs :: rest =>
    (if tok = .CONST then groupNames typesMap idx specs none else []) ++
      fileNames typesMap idx rest

/-- Every constant name of a group, in declaration order. -/
def declaredInGroup : List ast.Spec → List String
  | [] => []
  | .Other :: rest => declaredInGroup rest
  | .ValueSpec v :: rest => v.Names ++ declaredInGroup rest

/-- Every constant name that a file declares, in declaration order. -/
def declaredInFile : List ast.Decl → List String
  | [] => []
  | .Other :: rest => declaredInFile rest
  | .GenDecl tok specs :: rest =>
    (if tok = .CONST then declaredInGroup specs else []) ++ declaredInFile rest

/-- The declarations of
    type Color string
    const (
      Red  Color = "red"
      Blue Color = "blue"
    )
-/
def colorDecls : List ast.Decl :=
  [ .GenDecl .TYPE [.Other],
    .GenDecl .CONST
      [ .ValueSpec { Names := ["Red"], Typ := some (.Ident "Color"),
                     Values := [.BasicLit .STRING "\"red\""] },
        .ValueSpec { Names := ["Blue"], Typ := some (.Ident "Color"),
                     Values := [.BasicLit .STRING "\"blue\""] } ] ]

/-- The file with the declarations `colorDecls`, as parsed. -/
def colorFile : ast.File :=
  { ScopeObjects := resolveDecls colorDecls [], Decls := colorDecls }

/-- The declarations of
    type Level int
    const (
      Low Level = iota + 1
      Mid
      _
      High
    )
-/
def levelDecls : List ast.Decl :=
  [ .GenDecl .TYPE [.Other],
    .GenDecl .CONST
      [ .ValueSpec { Names := ["Low"], Typ := some (.Ident "Level"), Values := [.Other] },
        .ValueSpec { Names := ["Mid"], Typ := none, Values := [] },
        .ValueSpec { Names := ["_"], Typ := none, Values := [] },
        .ValueSpec { Names := ["High"], Typ := none, Values := [] } ] ]

/-- The file with the declarations `levelDecls`, its scope objects listed in an
order other than the order of declaration. -/
def levelFile : ast.File :=
  { ScopeObjects := (resolveDecls levelDecls []).reverse, Decls := levelDecls }

/-- A file declaring `const A Level = 10`. -/
def fileA : ast.File :=
  { ScopeObjects := [{ Kind := .Con, Name := "A", Data := GoAny.int 0 }],
    Decls := [.GenDecl .CONST
      [.ValueSpec { Names := ["A"], Typ := some (.Ident "Level"),
                    Values := [.BasicLit .INT "10"] }]] }

/-- A file declaring `const B Level = 20`. -/
def fileB : ast.File :=
  { ScopeObjects := [{ Kind := .Con, Name := "B", Data := GoAny.int 0 }],
    Decls := [.GenDecl .CONST
      [.ValueSpec { Names := ["B"], Typ := some (.Ident "Level"),
                    Values := [.BasicLit .INT "20"] }]] }

/-- A bridge after the first loop of `Process` has discovered the named scalars
`Color` and `Level` of package `app`. -/
def enumBridge : Bridge :=
  { Bridge.empty with
    Enums := [{ Name := "Color", TypeName := "string", Consts := [] },
              { Name := "Level", TypeName := "number", Consts := [] }],
    QueuedPackages := ["app"] }

/-- The package `app` parsed as the given files, in the order they are visited. -/
def appSources (files : List ast.File) : Sources :=
  fun path => if path = "app" then some [{ Files := files }] else none

/-- What `ProcessPackage` leaves of `enumBridge` for the files `colorFile` and
`levelFile` of package `app`. -/
def enumResult : Bridge :=
  { Bridge.empty with
    Enums := [{ Name := "Color", TypeName := "string",
                Consts := [{ Name := "Red", Value := GoAny.int 0 },
                           { Name := "Blue", Value := GoAny.int 1 }] },
              { Name := "Level", TypeName := "number",
                Consts := [{ Name := "Low", Value := GoAny.int 0 },
                           { Name := "Mid", Value := GoAny.int 1 },
                           { Name := "High", Value := GoAny.int 3 }] }],
    QueuedPackages := ["app"] }

/-- The type graph of
    type Color string
    type Level int
    type Paint struct { C Color; L Level }
in package `app`: `0` Paint, `1` Color, `2` Level. -/
def paintEnv : TypeEnv
  | 0 => mkType .Struct "Paint" "app.Paint" "app" 0 0 [mkField "C" 1, mkField "L" 2]
  | 1 => mkType .String "Color" "app.Color" "app" 0 0 []
  | 2 => mkType .Int "Level" "app.Level" "app" 0 0 []
  | _ => mkType .Invalid "" "" "" 0 0 []

/-! ## Constant recovery and sentinel errors: further specifications and examples -/

/-- The constants that the queued packages give to the named scalar at position
`idx`, package after package and file after file in the order they are visited. -/
def packagesNames (src : Sources) (typesMap : String → Option Nat) (idx : Nat)
    (paths : List String) : List String :=
  paths.flatMap (fun pkgPath =>
    match src pkgPath with
    | none => []
    | some pkgs =>
      (pkgs.flatMap (fun pkg => pkg.Files)).flatMap
        (fun file => fileNames typesMap idx file.Decls))

/-- The type graph of
    type Color int
    type Level int
    type Paint struct { C Color; L Level }
in package `app`: `0` Paint, `1` Color, `2` Level. -/
def shadeEnv : TypeEnv
  | 0 => mkType .Struct "Paint" "app.Paint" "app" 0 0 [mkField "C" 1, mkField "L" 2]
  | 1 => mkType .Int "Color" "app.Color" "app" 0 0 []
  | 2 => mkType .Int "Level" "app.Level" "app" 0 0 []
  | _ => mkType .Invalid "" "" "" 0 0 []

/-- The declarations of
    type Color int
    type Level int
    const (
      Red Color = iota
      Green
    )
    const (
      Low Level = iota
      High
      Answer = 42
    )
where `Answer` is an untyped constant. -/
def shadeDecls : List ast.Decl :=
  [ .GenDecl .TYPE [.Other],
    .GenDecl .TYPE [.Other],
    .GenDecl .CONST
      [ .ValueSpec { Names := ["Red"], Typ := some (.Ident "Color"), Values := [.Ident "iota"] },
        .ValueSpec { Names := ["Green"], Typ := none, Values := [] } ],
    .GenDecl .CONST
      [ .ValueSpec { Names := ["Low"], Typ := some (.Ident "Level"), Values := [.Ident "iota"] },
        .ValueSpec { Names := ["High"], Typ := none, Values := [] },
        .ValueSpec { Names := ["Answer"], Typ := none, Values := [.BasicLit .INT "42"] } ] ]

/-- The file with the declarations `shadeDecls`, as parsed. -/
def shadeFile : ast.File :=
  { ScopeObjects := resolveDecls shadeDecls [], Decls := shadeDecls }

/-- What `Process` returns for the root `Paint` of `shadeEnv` and the file
`shadeFile` of package `app`. -/
def shadeResult : Bridge :=
  { Bridge.empty with
    Structs := [{ Name := "Paint",
                  Fields := [{ Name := "C", TypeName := "Color", TypeCustom := false },
                             { Name := "L", TypeName := "Level", TypeCustom := false }] }],
    Enums := [{ Name := "Color", TypeName := "number",
                Consts := [{ Name := "Red", Value := GoAny.int 0 },
                           { Name := "Green", Value := GoAny.int 1 }] },
              { Name := "Level", TypeName := "number",
                Consts := [{ Name := "Low", Value := GoAny.int 0 },
                           { Name := "High", Value := GoAny.int 1 },
                           { Name := "Answer", Value := GoAny.int 2 }] }],
    ProcessedTypes := [0, 1, 2],
    QueuedPackages := ["app"] }

/-- The declarations of
    var (
      ErrNotFound = errors.New("not found")
      ErrDenied = errors.New("denied")
    )
one parenthesized block with two specs. -/
def errorBlockDecls : List ast.Decl :=
  [ .GenDecl .VAR
      [ .ValueSpec { Names := ["ErrNotFound"], Typ := none,
                                Values := [.CallExpr (.SelectorExpr (.Ident "errors") "New")
                       [.BasicLit .STRING "\"not found\""]] },
        .ValueSpec { Names := ["ErrDenied"], Typ := none,
                                Values := [.CallExpr (.SelectorExpr (.Ident "errors") "New")
                       [.BasicLit .STRING "\"denied\""]] } ] ]

/-- The declarations of
    var ErrNotFound = errors.New("not found")
    var (
      ErrDenied error = errors.New(`denied`)
    )
    var errHidden = errors.New("hidden")
    var ErrWrapped = fmt.Errorf("wrapped")
each `var` declaration with a single spec. -/
def errorDecls : List ast.Decl :=
  [ .GenDecl .VAR
      [ .ValueSpec { Names := ["ErrNotFound"], Typ := none,
                                Values := [.CallExpr (.SelectorExpr (.Ident "errors") "New")
                       [.BasicLit .STRING "\"not found\""]] } ],
    .GenDecl .VAR
      [ .ValueSpec { Names := ["ErrDenied"], Typ := some (.Ident "error"),
                                Values := [.CallExpr (.SelectorExpr (.Ident "errors") "New")
                       [.BasicLit .STRING "\x60denied\x60"]] } ],
    .GenDecl .VAR
      [ .ValueSpec { Names := ["errHidden"], Typ := none,
                                Values := [.CallExpr (.SelectorExpr (.Ident "errors") "New")
                       [.BasicLit .STRING "\"hidden\""]] } ],
    .GenDecl .VAR
      [ .ValueSpec { Names := ["ErrWrapped"], Typ := none,
                                Values := [.CallExpr (.SelectorExpr (.Ident "fmt") "Errorf")
                       [.BasicLit .STRING "\"wrapped\""]] } ] ]

/-- A file with the given declarations and no constant. -/
def fileOf (decls : List ast.Decl) : ast.File :=
  { ScopeObjects := [], Decls := decls }

/-- What `ProcessPackage` leaves of the empty bridge for the one file `errorDecls`
of package `app`. -/
def errorResult : Bridge :=
  { Bridge.empty with
    Errors := [{ Name := "ErrNotFound", Value := "\"not found\"" },
               { Name := "ErrDenied", Value := "\x60denied\x60" }] }

/-! ## The generated text, section by section -/

/-- Specification (emission order, 1): the text for one named scalar, its alias line
followed by its constants in list order and an empty line. -/
def enumText (marshal : GoAny → String) (einfo : EnumInfo) : String :=
  "export type " ++ einfo.Name ++ " = " ++ einfo.TypeName ++ ";\n" ++
    String.join (einfo.Consts.map (fun c =>
      "export const " ++ c.Name ++ ": " ++ einfo.Name ++ " = " ++ marshal c.Value ++ ";\n")) ++
    "\n"

/-- Specification (emission order, 1): the text for the named scalars, in list order. -/
def enumsText (marshal : GoAny → String) (enums : List EnumInfo) : String :=
  String.join (enums.map (enumText marshal))

/-- Specification (emission order, 2): the text for the sentinel errors, in list
order under a comment line; nothing when there is none. -/
def errorsText (errors : List ErrorInfo) : String :=
  if errors = [] then ""
  else
    "// Errors\n" ++
      String.join (errors.map (fun e => "export const " ++ e.Name ++ " = " ++ e.Value ++ ";\n")) ++
      "\n"

/-- Specification (emission order, 3): the interface declaration of one record, its
fields in the order of `Fields`. -/
def structText (sinfo : StructInfo) : String :=
  "export interface " ++ sinfo.Name ++ " \x7b\n" ++
    String.join (sinfo.Fields.map (fun f => "    " ++ f.Name ++ ": " ++ f.TypeName ++ "\n")) ++
    "\x7d\n\n"

/-- Specification (emission order, 3): the interface declarations, in list order. -/
def structsText (structs : List StructInfo) : String :=
  String.join (structs.map structText)

/-- Specification (emission order, 4): the call stub of one procedure. It takes
`data: BodyInit` and passes it on as it is when the input type is `*http.Request`;
otherwise it takes the input type by name and passes `JSON.stringify(data)`. -/
def stubText (env : TypeEnv) (httpRequestPtr : TypeId) (p : ProcedureInfo) : String :=
  "export async function " ++ p.ProcName ++ "(data: " ++
    (if p.InputType = httpRequestPtr then "BodyInit" else (env p.InputType).Name) ++
    "): Promise<rpc.Response<" ++ (env p.OutputType).Name ++ ">> \x7b\n" ++
    "    return await rpc.call<" ++ (env p.OutputType).Name ++ ">('" ++ p.ProcName ++ "', " ++
    (if p.InputType = httpRequestPtr then "data" else "JSON.stringify(data)") ++ ");\n" ++
    "\x7d\n\n"

/-- Specification (emission order, 4): the stubs of a list of procedures. -/
def stubsText (env : TypeEnv) (httpRequestPtr : TypeId) (procs : List ProcedureInfo) : String :=
  String.join (procs.map (stubText env httpRequestPtr))

/-- Specification (emission order): the whole generated text for a bridge state and
the procedures of the registry, section after section. -/
def bindingText (marshal : GoAny → String) (env : TypeEnv) (httpRequestPtr : TypeId)
    (s2t : Bridge) (procs : List ProcedureInfo) : String :=
  "import * as rpc from \"vlens/rpc\"\n\n" ++ enumsText marshal s2t.Enums ++
    errorsText s2t.Errors ++ structsText s2t.Structs ++ stubsText env httpRequestPtr procs

/-! ## An example application -/

/-- The type graph of the example application: `0` `*http.Request`, `1`
`GetUserInput struct { ID int }`, `2` `User struct { Name string }`, `3` int, `4`
string, `5` `Account struct { Owner string; Level Level }`, `6` `Level int`, `7`
`Stored struct { Size int }`, `8` `http.Request`, `9` `any`. -/
def rpcEnv : TypeEnv
  | 0 => mkType .Ptr "" "*http.Request" "" 8 0 []
  | 1 => mkType .Struct "GetUserInput" "app.GetUserInput" "app" 0 0 [mkField "ID" 3]
  | 2 => mkType .Struct "User" "app.User" "app" 0 0 [mkField "Name" 4]
  | 3 => mkType .Int "int" "int" "" 0 0 []
  | 4 => mkType .String "string" "string" "" 0 0 []
  | 5 => mkType .Struct "Account" "app.Account" "app" 0 0 [mkField "Owner" 4, mkField "Level" 6]
  | 6 => mkType .Int "Level" "app.Level" "app" 0 0 []
  | 7 => mkType .Struct "Stored" "app.Stored" "app" 0 0 [mkField "Size" 3]
  | 8 => mkType .Struct "Request" "http.Request" "net/http" 0 0 []
  | 9 => mkType .Interface "" "interface \x7b\x7d" "" 0 0 []
  | _ => mkType .Invalid "" "" "" 0 0 []

/-- The value `User{Name: "Ann"}` as `Respond` sees it. -/
def userAnn : Value :=
  { kind := .Struct, stringer := none, str := none,
    json := .returns (some "\x7b\"Name\":\"Ann\"\x7d") }

/-- The value `Account{Owner: "Ann", Level: 1}` as `Respond` sees it. -/
def accountAnn : Value :=
  { kind := .Struct, stringer := none, str := none,
    json := .returns (some "\x7b\"Owner\":\"Ann\",\"Level\":1\x7d") }

/-- The value `Stored{Size: 0}` as `Respond` sees it. -/
def storedNothing : Value :=
  { kind := .Struct, stringer := none, str := none, json := .returns (some "\x7b\"Size\":0\x7d") }

/-- A procedure `GetUser(ctx *Context, in GetUserInput) (User, error)` that reads
the user and returns `User{Name: "Ann"}`. -/
def getUserProc : ProcFunc (Option Value) :=
  { fullName := "main.GetUser",
    call := fun ctx _ =>
      { returned := .values (some userAnn) none, context := ctx, events := [.Effect "read user"] },
    In1 := 1, Out0 := 2 }

/-- A procedure `GetAccount(ctx *Context, in GetUserInput) (Account, error)`. -/
def getAccountProc : ProcFunc (Option Value) :=
  { fullName := "main.GetAccount",
    call := fun ctx _ =>
      { returned := .values (some accountAnn) none, context := ctx,
        events := [.Effect "read account"] },
    In1 := 1, Out0 := 5 }

/-- A procedure `Upload(ctx *Context, req *http.Request) (Stored, error)` that
records the upload without reading the body. -/
def uploadProc : ProcFunc (Option Value) :=
  { fullName := "main.Upload",
    call := fun ctx _ =>
      { returned := .values (some storedNothing) none, context := ctx,
        events := [.Effect "record upload"] },
    In1 := 0, Out0 := 7 }

/-- The example application: `GetUser` and `GetAccount` registered with
`RegisterProc`, `Upload` with `RegisterProcRawInput` and a ceiling of 4 bytes. -/
def exampleApp : Application :=
  RegisterProcRawInput
    (RegisterProc (RegisterProc (NewApplication "app" (some 0)) getUserProc) getAccountProc)
    uploadProc 4

/-- The file of package `app` with the declarations `levelDecls` and `errorDecls`. -/
def accountFile : ast.File :=
  { ScopeObjects := resolveDecls (levelDecls ++ errorDecls) [],
    Decls := levelDecls ++ errorDecls }

/-- The text of `json.Marshal` for the values that the parser records: a number in
decimal, `null` for nil, a string without special characters in double quotes. -/
def marshalConst : GoAny → String
  | .nil => "null"
  | .int n => toString n
  | .str s => "\"" ++ s ++ "\""

/-- The text generated for `exampleApp`. -/
def exampleBindings : String :=
  "import * as rpc from \"vlens/rpc\"\n\n" ++
  "export type Level = number;\n" ++
  "export const Low: Level = 0;\n" ++
  "export const Mid: Level = 1;\n" ++
  "export const High: Level = 3;\n" ++
  "\n" ++
  "// Errors\n" ++
  "export const ErrNotFound = \"not found\";\n" ++
  "export const ErrDenied = \x60denied\x60;\n" ++
  "\n" ++
  "export interface GetUserInput \x7b\n" ++
  "    ID: number\n" ++
  "\x7d\n\n" ++
  "export interface User \x7b\n" ++
  "    Name: string\n" ++
  "\x7d\n\n" ++
  "export interface Account \x7b\n" ++
  "    Owner: string\n" ++
  "    Level: Level\n" ++
  "\x7d\n\n" ++
  "export interface Stored \x7b\n" ++
  "    Size: number\n" ++
  "\x7d\n\n" ++
  "export async function GetUser(data: GetUserInput): Promise<rpc.Response<User>> \x7b\n" ++
  "    return await rpc.call<User>('GetUser', JSON.stringify(data));\n" ++
  "\x7d\n\n" ++
  "export async function GetAccount(data: GetUserInput): Promise<rpc.Response<Account>> \x7b\n" ++
  "    return await rpc.call<Account>('GetAccount', JSON.stringify(data));\n" ++
  "\x7d\n\n" ++
  "export async function Upload(data: BodyInit): Promise<rpc.Response<Stored>> \x7b\n" ++
  "    return await rpc.call<Stored>('Upload', data);\n" ++
  "\x7d\n\n"

/-! ## The registry -/

/-- A registration: a call of `_RegisterProc` (through `RegisterProc` or
`RegisterProcRawInput`) or of `_RegisterDataProc`. -/
inductive Registration
  | proc (p : ProcFunc (Option Value)) (maxBytes : Int)
  | data (p : ProcFunc ContentDownload)

/-- Performing one registration. -/
def register (app : Application) : Registration → Application
  | .proc p maxBytes => _RegisterProc app p maxBytes
  | .data p => _RegisterDataProc app p

/-- Specification (C14): the `ProcedureInfo` of the last registration of a typed
procedure under the given name, if there is one. -/
def lastProc (name : String) (regs : List Registration) : Option ProcedureInfo :=
  (regs.reverse.filterMap (fun r =>
    match r with
    | .proc p maxBytes =>
      if _LocalProcName p.fullName = name then
        some { ProcValue := p.call, ProcName := name, InputType := p.In1, OutputType := p.Out0,
               MaxBytes := maxBytes }
      else none
    | .data _ => none)).head?

/-- Three registrations: `GetUser` with a ceiling of 10 bytes, a data procedure
`Export`, and `GetUser` again with the result type `Account` and a ceiling of 20
bytes. -/
def exampleRegistrations : List Registration :=
  [ .proc getUserProc 10,
    .data { fullName := "main.Export",
            call := fun ctx _ =>
              { returned := .values { ContentType := "text/csv", Filename := "users.csv",
                                      content := "" } none,
                context := ctx, events := [] },
            In1 := 1, Out0 := 0 },
    .proc { getUserProc with Out0 := 5 } 20 ]

/-- The application in which `GetUser` was registered twice with `RegisterProc`. -/
def twiceApp : Application :=
  RegisterProc (RegisterProc (NewApplication "app" none) getUserProc) getUserProc

/-! ## Serving requests: specifications and examples -/

/-- Specification (C16): the client request error of a request to `HandleRPC`, with
its fixed message: a method other than POST, a name after the prefix that is not
registered, or, for a procedure with a JSON body, a body that does not decode into
the input type. -/
def clientError (httpRequestPtr : TypeId) (decode : TypeId → Body → Option Value)
    (app : Application) (request : Request) : Option String :=
  if request.Method ≠ "POST" then some "RPC calls must be POST"
  else
    match app.procMap (stringsTrimPrefix request.RequestURI "/rpc/") with
    | none => some "Procedure Not Found"
    | some proc =>
      if proc.InputType ≠ httpRequestPtr ∧
          decode proc.InputType (MaxBytesReader request.Body proc.MaxBytes) = none then
        some "InvalidRequest"
      else none

/-- The value of the header `key` in the header map of the writer. -/
def ResponseWriter.Get (w : ResponseWriter) (key : String) : Option String :=
  (w.header.find? (fun kv => decide (kv.1 = key))).map (fun kv => kv.2)

/-- Specification (C19): the three outcomes of `Respond`. -/
inductive Outcome
  | json
  | text
  | programmingError
  deriving DecidableEq, Repr

/-- Specification (C19): a value of struct kind is answered as JSON, also when it is
a Stringer; another value that is a Stringer or a string is answered as text; every
other value is a programming error. -/
def outcomeOf (object : Value) : Outcome :=
  if object.kind = .Struct then .json
  else if object.stringer.isSome ∨ object.str.isSome then .text
  else .programmingError

/-- Specification (C19): whether the one call that `Respond` makes on the value ends
in a panic: `json.Marshal` for a value of struct kind, `String()` for another value
that is a Stringer. -/
def callPanics (object : Value) : Bool :=
  if object.kind = .Struct then decide (object.json = .panics)
  else decide (object.stringer = some .panics)

/-- The nil pointer `(*Stamp)(nil)` of a type `Stamp` whose method `String()` has a
value receiver: the call of the method through the nil pointer panics. -/
def stampPanics : Value :=
  { kind := .Ptr, stringer := some .panics, str := none, json := .returns (some "null") }

/-- A POST request without headers and cookies. -/
def postTo (uri : String) (body : List Nat) : Request :=
  { Method := "POST", RequestURI := uri, Header := fun _ => "", Cookie := fun _ => none,
    Body := { data := body, err := false } }

/-- The bytes of the text `{"ID":1}`. -/
def bytesIdOne : List Nat := [123, 34, 73, 68, 34, 58, 49, 125]

/-- The bytes of the text `nope`. -/
def bytesNope : List Nat := [110, 111, 112, 101]

/-- The value `GetUserInput{ID: 1}`. -/
def inputOne : Value :=
  { kind := .Struct, stringer := none, str := none, json := .returns (some "\x7b\"ID\":1\x7d") }

/-- The decoder of `encoding/json` on the bodies of the examples. `Decode` returns
the first complete value of the body, whatever follows it: a body that starts with
the text `{"ID":1}` decodes into that `GetUserInput`. The other bodies of the
examples start with `nope` or with bytes that are no JSON text, and do not decode. -/
def exampleDecode (t : TypeId) (body : Body) : Option Value :=
  if t = 1 ∧ bytesIdOne.isPrefixOf body.data then some inputOne else none

/-- The text of `Sprintf("%f", float64(us)/1000.0)` for a count of microseconds from
zero up to the numbers of thousandths that `float64` and six decimals tell apart:
the milliseconds, a point, the three digits of the thousandths and three zeros. -/
def exampleFormatFloat (us : Int) : String :=
  let thousandths := us.toNat % 1000
  toString (us.toNat / 1000) ++ "." ++
    (if thousandths < 10 then "00" else if thousandths < 100 then "0" else "") ++
    toString thousandths ++ "000"

/-- A procedure `FindUser(ctx *Context, in GetUserInput) (User, error)` that returns
the zero `User` and `errors.New(text)`. -/
def failingProc (text : String) : ProcFunc (Option Value) :=
  { fullName := "main.FindUser",
    call := fun ctx _ =>
      { returned := .values
          (some { kind := .Struct, stringer := none, str := none,
                  json := .returns (some "\x7b\"Name\":\"\"\x7d") })
          (some text),
        context := ctx, events := [] },
    In1 := 1, Out0 := 2 }

/-- A procedure `Anything(ctx *Context, in GetUserInput) (any, error)` that returns
`nil, nil`. -/
def nilProc : ProcFunc (Option Value) :=
  { fullName := "main.Anything",
    call := fun ctx _ => { returned := .values none none, context := ctx, events := [] },
    In1 := 1, Out0 := 9 }

/-! ## The request context: specifications -/

/-- Specification (C23): the token of a request, the value of the header
`x-auth-token` when it is not empty, otherwise the value of the cookie `authToken`,
otherwise the empty string. -/
def tokenOf (req : Request) : String :=
  if req.Header "x-auth-token" ≠ "" then req.Header "x-auth-token"
  else
    match req.Cookie "authToken" with
    | some c => c.2
    | none => ""

/-- A GET request with the given values of the header `x-auth-token` and of the
cookie `authToken`. -/
def requestWith (header : String) (cookie : Option String) : Request :=
  { Method := "GET", RequestURI := "/", Header := fun key => if key = "x-auth-token" then header else "",
    Cookie := fun name =>
      if name = "authToken" then cookie.map (fun value => ("authToken", value)) else none,
    Body := { data := [], err := false } }

/-! ## The queued packages -/

/-- Specification (C24): a list without its duplicates, in the order of the first
occurrences. -/
def keepFirst : List String → List String
  | [] => []
  | x :: xs => x :: (keepFirst xs).filter (fun y => decide (y ≠ x))

/-- Specification (C24): the package paths of the processed types that are not of
struct kind, in the order the types were processed. -/
def scalarPackages (env : TypeEnv) (processed : List TypeId) : List String :=
  (processed.filter (fun t => decide ((env t).kind ≠ .Struct))).map (fun t => (env t).PkgPath)

/-- The invariant of the package queue: no package is marked as processed, and the
queue holds the first occurrences of the package paths of the processed types that
are not structs. -/
def PkgInv (env : TypeEnv) (b : Bridge) : Prop :=
  b.ProcessedPackages = [] ∧ b.QueuedPackages = keepFirst (scalarPackages env b.ProcessedTypes)

/-- The type graph of
    type Shape struct { Kind geo.Kind; At geo.Point; Size units.Length }
in package `app`, with `geo.Kind int`, `geo.Point struct { X int; Y int }` and
`units.Length int`: `0` Shape, `1` geo.Kind, `2` geo.Point, `3` units.Length, `4`
int. Package `pts` of `5` `pts.Pair struct { A int }` contributes a record only. -/
def pkgEnv : TypeEnv
  | 0 => mkType .Struct "Shape" "app.Shape" "app" 0 0
      [mkField "Kind" 1, mkField "At" 2, mkField "Size" 3, mkField "Pair" 5]
  | 1 => mkType .Int "Kind" "geo.Kind" "geo" 0 0 []
  | 2 => mkType .Struct "Point" "geo.Point" "geo" 0 0 [mkField "X" 4, mkField "Y" 4]
  | 3 => mkType .Int "Length" "units.Length" "units" 0 0 []
  | 4 => mkType .Int "int" "int" "" 0 0 []
  | 5 => mkType .Struct "Pair" "pts.Pair" "pts" 0 0 [mkField "A" 4]
  | _ => mkType .Invalid "" "" "" 0 0 []

/-- Sources in which only package `pts` parses, to the file `errorDecls` with two
sentinel errors. -/
def ptsSources : Sources :=
  fun path => if path = "pts" then some [{ Files := [fileOf errorDecls] }] else none

/-- What `Process` returns for the root `Shape` of `pkgEnv`, with `noSources` as
with `ptsSources`. -/
def pkgResult : Bridge :=
  { Bridge.empty with
    Structs := [{ Name := "Shape",
                  Fields := [{ Name := "Kind", TypeName := "Kind", TypeCustom := false },
                             { Name := "At", TypeName := "Point", TypeCustom := false },
                             { Name := "Size", TypeName := "Length", TypeCustom := false },
                             { Name := "Pair", TypeName := "Pair", TypeCustom := false }] },
                { Name := "Point",
                  Fields := [{ Name := "X", TypeName := "number", TypeCustom := false },
                             { Name := "Y", TypeName := "number", TypeCustom := false }] },
                { Name := "Pair",
                  Fields := [{ Name := "A", TypeName := "number", TypeCustom := false }] }],
    Enums := [{ Name := "Kind", TypeName := "number", Consts := [] },
              { Name := "Length", TypeName := "number", Consts := [] }],
    ProcessedTypes := [0, 1, 2, 3, 5],
    QueuedPackages := ["geo", "units"] }

/-! ## The invocation of a procedure: specifications -/

/-- Specification (C21): the procedure and the argument with which a request reaches
invocation in `HandleRPC`; `none` for a client request error. -/
def rpcInvocation (httpRequestPtr : TypeId) (decode : TypeId → Body → Option Value)
    (app : Application) (request : Request) : Option (ProcedureInfo × Input) :=
  if request.Method ≠ "POST" then none
  else
    match app.procMap (stringsTrimPrefix request.RequestURI "/rpc/") with
    | none => none
    | some proc =>
      if proc.InputType = httpRequestPtr then
        some (proc, .request { request with Body := MaxBytesReader request.Body proc.MaxBytes })
      else
        (decode proc.InputType (MaxBytesReader request.Body proc.MaxBytes)).map
          (fun x => (proc, Input.object x))

/-- Specification (C21): the data procedure with which a request reaches invocation
in `HandleData`. -/
def dataInvocation (app : Application) (request : Request) : Option DataProcInfo :=
  if request.Method ≠ "GET" then none
  else app.dataProcMap (stringsTrimPrefix request.RequestURI "/data/")

/-- The transactions that are open after a list of events, from those open before
it; `none` when a transaction is closed that is not open. Closing the nil
transaction closes nothing. -/
def openAfter : List Event → List vbolt.Tx → Option (List vbolt.Tx)
  | [], txs => some txs
  | .ReadTx db :: rest, txs => openAfter rest ({ db := db, writable := false } :: txs)
  | .WriteTx db :: rest, txs => openAfter rest ({ db := db, writable := true } :: txs)
  | .TxClose none :: rest, txs => openAfter rest txs
  | .TxClose (some tx) :: rest, txs =>
    if tx ∈ txs then openAfter rest (txs.erase tx) else none
  | .Call _ :: rest, txs => openAfter rest txs
  | .Effect _ :: rest, txs => openAfter rest txs

/-- A procedure that touches the transaction of its context through `UseWriteTx`
only: from the context it is given to the context it leaves, with the events it
leaves, whether or not it ends in a panic. -/
inductive Uses : Context → Context → List Event → Prop
  | done (ctx : Context) : Uses ctx ctx []
  | effect (ctx ctx' : Context) (what : String) (events : List Event) :
      Uses ctx ctx' events → Uses ctx ctx' (.Effect what :: events)
  | write (ctx ctx' : Context) (events : List Event) :
      Uses (UseWriteTx ctx).1 ctx' events → Uses ctx ctx' ((UseWriteTx ctx).2 ++ events)

/-- A procedure `Save(ctx *Context, in GetUserInput) (User, error)` that calls
`UseWriteTx`, writes, and panics. -/
def saveProc : ProcFunc (Option Value) :=
  { fullName := "main.Save",
    call := fun ctx _ =>
      { returned := .panic, context := (UseWriteTx ctx).1,
        events := (UseWriteTx ctx).2 ++ [.Effect "write user"] },
    In1 := 1, Out0 := 2 }

/-- The application with a database and the procedure `Save`. -/
def saveApp : Application :=
  RegisterProc (NewApplication "app" (some 0)) saveProc

/-! ## The operations satisfy their big-step readings -/

theorem Decide_translates (env : TypeEnv) : ∀ (fuel : Nat) (b b' : Bridge) (t : TypeId)
    (s : String), DecideTypescriptTypeName env fuel b t = .ok (b', s) →
    Translates env b t b' s := by
  intro fuel
  induction fuel with
  | zero => intro b b' t s h; simp [DecideTypescriptTypeName] at h
  | succ n ih =>
    intro b b' t s h
    unfold DecideTypescriptTypeName at h
    simp only at h
    split_ifs at h with h1 h2 h3 h4 h5 h6 h7 h8 h9 h10
    · cases h; exact .struct b t h1
    · cases h; exact .named b t (Or.inl h2) h3
    · cases h; exact .number b t h2 (not_not.1 h3)
    · cases h; exact .named b t (Or.inr h4) h5
    · cases h; exact .string b t h4 (not_not.1 h5)
    · cases h; exact .bool b t h6
    · cases hd : DecideTypescriptTypeName env n b (env t).Elem with
      | error e => simp [hd] at h
      | ok r =>
        obtain ⟨b1, el⟩ := r
        simp only [hd] at h
        have := Translates.seq b b1 t el h7 (ih _ _ _ _ hd)
        split_ifs at h with he <;> cases h <;> simpa [he] using this
    · cases hd : DecideTypescriptTypeName env n b (env t).Elem with
      | error e => simp [hd] at h
      | ok r =>
        obtain ⟨b1, el⟩ := r
        simp only [hd] at h
        have hel := ih _ _ _ _ hd
        split_ifs at h with he
        · cases h; subst he; exact .mapNoElem b b' t h8 hel
        · cases hk : DecideTypescriptTypeName env n b1 (env t).Key with
          | error e => simp [hk] at h
          | ok r2 =>
            obtain ⟨b2, k⟩ := r2
            simp only [hk] at h
            have := Translates.map b b1 b2 t el k h8 hel he (ih _ _ _ _ hk)
            split_ifs at h with hke <;> cases h <;> simpa [hke] using this
    · cases hd : DecideTypescriptTypeName env n b (env t).Elem with
      | error e => simp [hd] at h
      | ok r =>
        obtain ⟨b1, el⟩ := r
        simp only [hd] at h
        have := Translates.ptr b b1 t el h9 (ih _ _ _ _ hd)
        split_ifs at h with he <;> cases h <;> simpa [he] using this
    · cases h; exact .any b t h10
    · cases h
      refine .unknown b t ?_ h2
      simp only [List.mem_cons, List.mem_singleton, List.not_mem_nil, or_false, not_or]
      exact ⟨h1, h4, h6, fun h => h7 (Or.inl h), fun h => h7 (Or.inr h), h8, h9, h10⟩

theorem addFieldsLoop_adds (env : TypeEnv)
    (recur : Bridge → StructInfo → TypeId → Except Fault (Bridge × StructInfo))
    (decide : Bridge → TypeId → Except Fault (Bridge × String))
    (hrec : ∀ b s t b' s', recur b s t = .ok (b', s') →
      (env t).kind = .Struct ∧ s'.Name = s.Name ∧ Adds env b s.Fields (env t).Fields b' s'.Fields)
    (hdec : ∀ b t b' s, decide b t = .ok (b', s) → Translates env b t b' s) :
    ∀ (fields : List reflect.StructField) (b : Bridge) (sinfo : StructInfo) (b' : Bridge)
      (sinfo' : StructInfo),
      addFieldsLoop env recur decide fields b sinfo = .ok (b', sinfo') →
      sinfo'.Name = sinfo.Name ∧ Adds env b sinfo.Fields fields b' sinfo'.Fields := by
  intro fields
  induction fields with
  | nil =>
    intro b sinfo b' sinfo' h
    simp only [addFieldsLoop, Except.ok.injEq, Prod.mk.injEq] at h
    obtain ⟨rfl, rfl⟩ := h
    exact ⟨rfl, .nil _ _⟩
  | cons f rest ih =>
    intro b sinfo b' sinfo' h
    unfold addFieldsLoop at h
    by_cases ha : f.Anonymous = true
    · simp only [ha, if_true] at h
      cases hr : recur (b.QueueType env f.Typ) sinfo f.Typ with
      | error e => simp [hr] at h
      | ok r =>
        obtain ⟨b1, s1⟩ := r
        simp only [hr] at h
        obtain ⟨hk, hn, hadds⟩ := hrec _ _ _ _ _ hr
        obtain ⟨hn2, hadds2⟩ := ih _ _ _ _ h
        exact ⟨hn2.trans hn, .embed _ _ _ _ _ _ _ _ ha hk hadds hadds2⟩
    · have ha' : f.Anonymous = false := by simpa using ha
      simp only [ha', Bool.false_eq_true, if_false] at h
      cases hj : applyJsonTag f.jsonTag (rawField env f) with
      | none =>
        simp only [rawField] at hj
        simp only [hj] at h
        obtain ⟨hn2, hadds2⟩ := ih _ _ _ _ h
        exact ⟨hn2, .omitted _ _ _ _ _ _ ha' (by simpa [rawField] using hj) hadds2⟩
      | some sf =>
        have hj' := hj
        simp only [rawField] at hj
        simp only [hj] at h
        by_cases hc : (applyTsTag f.tsTag sf).TypeCustom = true
        · simp only [hc, not_true_eq_false, if_false] at h
          obtain ⟨hn2, hadds2⟩ := ih _ _ _ _ h
          exact ⟨hn2, .custom _ _ _ _ _ _ sf ha' hj' hc hadds2⟩
        · have hc' : (applyTsTag f.tsTag sf).TypeCustom = false := by simpa using hc
          simp only [hc', Bool.false_eq_true, not_false_eq_true, if_true] at h
          cases hd : decide b f.Typ with
          | error e => simp [hd] at h
          | ok r =>
            obtain ⟨b1, s⟩ := r
            simp only [hd] at h
            obtain ⟨hn2, hadds2⟩ := ih _ _ _ _ h
            refine ⟨hn2, .plain _ _ _ _ _ _ _ sf s ha' hj' hc' (hdec _ _ _ _ hd) ?_⟩
            simpa [hc'] using hadds2

theorem AddStructFields_adds (env : TypeEnv) :
    ∀ (fuel : Nat) (b : Bridge) (sinfo : StructInfo)
    (t : TypeId) (b' : Bridge) (sinfo' : StructInfo),
    AddStructFields env fuel b sinfo t = .ok (b', sinfo') →
    (env t).kind = .Struct ∧ sinfo'.Name = sinfo.Name ∧
      Adds env b sinfo.Fields (env t).Fields b' sinfo'.Fields := by
  intro fuel
  induction fuel with
  | zero => intro b sinfo t b' sinfo' h; simp [AddStructFields] at h
  | succ n ih =>
    intro b sinfo t b' sinfo' h
    unfold AddStructFields at h
    split_ifs at h with hk
    have hk' : (env t).kind = .Struct := not_not.1 hk
    exact ⟨hk', addFieldsLoop_adds env _ _ ih (fun b t b1 s hd => Decide_translates env n b b1 t s hd) _ _ _ _ _ h⟩

/-! ## Frame of the queueing operations -/

theorem Ext_refl (b : Bridge) : Ext b b :=
  ⟨rfl, rfl, rfl, rfl, rfl, rfl, [], by simp, by simp, by simp⟩

theorem Ext_trans {a b c : Bridge} (h1 : Ext a b) (h2 : Ext b c) : Ext a c := by
  obtain ⟨e1, q1, n1, f1⟩ := h1.queue
  obtain ⟨e2, q2, n2, f2⟩ := h2.queue
  refine ⟨h2.structs.trans h1.structs, h2.enums.trans h1.enums, h2.errors.trans h1.errors,
    h2.processed.trans h1.processed, h2.qpkgs.trans h1.qpkgs, h2.ppkgs.trans h1.ppkgs,
    e1 ++ e2, ?_, ?_, ?_⟩
  · rw [q2, q1, List.append_assoc]
  · rw [List.nodup_append]
    refine ⟨n1, n2, ?_⟩
    intro u hu1 hu2
    have := (f2 u hu2).1
    rw [q1] at this
    exact this (List.mem_append_right _ hu1)
  · intro u hu
    rcases List.mem_append.1 hu with hu | hu
    · exact f1 u hu
    · have h := f2 u hu
      rw [q1, h1.processed] at h
      exact ⟨fun hq => h.1 (List.mem_append_left _ hq), h.2⟩

theorem QueueType_ext (env : TypeEnv) (b : Bridge) (t : TypeId) : Ext b (b.QueueType env t) := by
  unfold Bridge.QueueType
  split
  · exact Ext_refl b
  · split
    · exact Ext_refl b
    · split
      · exact Ext_refl b
      · rename_i hq hp
        exact ⟨rfl, rfl, rfl, rfl, rfl, rfl, [t], rfl, by simp, by simpa using ⟨hq, hp⟩⟩

theorem Translates_ext {env : TypeEnv} {b b' : Bridge} {t : TypeId} {s : String}
    (h : Translates env b t b' s) : Ext b b' := by
  induction h with
  | struct b t _ => exact QueueType_ext env b t
  | named b t _ _ => exact QueueType_ext env b t
  | number | string | bool | any | unknown => exact Ext_refl _
  | seq _ _ _ _ _ _ ih => exact ih
  | mapNoElem _ _ _ _ _ ih => exact ih
  | map _ _ _ _ _ _ _ _ _ _ ih1 ih2 => exact Ext_trans ih1 ih2
  | ptr _ _ _ _ _ _ ih => exact ih

theorem Adds_ext {env : TypeEnv} {b b' : Bridge} {acc acc' : List StructField}
    {fs : List reflect.StructField} (h : Adds env b acc fs b' acc') : Ext b b' := by
  induction h with
  | nil => exact Ext_refl _
  | embed b _ _ _ _ _ f _ _ _ _ _ ih1 ih2 => exact Ext_trans (Ext_trans (QueueType_ext env b f.Typ) ih1) ih2
  | omitted _ _ _ _ _ _ _ _ _ ih => exact ih
  | custom _ _ _ _ _ _ _ _ _ _ _ ih => exact ih
  | plain _ _ _ _ _ _ _ _ _ _ _ _ ht _ ih => exact Ext_trans (Translates_ext ht) ih

theorem Ext_nodup {b b' : Bridge} (h : Ext b b')
    (hn : (b.ProcessedTypes ++ b.QueuedTypes).Nodup) :
    (b'.ProcessedTypes ++ b'.QueuedTypes).Nodup := by
  obtain ⟨e, q, n, f⟩ := h.queue
  rw [h.processed, q, ← List.append_assoc, List.nodup_append]
  refine ⟨hn, n, ?_⟩
  intro u hu1 hu2
  rcases List.mem_append.1 hu1 with hu | hu
  · exact (f u hu2).2 hu
  · exact (f u hu2).1 hu

/-! ## The worklist loop -/

theorem QueuePackage_frame (b : Bridge) (p : String) :
    (b.QueuePackage p).Structs = b.Structs ∧ (b.QueuePackage p).Enums = b.Enums ∧
    (b.QueuePackage p).Errors = b.Errors ∧
    (b.QueuePackage p).ProcessedTypes = b.ProcessedTypes ∧
    (b.QueuePackage p).QueuedTypes = b.QueuedTypes := by
  unfold Bridge.QueuePackage
  split_ifs <;> simp

/-- What one call of `processType` does. -/
theorem processType_cases (env : TypeEnv) (fuel : Nat) (b b1 : Bridge) (t : TypeId)
    (h : processType env fuel b t = .ok b1) :
    ((env t).kind = .Struct ∧ ∃ bm sinfo, AddStructFields env fuel b
        { Name := (env t).Name, Fields := [] } t = .ok (bm, sinfo) ∧
        b1 = { bm with Structs := bm.Structs ++ [sinfo],
                       ProcessedTypes := bm.ProcessedTypes ++ [t] }) ∨
    ((env t).kind ≠ .Struct ∧
      b1 = { b.QueuePackage (env t).PkgPath with
        Enums := (b.QueuePackage (env t).PkgPath).Enums ++
          [{ Name := (env t).Name, TypeName := DecideEnumTypeName env t, Consts := [] }],
        ProcessedTypes := (b.QueuePackage (env t).PkgPath).ProcessedTypes ++ [t] }) := by
  unfold processType at h
  split_ifs at h with hk
  · left
    refine ⟨hk, ?_⟩
    cases ha : AddStructFields env fuel b { Name := (env t).Name, Fields := [] } t with
    | error e => simp [ha] at h
    | ok r =>
      obtain ⟨bm, sinfo⟩ := r
      simp only [ha, Except.ok.injEq] at h
      exact ⟨bm, sinfo, rfl, h.symm⟩
  · right
    simp only [Except.ok.injEq] at h
    exact ⟨hk, h.symm⟩

theorem nodup_step {P rest extra : List TypeId} {t : TypeId}
    (h : (P ++ ((t :: rest) ++ extra)).Nodup) : ((P ++ [t]) ++ (rest ++ extra)).Nodup := by
  have hp : (P ++ ((t :: rest) ++ extra)).Perm ((P ++ [t]) ++ (rest ++ extra)) := by
    simp
  exact hp.nodup_iff.1 h

/-- One iteration of the first loop of `Process` keeps the invariant, moves the
head of the queue to the processed list and only adds to the end of the queue. -/
theorem step_inv (env : TypeEnv) (fuel : Nat) (b b1 : Bridge) (t : TypeId)
    (rest : List TypeId) (hq : b.QueuedTypes = t :: rest)
    (h : processType env fuel b t = .ok b1) (hinv : Inv env b) :
    Inv env { b1 with QueuedTypes := b1.QueuedTypes.tail } ∧
    b1.ProcessedTypes = b.ProcessedTypes ++ [t] ∧
    ∃ extra, b1.QueuedTypes.tail = rest ++ extra := by
  obtain ⟨hn, hs, he⟩ := hinv
  rcases processType_cases env fuel b b1 t h with ⟨hk, bm, sinfo, ha, rfl⟩ | ⟨hk, rfl⟩
  · obtain ⟨_, hname, hadds⟩ := AddStructFields_adds env fuel _ _ _ _ _ ha
    have hext := Adds_ext hadds
    obtain ⟨extra, hqe, _, _⟩ := hext.queue
    have hn' := Ext_nodup hext hn
    simp only at hname
    refine ⟨⟨?_, ?_, ?_⟩, ?_, extra, ?_⟩
    · simp only [hext.processed, hqe, hq, List.cons_append, List.tail_cons]
      rw [hext.processed, hqe, hq] at hn'
      exact nodup_step hn'
    · simp [hext.structs, hext.processed, hs, hk, hname, List.filter_append]
    · simp [hext.enums, hext.processed, he, hk, List.filter_append]
    · simp [hext.processed]
    · simp [hqe, hq]
  · obtain ⟨f1, f2, f3, f4, f5⟩ := QueuePackage_frame b (env t).PkgPath
    refine ⟨⟨?_, ?_, ?_⟩, ?_, [], ?_⟩
    · simp only [f4, f5, hq, List.tail_cons]
      rw [hq] at hn
      simpa using @nodup_step _ _ [] _ (by simpa using hn)
    · simp [f1, f4, hs, hk, List.filter_append]
    · simp [f2, f4, he, hk, List.filter_append]
    · simp [f4]
    · simp [f5, hq]

theorem processQueue_inv (env : TypeEnv) (fuel : Nat) : ∀ (steps : Nat) (b b' : Bridge),
    processQueue env fuel steps b = .ok b' → Inv env b → Inv env b' ∧ b'.QueuedTypes = [] := by
  intro steps
  induction steps with
  | zero =>
    intro b b' h hinv
    unfold processQueue at h
    split_ifs at h with hq
    cases h
    exact ⟨hinv, hq⟩
  | succ n ih =>
    intro b b' h hinv
    unfold processQueue at h
    cases hq : b.QueuedTypes with
    | nil =>
      simp only [hq, Except.ok.injEq] at h
      subst h
      exact ⟨hinv, hq⟩
    | cons t rest =>
      simp only [hq] at h
      cases hp : processType env fuel b t with
      | error e => simp [hp] at h
      | ok b1 =>
        simp only [hp] at h
        exact ih _ _ h (step_inv env fuel b b1 t rest hq hp hinv).1

theorem queueRoots_ext (env : TypeEnv) (roots : List TypeId) (b : Bridge) :
    Ext b (roots.foldl (Bridge.QueueType env) b) := by
  induction roots generalizing b with
  | nil => exact Ext_refl b
  | cons r rs ih => exact Ext_trans (QueueType_ext env b r) (ih _)

theorem queueRoots_inv (env : TypeEnv) (roots : List TypeId) : Inv env (queueRoots env roots) := by
  have hext := queueRoots_ext env roots Bridge.empty
  refine ⟨?_, ?_, ?_⟩
  · exact Ext_nodup hext (by simp [Bridge.empty])
  · show (queueRoots env roots).Structs.map _ = ((queueRoots env roots).ProcessedTypes.filter _).map _
    unfold queueRoots
    rw [hext.structs, hext.processed]; simp [Bridge.empty]
  · show (queueRoots env roots).Enums.map _ = ((queueRoots env roots).ProcessedTypes.filter _).map _
    unfold queueRoots
    rw [hext.enums, hext.processed]; simp [Bridge.empty]

/-! ## Frame of the constant recovery -/

theorem modifyAt_map {β : Type} (f : EnumInfo → EnumInfo) (g : EnumInfo → β)
    (hf : ∀ e, g (f e) = g e) : ∀ (es : List EnumInfo) (i : Nat),
    (modifyAt f es i).map g = es.map g := by
  intro es
  induction es with
  | nil => intro i; rfl
  | cons e es ih =>
    intro i
    cases i with
    | zero => simp [modifyAt, hf]
    | succ i => simp [modifyAt, ih]

theorem constSpecsLoop_key (typesMap : String → Option Nat) (values : String → GoAny) :
    ∀ (specs : List ast.Spec) (enumInfo : Option Nat) (enums enums' : List EnumInfo),
    constSpecsLoop typesMap values specs enumInfo enums = .ok enums' →
    enums'.map (fun e => (e.Name, e.TypeName)) = enums.map (fun e => (e.Name, e.TypeName)) := by
  intro specs
  induction specs with
  | nil =>
    intro enumInfo enums enums' h
    simp only [constSpecsLoop, Except.ok.injEq] at h
    rw [h]
  | cons spec rest ih =>
    intro enumInfo enums enums' h
    cases spec with
    | Other => simp [constSpecsLoop] at h
    | ValueSpec v =>
      unfold constSpecsLoop at h
      split at h
      · exact ih _ _ _ h
      · rw [ih _ _ _ h]
        exact modifyAt_map
          (fun e => { e with Consts := appendConsts values v.Names e.Consts })
          (fun e => (e.Name, e.TypeName)) (fun e => rfl) _ _

theorem constDeclsLoop_key (typesMap : String → Option Nat) (values : String → GoAny) :
    ∀ (decls : List ast.Decl) (enums enums' : List EnumInfo),
    constDeclsLoop typesMap values decls enums = .ok enums' →
    enums'.map (fun e => (e.Name, e.TypeName)) = enums.map (fun e => (e.Name, e.TypeName)) := by
  intro decls
  induction decls with
  | nil =>
    intro enums enums' h
    simp only [constDeclsLoop, Except.ok.injEq] at h
    rw [h]
  | cons decl rest ih =>
    intro enums enums' h
    cases decl with
    | Other => exact ih _ _ (by simpa [constDeclsLoop] using h)
    | GenDecl tok specs =>
      unfold constDeclsLoop at h
      split_ifs at h with ht
      · exact ih _ _ h
      · cases hs : constSpecsLoop typesMap values specs none enums with
        | error e => simp [hs] at h
        | ok enums1 =>
          simp only [hs] at h
          rw [ih _ _ h, constSpecsLoop_key _ _ _ _ _ _ hs]

theorem PkgFrame_refl (b : Bridge) : PkgFrame b b := ⟨rfl, rfl, rfl, rfl, rfl, rfl⟩

theorem PkgFrame_trans {a b c : Bridge} (h1 : PkgFrame a b) (h2 : PkgFrame b c) :
    PkgFrame a c :=
  ⟨h2.structs.trans h1.structs, h2.processed.trans h1.processed, h2.queue.trans h1.queue,
    h2.qpkgs.trans h1.qpkgs, h2.ppkgs.trans h1.ppkgs, h2.enums.trans h1.enums⟩

theorem processFile_frame (typesMap : String → Option Nat) (file : ast.File) (b b' : Bridge)
    (h : processFile typesMap file b = .ok b') : PkgFrame b b' := by
  unfold processFile at h
  cases hc : constDeclsLoop typesMap (nameValues file.ScopeObjects) file.Decls b.Enums with
  | error e => simp [hc] at h
  | ok enums =>
    simp only [hc] at h
    cases he : errorDeclsLoop file.Decls b.Errors with
    | error e => simp [he] at h
    | ok errors =>
      simp only [he, Except.ok.injEq] at h
      subst h
      exact ⟨rfl, rfl, rfl, rfl, rfl, constDeclsLoop_key _ _ _ _ _ hc⟩

theorem processFiles_frame (typesMap : String → Option Nat) : ∀ (files : List ast.File)
    (b b' : Bridge), processFiles typesMap files b = .ok b' → PkgFrame b b' := by
  intro files
  induction files with
  | nil =>
    intro b b' h
    simp only [processFiles, Except.ok.injEq] at h
    subst h
    exact PkgFrame_refl b
  | cons file rest ih =>
    intro b b' h
    unfold processFiles at h
    cases hf : processFile typesMap file b with
    | error e => simp [hf] at h
    | ok b1 =>
      simp only [hf] at h
      exact PkgFrame_trans (processFile_frame _ _ _ _ hf) (ih _ _ h)

theorem ProcessPackage_frame (src : Sources) (b b' : Bridge) (pkgPath : String)
    (h : ProcessPackage src b pkgPath = .ok b') : PkgFrame b b' := by
  unfold ProcessPackage at h
  cases hs : src pkgPath with
  | none =>
    simp only [hs, Except.ok.injEq] at h
    subst h
    exact PkgFrame_refl b
  | some pkgs =>
    simp only [hs] at h
    exact processFiles_frame _ _ _ _ h

theorem processPackages_frame (src : Sources) : ∀ (paths : List String) (b b' : Bridge),
    processPackages src paths b = .ok b' → PkgFrame b b' := by
  intro paths
  induction paths with
  | nil =>
    intro b b' h
    simp only [processPackages, Except.ok.injEq] at h
    subst h
    exact PkgFrame_refl b
  | cons p rest ih =>
    intro b b' h
    unfold processPackages at h
    cases hp : ProcessPackage src b p with
    | error e => simp [hp] at h
    | ok b1 =>
      simp only [hp] at h
      exact PkgFrame_trans (ProcessPackage_frame _ _ _ _ hp) (ih _ _ h)

theorem PkgFrame_inv {env : TypeEnv} {b b' : Bridge} (h : PkgFrame b b') (hinv : Inv env b) :
    Inv env b' := by
  obtain ⟨hn, hs, he⟩ := hinv
  refine ⟨?_, ?_, ?_⟩
  · rw [h.processed, h.queue]; exact hn
  · rw [h.structs, h.processed]; exact hs
  · rw [h.enums, h.processed]; exact he

/-- What `Process` returns splits into the result of the first loop and the
constant recovery on it. -/
theorem Process_cases (env : TypeEnv) (src : Sources) (fuel steps : Nat) (b b' : Bridge)
    (h : Process env src fuel steps b = .ok b') :
    ∃ b1, processQueue env fuel steps b = .ok b1 ∧
      processPackages src b1.QueuedPackages b1 = .ok b' := by
  unfold Process at h
  cases hq : processQueue env fuel steps b with
  | error e => simp [hq] at h
  | ok b1 =>
    simp only [hq] at h
    exact ⟨b1, rfl, h⟩

theorem Process_inv (env : TypeEnv) (src : Sources) (fuel steps : Nat) (b b' : Bridge)
    (h : Process env src fuel steps b = .ok b') (hinv : Inv env b) :
    Inv env b' ∧ b'.QueuedTypes = [] := by
  obtain ⟨b1, hq, hp⟩ := Process_cases env src fuel steps b b' h
  obtain ⟨hi, hq1⟩ := processQueue_inv env fuel steps b b1 hq hinv
  have hf := processPackages_frame src _ _ _ hp
  exact ⟨PkgFrame_inv hf hi, by rw [hf.queue]; exact hq1⟩

/-! ## Unfolding `DecideTypescriptTypeName` by kind -/

theorem Decide_struct (env : TypeEnv) (n : Nat) (b : Bridge) (t : TypeId)
    (h : (env t).kind = .Struct) :
    DecideTypescriptTypeName env (n + 1) b t = .ok (b.QueueType env t, (env t).Name) := by
  rw [DecideTypescriptTypeName]; simp only [h, if_true]

theorem Decide_numeric (env : TypeEnv) (n : Nat) (b : Bridge) (t : TypeId)
    (h : (env t).kind ∈ numericKinds) :
    DecideTypescriptTypeName env (n + 1) b t =
      if (env t).Str ≠ kindString (env t).kind then .ok (b.QueueType env t, (env t).Name)
      else .ok (b, "number") := by
  have h1 : (env t).kind ≠ .Struct := by
    intro hk; rw [hk] at h; simp [numericKinds] at h
  rw [DecideTypescriptTypeName]; simp only [h1, h, if_true, if_false]

theorem Decide_string (env : TypeEnv) (n : Nat) (b : Bridge) (t : TypeId)
    (h : (env t).kind = .String) :
    DecideTypescriptTypeName env (n + 1) b t =
      if (env t).Str ≠ kindString (env t).kind then .ok (b.QueueType env t, (env t).Name)
      else .ok (b, "string") := by
  rw [DecideTypescriptTypeName]; simp [h, numericKinds]

theorem Decide_bool (env : TypeEnv) (n : Nat) (b : Bridge) (t : TypeId)
    (h : (env t).kind = .Bool) :
    DecideTypescriptTypeName env (n + 1) b t = .ok (b, "boolean") := by
  rw [DecideTypescriptTypeName]; simp [h, numericKinds]

theorem Decide_seq (env : TypeEnv) (n : Nat) (b : Bridge) (t : TypeId)
    (h : (env t).kind = .Slice ∨ (env t).kind = .Array) :
    DecideTypescriptTypeName env (n + 1) b t =
      match DecideTypescriptTypeName env n b (env t).Elem with
      | .error e => .error e
      | .ok (b1, elementType) =>
        if elementType = "" then .ok (b1, "") else .ok (b1, elementType ++ "[]") := by
  rw [DecideTypescriptTypeName]
  rcases h with h | h <;> simp [h, numericKinds] <;> try rfl

theorem Decide_map (env : TypeEnv) (n : Nat) (b : Bridge) (t : TypeId)
    (h : (env t).kind = .Map) :
    DecideTypescriptTypeName env (n + 1) b t =
      match DecideTypescriptTypeName env n b (env t).Elem with
      | .error e => .error e
      | .ok (b1, elementType) =>
        if elementType = "" then .ok (b1, "")
        else
          match DecideTypescriptTypeName env n b1 (env t).Key with
          | .error e => .error e
          | .ok (b2, keyType) =>
            if keyType = "" then .ok (b2, "")
            else .ok (b2, "Record<" ++ keyType ++ ", " ++ elementType ++ ">") := by
  rw [DecideTypescriptTypeName]
  simp [h, numericKinds] <;> try rfl

theorem Decide_ptr (env : TypeEnv) (n : Nat) (b : Bridge) (t : TypeId)
    (h : (env t).kind = .Ptr) :
    DecideTypescriptTypeName env (n + 1) b t =
      match DecideTypescriptTypeName env n b (env t).Elem with
      | .error e => .error e
      | .ok (b1, elementType) =>
        if elementType = "" then .ok (b1, "") else .ok (b1, elementType ++ " | null") := by
  rw [DecideTypescriptTypeName]
  simp [h, numericKinds] <;> try rfl

theorem Decide_interface (env : TypeEnv) (n : Nat) (b : Bridge) (t : TypeId)
    (h : (env t).kind = .Interface) :
    DecideTypescriptTypeName env (n + 1) b t = .ok (b, "any") := by
  rw [DecideTypescriptTypeName]; simp [h, numericKinds]

theorem Decide_unknown (env : TypeEnv) (n : Nat) (b : Bridge) (t : TypeId)
    (h : (env t).kind ∉ [Kind.Struct, .String, .Bool, .Slice, .Array, .Map, .Ptr, .Interface])
    (h2 : (env t).kind ∉ numericKinds) :
    DecideTypescriptTypeName env (n + 1) b t = .ok (b, "unknown") := by
  simp only [List.mem_cons, List.mem_singleton, List.not_mem_nil, or_false, not_or] at h
  obtain ⟨a1, a2, a3, a4, a5, a6, a7, a8⟩ := h
  rw [DecideTypescriptTypeName]
  simp only [a1, a2, a3, a4, a5, a6, a7, a8, h2, if_false, or_self]

/-- The kinds split into the cases of the `switch`. -/
theorem kind_cases (k : Kind) :
    k = .Struct ∨ k ∈ numericKinds ∨ k = .String ∨ k = .Bool ∨ (k = .Slice ∨ k = .Array) ∨
    k = .Map ∨ k = .Ptr ∨ k = .Interface ∨
    (k ∉ [Kind.Struct, .String, .Bool, .Slice, .Array, .Map, .Ptr, .Interface] ∧
      k ∉ numericKinds) := by
  cases k <;> simp [numericKinds]

/-! ## Totality on well-founded type graphs -/

theorem Decide_total (env : TypeEnv) (S : List TypeId) (rank : TypeId → Nat)
    (hS : Closed env S) (hr : CompositeRanked env S rank) :
    ∀ (fuel : Nat) (t : TypeId), t ∈ S → rank t < fuel → ∀ b : Bridge,
      ∃ b' s, DecideTypescriptTypeName env fuel b t = .ok (b', s) := by
  intro fuel
  induction fuel with
  | zero => intro t _ h; omega
  | succ n ih =>
    intro t ht hrank b
    have hc := hS t ht
    have hrk := hr t ht
    rcases kind_cases (env t).kind with h | h | h | h | h | h | h | h | ⟨h, h2⟩
    · exact ⟨_, _, Decide_struct env n b t h⟩
    · rw [Decide_numeric env n b t h]; split_ifs <;> exact ⟨_, _, rfl⟩
    · rw [Decide_string env n b t h]; split_ifs <;> exact ⟨_, _, rfl⟩
    · exact ⟨_, _, Decide_bool env n b t h⟩
    · have hk : (env t).kind ∈ [Kind.Slice, Kind.Array, Kind.Map, Kind.Ptr] := by
        rcases h with h | h <;> simp [h]
      obtain ⟨b1, el, he⟩ := ih _ (hc.1 hk) (by have := hrk.1 hk; omega) b
      rw [Decide_seq env n b t h, he]; simp only
      split_ifs <;> exact ⟨_, _, rfl⟩
    · have hk : (env t).kind ∈ [Kind.Slice, Kind.Array, Kind.Map, Kind.Ptr] := by simp [h]
      obtain ⟨b1, el, he⟩ := ih _ (hc.1 hk) (by have := hrk.1 hk; omega) b
      rw [Decide_map env n b t h, he]; simp only
      split_ifs
      · exact ⟨_, _, rfl⟩
      · obtain ⟨b2, k, hk2⟩ := ih _ (hc.2.1 h) (by have := hrk.2 h; omega) b1
        rw [hk2]; simp only
        split_ifs <;> exact ⟨_, _, rfl⟩
    · have hk : (env t).kind ∈ [Kind.Slice, Kind.Array, Kind.Map, Kind.Ptr] := by simp [h]
      obtain ⟨b1, el, he⟩ := ih _ (hc.1 hk) (by have := hrk.1 hk; omega) b
      rw [Decide_ptr env n b t h, he]; simp only
      split_ifs <;> exact ⟨_, _, rfl⟩
    · exact ⟨_, _, Decide_interface env n b t h⟩
    · exact ⟨_, _, Decide_unknown env n b t h h2⟩

theorem addFieldsLoop_total (env : TypeEnv)
    (recur : Bridge → StructInfo → TypeId → Except Fault (Bridge × StructInfo))
    (decide : Bridge → TypeId → Except Fault (Bridge × String)) :
    ∀ (fields : List reflect.StructField),
      (∀ f ∈ fields, f.Anonymous = true → ∀ b s, ∃ b' s', recur b s f.Typ = .ok (b', s')) →
      (∀ f ∈ fields, f.Anonymous = false → ∀ b, ∃ b' s, decide b f.Typ = .ok (b', s)) →
      ∀ (b : Bridge) (sinfo : StructInfo),
        ∃ b' sinfo', addFieldsLoop env recur decide fields b sinfo = .ok (b', sinfo') := by
  intro fields
  induction fields with
  | nil => intro _ _ b sinfo; exact ⟨b, sinfo, rfl⟩
  | cons f rest ih =>
    intro hrec hdec b sinfo
    have ih' := ih (fun g hg => hrec g (List.mem_cons_of_mem _ hg))
      (fun g hg => hdec g (List.mem_cons_of_mem _ hg))
    unfold addFieldsLoop
    by_cases ha : f.Anonymous = true
    · simp only [ha, if_true]
      obtain ⟨b1, s1, h1⟩ := hrec f (List.mem_cons_self _ _) ha (b.QueueType env f.Typ) sinfo
      rw [h1]
      exact ih' b1 s1
    · have ha' : f.Anonymous = false := by simpa using ha
      simp only [ha', Bool.false_eq_true, if_false]
      cases hj : applyJsonTag f.jsonTag
          { Name := f.Name, TypeName := (env f.Typ).Name, TypeCustom := false } with
      | none => exact ih' b sinfo
      | some sf =>
        simp only
        split_ifs with hc
        · exact ih' _ _
        · obtain ⟨b1, s, h1⟩ := hdec f (List.mem_cons_self _ _) ha' b
          rw [h1]
          exact ih' _ _

theorem AddStructFields_total (env : TypeEnv) (S : List TypeId) (crank erank : TypeId → Nat)
    (hS : Closed env S) (hc : CompositeRanked env S crank) (he : EmbedRanked env S erank) :
    ∀ (fuel : Nat) (t : TypeId), t ∈ S → (env t).kind = .Struct →
      (∀ u ∈ S, erank t + crank u + 2 ≤ fuel) → ∀ (b : Bridge) (sinfo : StructInfo),
      ∃ b' sinfo', AddStructFields env fuel b sinfo t = .ok (b', sinfo') := by
  intro fuel
  induction fuel with
  | zero => intro t ht _ h; have := h t ht; omega
  | succ n ih =>
    intro t ht hk hf b sinfo
    unfold AddStructFields
    simp only [hk, ne_eq, not_true_eq_false, if_false]
    have hfields := (hS t ht).2.2 hk
    apply addFieldsLoop_total
    · intro f hfm ha b1 s1
      obtain ⟨hk', hlt⟩ := he t ht hk f hfm ha
      exact ih f.Typ (hfields f hfm) hk' (fun u hu => by have := hf u hu; omega) b1 s1
    · intro f hfm _ b1
      exact Decide_total env S crank hS hc n f.Typ (hfields f hfm)
        (by have := hf _ (hfields f hfm); omega) b1

theorem processType_total (env : TypeEnv) (S : List TypeId) (crank erank : TypeId → Nat)
    (hS : Closed env S) (hc : CompositeRanked env S crank) (he : EmbedRanked env S erank)
    (fuel : Nat) (hf : ∀ t ∈ S, ∀ u ∈ S, erank t + crank u + 2 ≤ fuel)
    (t : TypeId) (ht : t ∈ S) (b : Bridge) : ∃ b', processType env fuel b t = .ok b' := by
  unfold processType
  split_ifs with hk
  · obtain ⟨b1, s1, h1⟩ := AddStructFields_total env S crank erank hS hc he fuel t ht hk
      (hf t ht) b { Name := (env t).Name, Fields := [] }
    rw [h1]
    exact ⟨_, rfl⟩
  · exact ⟨_, rfl⟩

/-- Types queued while translating a type of a closed list stay in the list. -/
theorem Translates_closed {env : TypeEnv} {S : List TypeId} (hS : Closed env S)
    {b b' : Bridge} {t : TypeId} {s : String} (h : Translates env b t b' s) :
    t ∈ S → (∀ u ∈ b.QueuedTypes, u ∈ S) → ∀ u ∈ b'.QueuedTypes, u ∈ S := by
  have hq : ∀ (b : Bridge) (t : TypeId), t ∈ S → (∀ u ∈ b.QueuedTypes, u ∈ S) →
      ∀ u ∈ (b.QueueType env t).QueuedTypes, u ∈ S := by
    intro b t ht hb u hu
    unfold Bridge.QueueType at hu
    split_ifs at hu
    · exact hb u hu
    · exact hb u hu
    · exact hb u hu
    · simp only [List.mem_append, List.mem_singleton] at hu
      rcases hu with hu | rfl
      · exact hb u hu
      · exact ht
  induction h with
  | struct b t _ => exact hq b t
  | named b t _ _ => exact hq b t
  | number | string | bool | any | unknown => intro _ hb; exact hb
  | seq b b1 t el hk _ ih =>
    intro ht hb
    exact ih ((hS t ht).1 (by rcases hk with h | h <;> simp [h])) hb
  | mapNoElem b b1 t hk _ ih =>
    intro ht hb
    exact ih ((hS t ht).1 (by simp [hk])) hb
  | map b b1 b2 t el k hk _ _ _ ih1 ih2 =>
    intro ht hb
    exact ih2 ((hS t ht).2.1 hk) (ih1 ((hS t ht).1 (by simp [hk])) hb)
  | ptr b b1 t el hk _ ih =>
    intro ht hb
    exact ih ((hS t ht).1 (by simp [hk])) hb

theorem QueueType_closed (env : TypeEnv) (S : List TypeId) (b : Bridge) (t : TypeId)
    (ht : t ∈ S) (hb : ∀ u ∈ b.QueuedTypes, u ∈ S) :
    ∀ u ∈ (b.QueueType env t).QueuedTypes, u ∈ S := by
  intro u hu
  unfold Bridge.QueueType at hu
  split_ifs at hu
  · exact hb u hu
  · exact hb u hu
  · exact hb u hu
  · simp only [List.mem_append, List.mem_singleton] at hu
    rcases hu with hu | rfl
    · exact hb u hu
    · exact ht

theorem Adds_closed {env : TypeEnv} {S : List TypeId} (hS : Closed env S)
    {b b' : Bridge} {acc acc' : List StructField} {fs : List reflect.StructField}
    (h : Adds env b acc fs b' acc') :
    (∀ f ∈ fs, f.Typ ∈ S) → (∀ u ∈ b.QueuedTypes, u ∈ S) → ∀ u ∈ b'.QueuedTypes, u ∈ S := by
  induction h with
  | nil => intro _ hb; exact hb
  | embed b b1 b2 acc acc1 acc2 f rest _ hk _ _ ih1 ih2 =>
    intro hfs hb
    have hf : f.Typ ∈ S := hfs f (List.mem_cons_self _ _)
    exact ih2 (fun g hg => hfs g (List.mem_cons_of_mem _ hg))
      (ih1 ((hS _ hf).2.2 hk) (QueueType_closed env S b f.Typ hf hb))
  | omitted _ _ _ _ _ _ _ _ _ ih =>
    intro hfs hb
    exact ih (fun g hg => hfs g (List.mem_cons_of_mem _ hg)) hb
  | custom _ _ _ _ _ _ _ _ _ _ _ ih =>
    intro hfs hb
    exact ih (fun g hg => hfs g (List.mem_cons_of_mem _ hg)) hb
  | plain _ _ _ _ _ f _ _ _ _ _ _ ht _ ih =>
    intro hfs hb
    exact ih (fun g hg => hfs g (List.mem_cons_of_mem _ hg))
      (Translates_closed hS ht (hfs f (List.mem_cons_self _ _)) hb)

theorem processType_closed (env : TypeEnv) (S : List TypeId) (hS : Closed env S) (fuel : Nat)
    (b b1 : Bridge) (t : TypeId) (h : processType env fuel b t = .ok b1) (ht : t ∈ S)
    (hb : ∀ u ∈ b.QueuedTypes, u ∈ S) : ∀ u ∈ b1.QueuedTypes, u ∈ S := by
  rcases processType_cases env fuel b b1 t h with ⟨hk, bm, sinfo, ha, rfl⟩ | ⟨_, rfl⟩
  · obtain ⟨_, _, hadds⟩ := AddStructFields_adds env fuel _ _ _ _ _ ha
    intro u hu
    exact Adds_closed hS hadds ((hS t ht).2.2 hk) hb u hu
  · intro u hu
    have := (QueuePackage_frame b (env t).PkgPath).2.2.2.2
    simp only at hu
    rw [this] at hu
    exact hb u hu

theorem length_le_of_nodup_subset {l S : List TypeId} (hn : l.Nodup) (hs : ∀ u ∈ l, u ∈ S) :
    l.length ≤ S.length :=
  (List.subperm_of_subset hn hs).length_le

theorem processQueue_total (env : TypeEnv) (S : List TypeId) (crank erank : TypeId → Nat)
    (hS : Closed env S) (hc : CompositeRanked env S crank) (he : EmbedRanked env S erank)
    (fuel : Nat) (hf : ∀ t ∈ S, ∀ u ∈ S, erank t + crank u + 2 ≤ fuel) :
    ∀ (steps : Nat) (b : Bridge), Inv env b → (∀ u ∈ b.ProcessedTypes, u ∈ S) →
      (∀ u ∈ b.QueuedTypes, u ∈ S) → S.length ≤ steps + b.ProcessedTypes.length →
      ∃ b', processQueue env fuel steps b = .ok b' ∧ ∀ u ∈ b'.ProcessedTypes, u ∈ S := by
  intro steps
  induction steps with
  | zero =>
    intro b hinv hp hq hlen
    have hle : (b.ProcessedTypes ++ b.QueuedTypes).length ≤ S.length :=
      length_le_of_nodup_subset hinv.1 (by
        intro u hu
        rcases List.mem_append.1 hu with h | h
        · exact hp u h
        · exact hq u h)
    have hnil : b.QueuedTypes = [] := by
      rw [List.length_append] at hle
      exact List.eq_nil_of_length_eq_zero (by omega)
    exact ⟨b, by simp [processQueue, hnil], hp⟩
  | succ n ih =>
    intro b hinv hp hq hlen
    cases hQ : b.QueuedTypes with
    | nil => exact ⟨b, by simp [processQueue, hQ], hp⟩
    | cons t rest =>
      have ht : t ∈ S := hq t (by rw [hQ]; exact List.mem_cons_self _ _)
      obtain ⟨b1, h1⟩ := processType_total env S crank erank hS hc he fuel hf t ht b
      obtain ⟨hinv1, hp1, extra, hx⟩ := step_inv env fuel b b1 t rest hQ h1 hinv
      have hq1 := processType_closed env S hS fuel b b1 t h1 ht hq
      obtain ⟨b', hb', hS'⟩ := ih { b1 with QueuedTypes := b1.QueuedTypes.tail } hinv1
        (by
          intro u hu
          simp only [hp1, List.mem_append, List.mem_singleton] at hu
          rcases hu with hu | rfl
          · exact hp u hu
          · exact ht)
        (fun u hu => hq1 u (List.mem_of_mem_tail hu))
        (by simp only [hp1, List.length_append, List.length_singleton]; omega)
      refine ⟨b', ?_, hS'⟩
      rw [processQueue, hQ]
      simp only [h1]
      exact hb'

/-! ## Totality of the constant recovery on parsed sources -/

theorem constSpecsLoop_total (typesMap : String → Option Nat) (values : String → GoAny) :
    ∀ (specs : List ast.Spec), (∀ spec ∈ specs, ∃ v, spec = ast.Spec.ValueSpec v) →
      ∀ (enumInfo : Option Nat) (enums : List EnumInfo),
      ∃ r, constSpecsLoop typesMap values specs enumInfo enums = .ok r := by
  intro specs
  induction specs with
  | nil => intro _ _ enums; exact ⟨enums, rfl⟩
  | cons spec rest ih =>
    intro h enumInfo enums
    obtain ⟨v, rfl⟩ := h spec (List.mem_cons_self _ _)
    have ih' := ih (fun s hs => h s (List.mem_cons_of_mem _ hs))
    unfold constSpecsLoop
    split
    · exact ih' _ _
    · exact ih' _ _

theorem errorOfDecl_total (decl : ast.Decl) (h : WellParsedDecl decl) :
    ∃ r, errorOfDecl decl = .ok r := by
  cases decl with
  | Other => exact ⟨none, rfl⟩
  | GenDecl tok specs =>
    simp only [errorOfDecl]
    repeat' split
    all_goals first
      | exact ⟨_, rfl⟩
      | skip
    rename_i hv _ v _ varName hnames _ hdata
    exact absurd (String.ext hdata) (h.2 (not_not.1 hv) v rfl varName hnames)

theorem errorDeclsLoop_total : ∀ (decls : List ast.Decl),
    (∀ decl ∈ decls, WellParsedDecl decl) → ∀ errors, ∃ r, errorDeclsLoop decls errors = .ok r := by
  intro decls
  induction decls with
  | nil => intro _ errors; exact ⟨errors, rfl⟩
  | cons decl rest ih =>
    intro h errors
    obtain ⟨r, hr⟩ := errorOfDecl_total decl (h decl (List.mem_cons_self _ _))
    have ih' := ih (fun d hd => h d (List.mem_cons_of_mem _ hd))
    unfold errorDeclsLoop
    rw [hr]
    cases r with
    | none => exact ih' _
    | some e => exact ih' _

theorem constDeclsLoop_total (typesMap : String → Option Nat) (values : String → GoAny) :
    ∀ (decls : List ast.Decl), (∀ decl ∈ decls, WellParsedDecl decl) →
      ∀ enums, ∃ r, constDeclsLoop typesMap values decls enums = .ok r := by
  intro decls
  induction decls with
  | nil => intro _ enums; exact ⟨enums, rfl⟩
  | cons decl rest ih =>
    intro h enums
    have ih' := ih (fun d hd => h d (List.mem_cons_of_mem _ hd))
    have hw := h decl (List.mem_cons_self _ _)
    cases decl with
    | Other => simpa [constDeclsLoop] using ih' enums
    | GenDecl tok specs =>
      unfold constDeclsLoop
      split_ifs with ht
      · exact ih' _
      · obtain ⟨r, hr⟩ := constSpecsLoop_total typesMap values specs (hw.1 (not_not.1 ht)) none enums
        rw [hr]
        exact ih' _

theorem processFiles_total (typesMap : String → Option Nat) : ∀ (files : List ast.File),
    (∀ file ∈ files, ∀ decl ∈ file.Decls, WellParsedDecl decl) →
    ∀ b, ∃ b', processFiles typesMap files b = .ok b' := by
  intro files
  induction files with
  | nil => intro _ b; exact ⟨b, rfl⟩
  | cons file rest ih =>
    intro h b
    have hw := h file (List.mem_cons_self _ _)
    obtain ⟨r1, h1⟩ := constDeclsLoop_total typesMap (nameValues file.ScopeObjects) file.Decls hw b.Enums
    obtain ⟨r2, h2⟩ := errorDeclsLoop_total file.Decls hw b.Errors
    unfold processFiles processFile
    rw [h1]; simp only [h2]
    exact ih (fun f hf => h f (List.mem_cons_of_mem _ hf)) _

theorem processPackages_total (src : Sources) (hsrc : WellParsed src) :
    ∀ (paths : List String) (b : Bridge), ∃ b', processPackages src paths b = .ok b' := by
  intro paths
  induction paths with
  | nil => intro b; exact ⟨b, rfl⟩
  | cons p rest ih =>
    intro b
    have hp : ∃ b1, ProcessPackage src b p = .ok b1 := by
      unfold ProcessPackage
      cases hs : src p with
      | none => exact ⟨b, rfl⟩
      | some pkgs =>
        simp only
        apply processFiles_total
        intro file hfile decl hdecl
        obtain ⟨pkg, hpkg, hfp⟩ := List.mem_flatMap.1 hfile
        exact hsrc p pkgs hs pkg hpkg file hfp decl hdecl
    obtain ⟨b1, h1⟩ := hp
    unfold processPackages
    rw [h1]
    exact ih b1

/-! ## A composite type that contains itself -/

theorem loopEnv_Decide : ∀ (fuel : Nat) (b : Bridge),
    DecideTypescriptTypeName loopEnv fuel b 1 = .error .fuel := by
  intro fuel
  induction fuel with
  | zero => intro b; rfl
  | succ n ih =>
    intro b
    rw [Decide_seq loopEnv n b 1 (Or.inl rfl)]
    have : (loopEnv 1).Elem = 1 := rfl
    rw [this, ih]

theorem loopEnv_AddStructFields (fuel : Nat) (b : Bridge) (sinfo : StructInfo) :
    AddStructFields loopEnv fuel b sinfo 0 = .error .fuel := by
  cases fuel with
  | zero => rfl
  | succ n =>
    have hf : (loopEnv 0).Fields = [mkField "Kids" 1] := rfl
    have hk : (loopEnv 0).kind = .Struct := rfl
    rw [AddStructFields]
    simp only [hk, hf, ne_eq, not_true_eq_false, if_false]
    simp [addFieldsLoop, mkField, applyJsonTag, applyTsTag, loopEnv_Decide]

/-! ## The translation of the code is the translation of the specification -/

theorem describe_struct (r : reflect.RType) (h : r.kind = .Struct) : describe r = .record := by
  simp [describe, h]

theorem describe_numeric (r : reflect.RType) (h : r.kind ∈ numericKinds) :
    describe r = if r.Str = kindString r.kind then .primitiveNumeric else .namedScalar := by
  unfold describe
  simp only [numericKinds, List.mem_cons, List.mem_singleton, List.not_mem_nil, or_false] at h
  rcases h with h | h | h | h | h | h | h | h | h | h | h | h <;> simp [h, isNumericPrimitive]

theorem describe_string (r : reflect.RType) (h : r.kind = .String) :
    describe r = if r.Str = kindString r.kind then .primitiveString else .namedScalar := by
  simp [describe, h]

theorem describe_unsupported (r : reflect.RType)
    (h : r.kind ∉ [Kind.Struct, .String, .Bool, .Slice, .Array, .Map, .Ptr, .Interface])
    (h2 : r.kind ∉ numericKinds) : describe r = .unsupported := by
  unfold describe
  cases hk : r.kind <;> simp [hk, numericKinds] at h h2 <;> simp [isNumericPrimitive]

theorem Decide_typeName (env : TypeEnv) : ∀ (fuel : Nat) (b : Bridge) (t : TypeId),
    typeNameOf (DecideTypescriptTypeName env fuel b t) = translated env fuel t := by
  intro fuel
  induction fuel with
  | zero => intro b t; rfl
  | succ n ih =>
    intro b t
    rcases kind_cases (env t).kind with h | h | h | h | h | h | h | h | ⟨h, h2⟩
    · rw [Decide_struct env n b t h, translated, describe_struct _ h]; rfl
    · rw [Decide_numeric env n b t h, translated, describe_numeric _ h]
      by_cases hs : (env t).Str = kindString (env t).kind <;> simp [hs, typeNameOf]
    · rw [Decide_string env n b t h, translated, describe_string _ h]
      by_cases hs : (env t).Str = kindString (env t).kind <;> simp [hs, typeNameOf]
    · rw [Decide_bool env n b t h, translated]; simp [describe, h, typeNameOf]
    · rw [Decide_seq env n b t h, translated]
      have hd : describe (env t) = .sequence := by rcases h with h | h <;> simp [describe, h]
      rw [hd]; simp only
      rw [← ih b (env t).Elem]
      cases DecideTypescriptTypeName env n b (env t).Elem with
      | error e => rfl
      | ok r => obtain ⟨b1, el⟩ := r; by_cases he : el = "" <;> simp [he, typeNameOf]
    · rw [Decide_map env n b t h, translated]
      have hd : describe (env t) = .mapping := by simp [describe, h]
      rw [hd]; simp only
      rw [← ih b (env t).Elem]
      cases DecideTypescriptTypeName env n b (env t).Elem with
      | error e => rfl
      | ok r =>
        obtain ⟨b1, el⟩ := r
        by_cases he : el = ""
        · simp [he, typeNameOf]
        · simp only [he, if_false, typeNameOf]
          rw [← ih b1 (env t).Key]
          cases DecideTypescriptTypeName env n b1 (env t).Key with
          | error e => rfl
          | ok r2 => obtain ⟨b2, k⟩ := r2; by_cases hk : k = "" <;> simp [hk, typeNameOf]
    · rw [Decide_ptr env n b t h, translated]
      have hd : describe (env t) = .pointer := by simp [describe, h]
      rw [hd]; simp only
      rw [← ih b (env t).Elem]
      cases DecideTypescriptTypeName env n b (env t).Elem with
      | error e => rfl
      | ok r => obtain ⟨b1, el⟩ := r; by_cases he : el = "" <;> simp [he, typeNameOf]
    · rw [Decide_interface env n b t h, translated]; simp [describe, h, typeNameOf]
    · rw [Decide_unknown env n b t h h2, translated, describe_unsupported _ h h2]; rfl

theorem QueueType_mem (env : TypeEnv) (b : Bridge) (t : TypeId)
    (h : (env t).Name ≠ kindString (env t).kind) :
    t ∈ (b.QueueType env t).QueuedTypes ∨ t ∈ (b.QueueType env t).ProcessedTypes := by
  unfold Bridge.QueueType
  split_ifs with h1 h2 h3
  · exact absurd h1 h
  · exact Or.inl h2
  · exact Or.inr h3
  · left; simp

theorem Decide_nominal (env : TypeEnv) (n : Nat) (b : Bridge) (t : TypeId)
    (h : describe (env t) = .record ∨ describe (env t) = .namedScalar) :
    DecideTypescriptTypeName env (n + 1) b t = .ok (b.QueueType env t, (env t).Name) := by
  rcases kind_cases (env t).kind with hk | hk | hk | hk | hk | hk | hk | hk | ⟨hk, hk2⟩
  · exact Decide_struct env n b t hk
  · rw [Decide_numeric env n b t hk]
    rw [describe_numeric _ hk] at h
    by_cases hs : (env t).Str = kindString (env t).kind
    · simp [hs] at h
    · simp [hs]
  · rw [Decide_string env n b t hk]
    rw [describe_string _ hk] at h
    by_cases hs : (env t).Str = kindString (env t).kind
    · simp [hs] at h
    · simp [hs]
  · simp [describe, hk] at h
  · rcases hk with hk | hk <;> simp [describe, hk] at h
  · simp [describe, hk] at h
  · simp [describe, hk] at h
  · simp [describe, hk] at h
  · rw [describe_unsupported _ hk hk2] at h; simp at h

/-! ## The fields that `AddStructFields` builds are the record shape -/

theorem typeNameOf_ok {r : Except Fault (Bridge × String)} {b : Bridge} {s : String}
    (h : r = .ok (b, s)) : typeNameOf r = some s := by
  subst h; rfl

theorem addFieldsLoop_shape (env : TypeEnv)
    (recur : Bridge → StructInfo → TypeId → Except Fault (Bridge × StructInfo))
    (decide : Bridge → TypeId → Except Fault (Bridge × String))
    (precur : TypeId → Except Fault (List StructField)) (tr : TypeId → Option String)
    (hrec : ∀ b s t b' s', recur b s t = .ok (b', s') →
      ∃ L, precur t = .ok L ∧ s'.Fields = s.Fields ++ L)
    (hdec : ∀ b t, typeNameOf (decide b t) = tr t) :
    ∀ (fields : List reflect.StructField) (b : Bridge) (sinfo : StructInfo) (b' : Bridge)
      (sinfo' : StructInfo),
      addFieldsLoop env recur decide fields b sinfo = .ok (b', sinfo') →
      ∃ L, shapeLoop env precur tr fields = .ok L ∧ sinfo'.Fields = sinfo.Fields ++ L := by
  intro fields
  induction fields with
  | nil =>
    intro b sinfo b' sinfo' h
    simp only [addFieldsLoop, Except.ok.injEq, Prod.mk.injEq] at h
    obtain ⟨_, rfl⟩ := h
    exact ⟨[], rfl, by simp⟩
  | cons f rest ih =>
    intro b sinfo b' sinfo' h
    unfold addFieldsLoop at h
    unfold shapeLoop
    by_cases ha : f.Anonymous = true
    · simp only [ha, if_true] at h ⊢
      cases hr : recur (b.QueueType env f.Typ) sinfo f.Typ with
      | error e => simp [hr] at h
      | ok r =>
        obtain ⟨b1, s1⟩ := r
        simp only [hr] at h
        obtain ⟨L1, hL1, hf1⟩ := hrec _ _ _ _ _ hr
        obtain ⟨L2, hL2, hf2⟩ := ih _ _ _ _ h
        rw [hL1]; simp only [hL2]
        exact ⟨L1 ++ L2, rfl, by rw [hf2, hf1, List.append_assoc]⟩
    · have ha' : f.Anonymous = false := by simpa using ha
      simp only [ha', Bool.false_eq_true, if_false] at h ⊢
      have hraw : ({ Name := f.Name, TypeName := (env f.Typ).Name, TypeCustom := false } :
          StructField) = rawField env f := rfl
      rw [hraw] at h
      cases hj : applyJsonTag f.jsonTag (rawField env f) with
      | none =>
        simp only [hj] at h ⊢
        exact ih _ _ _ _ h
      | some sf =>
        simp only [hj] at h ⊢
        by_cases hc : (applyTsTag f.tsTag sf).TypeCustom = true
        · simp only [hc, not_true_eq_false, if_false, if_true] at h ⊢
          obtain ⟨L2, hL2, hf2⟩ := ih _ _ _ _ h
          simp only [hL2]
          exact ⟨_, rfl, by rw [hf2]; simp⟩
        · have hc' : (applyTsTag f.tsTag sf).TypeCustom = false := by simpa using hc
          simp only [hc', Bool.false_eq_true, not_false_eq_true, if_true, if_false] at h ⊢
          cases hd : decide b f.Typ with
          | error e => simp [hd] at h
          | ok r =>
            obtain ⟨b1, s⟩ := r
            simp only [hd] at h
            have htr : tr f.Typ = some s := by rw [← hdec b f.Typ]; exact typeNameOf_ok hd
            obtain ⟨L2, hL2, hf2⟩ := ih _ _ _ _ h
            simp only [htr, hL2]
            exact ⟨_, rfl, by rw [hf2]; simp [hc']⟩

theorem AddStructFields_shape (env : TypeEnv) : ∀ (fuel : Nat) (b : Bridge) (sinfo : StructInfo)
    (t : TypeId) (b' : Bridge) (sinfo' : StructInfo),
    AddStructFields env fuel b sinfo t = .ok (b', sinfo') →
    ∃ L, recordShape env fuel t = .ok L ∧ sinfo'.Fields = sinfo.Fields ++ L := by
  intro fuel
  induction fuel with
  | zero => intro b sinfo t b' sinfo' h; simp [AddStructFields] at h
  | succ n ih =>
    intro b sinfo t b' sinfo' h
    unfold AddStructFields at h
    unfold recordShape
    split_ifs at h ⊢ with hk
    exact addFieldsLoop_shape env _ _ _ _ ih (Decide_typeName env n) _ _ _ _ _ h

/-- The errors of `DecideTypescriptTypeName` are exhausted budgets, never panics:
with a translation at the depth, it returns. -/
theorem Decide_of_translated (env : TypeEnv) (fuel : Nat) (b : Bridge) (t : TypeId) (s : String)
    (h : translated env fuel t = some s) :
    ∃ b', DecideTypescriptTypeName env fuel b t = .ok (b', s) := by
  have := Decide_typeName env fuel b t
  rw [h] at this
  cases hd : DecideTypescriptTypeName env fuel b t with
  | error e => rw [hd] at this; simp [typeNameOf] at this
  | ok r =>
    obtain ⟨b1, s1⟩ := r
    rw [hd] at this
    simp only [typeNameOf, Option.some.injEq] at this
    exact ⟨b1, by rw [this]⟩

theorem addFieldsLoop_of_shape (env : TypeEnv)
    (recur : Bridge → StructInfo → TypeId → Except Fault (Bridge × StructInfo))
    (decide : Bridge → TypeId → Except Fault (Bridge × String))
    (precur : TypeId → Except Fault (List StructField)) (tr : TypeId → Option String)
    (hrec : ∀ t L, precur t = .ok L → ∀ b s, ∃ b',
      recur b s t = .ok (b', { s with Fields := s.Fields ++ L }))
    (hdec : ∀ t s, tr t = some s → ∀ b, ∃ b', decide b t = .ok (b', s)) :
    ∀ (fields : List reflect.StructField) (L : List StructField),
      shapeLoop env precur tr fields = .ok L → ∀ (b : Bridge) (sinfo : StructInfo),
      ∃ b', addFieldsLoop env recur decide fields b sinfo =
        .ok (b', { sinfo with Fields := sinfo.Fields ++ L }) := by
  intro fields
  induction fields with
  | nil =>
    intro L h b sinfo
    simp only [shapeLoop, Except.ok.injEq] at h
    subst h
    exact ⟨b, by simp [addFieldsLoop]⟩
  | cons f rest ih =>
    intro L h b sinfo
    unfold shapeLoop at h
    unfold addFieldsLoop
    by_cases ha : f.Anonymous = true
    · simp only [ha, if_true] at h ⊢
      cases hr : precur f.Typ with
      | error e => simp [hr] at h
      | ok own =>
        simp only [hr] at h
        cases hm : shapeLoop env precur tr rest with
        | error e => simp [hm] at h
        | ok more =>
          simp only [hm, Except.ok.injEq] at h
          subst h
          obtain ⟨b1, h1⟩ := hrec _ _ hr (b.QueueType env f.Typ) sinfo
          obtain ⟨b2, h2⟩ := ih _ hm b1 { sinfo with Fields := sinfo.Fields ++ own }
          rw [h1]; simp only
          exact ⟨b2, by rw [h2]; simp⟩
    · have ha' : f.Anonymous = false := by simpa using ha
      simp only [ha', Bool.false_eq_true, if_false] at h ⊢
      have hraw : ({ Name := f.Name, TypeName := (env f.Typ).Name, TypeCustom := false } :
          StructField) = rawField env f := rfl
      rw [hraw]
      cases hj : applyJsonTag f.jsonTag (rawField env f) with
      | none =>
        simp only [hj] at h ⊢
        exact ih _ h b sinfo
      | some sf =>
        simp only [hj] at h ⊢
        by_cases hc : (applyTsTag f.tsTag sf).TypeCustom = true
        · simp only [hc, not_true_eq_false, if_false, if_true] at h ⊢
          cases hm : shapeLoop env precur tr rest with
          | error e => simp [hm] at h
          | ok more =>
            simp only [hm, Except.ok.injEq] at h
            subst h
            obtain ⟨b2, h2⟩ := ih _ hm b
              { sinfo with Fields := sinfo.Fields ++ [applyTsTag f.tsTag sf] }
            exact ⟨b2, by rw [h2]; simp⟩
        · have hc' : (applyTsTag f.tsTag sf).TypeCustom = false := by simpa using hc
          simp only [hc', Bool.false_eq_true, not_false_eq_true, if_true, if_false] at h ⊢
          cases ht : tr f.Typ with
          | none => simp [ht] at h
          | some s =>
            simp only [ht] at h
            cases hm : shapeLoop env precur tr rest with
            | error e => simp [hm] at h
            | ok more =>
              simp only [hm, Except.ok.injEq] at h
              subst h
              obtain ⟨b1, h1⟩ := hdec _ _ ht b
              rw [h1]; simp only
              obtain ⟨b2, h2⟩ := ih _ hm b1
                { sinfo with Fields := sinfo.Fields ++
                    [{ applyTsTag f.tsTag sf with TypeName := s }] }
              exact ⟨b2, by simpa [hc'] using h2⟩

theorem AddStructFields_of_shape (env : TypeEnv) : ∀ (fuel : Nat) (t : TypeId)
    (L : List StructField), recordShape env fuel t = .ok L →
    ∀ (b : Bridge) (sinfo : StructInfo), ∃ b',
      AddStructFields env fuel b sinfo t = .ok (b', { sinfo with Fields := sinfo.Fields ++ L }) := by
  intro fuel
  induction fuel with
  | zero => intro t L h; simp [recordShape] at h
  | succ n ih =>
    intro t L h b sinfo
    unfold recordShape at h
    unfold AddStructFields
    split_ifs at h ⊢ with hk
    exact addFieldsLoop_of_shape env _ _ _ _ ih
      (fun t s hs b => Decide_of_translated env n b t s hs) _ _ h b sinfo

theorem shapeLoop_cons (env : TypeEnv) (recur : TypeId → Except Fault (List StructField))
    (tr : TypeId → Option String) (f : reflect.StructField) (rest : List reflect.StructField) :
    shapeLoop env recur tr (f :: rest) =
      if f.Anonymous then
        match recur f.Typ with
        | .error e => .error e
        | .ok own =>
          match shapeLoop env recur tr rest with
          | .error e => .error e
          | .ok more => .ok (own ++ more)
      else
        match applyJsonTag f.jsonTag (rawField env f) with
        | none => shapeLoop env recur tr rest
        | some sf =>
          if (applyTsTag f.tsTag sf).TypeCustom then
            match shapeLoop env recur tr rest with
            | .error e => .error e
            | .ok more => .ok (applyTsTag f.tsTag sf :: more)
          else
            match tr f.Typ with
            | none => .error .fuel
            | some s =>
              match shapeLoop env recur tr rest with
              | .error e => .error e
              | .ok more => .ok ({ applyTsTag f.tsTag sf with TypeName := s } :: more) := by
  rw [shapeLoop] <;> try rfl

theorem shapeLoop_append (env : TypeEnv) (recur : TypeId → Except Fault (List StructField))
    (tr : TypeId → Option String) : ∀ (pre post : List reflect.StructField)
    (L : List StructField), shapeLoop env recur tr (pre ++ post) = .ok L →
    ∃ L1 L2, shapeLoop env recur tr pre = .ok L1 ∧ shapeLoop env recur tr post = .ok L2 ∧
      L = L1 ++ L2 := by
  intro pre
  induction pre with
  | nil => intro post L h; exact ⟨[], L, rfl, h, rfl⟩
  | cons f rest ih =>
    intro post L h
    rw [List.cons_append, shapeLoop_cons] at h
    rw [shapeLoop_cons]
    by_cases ha : f.Anonymous = true
    · simp only [ha, if_true] at h ⊢
      cases hr : recur f.Typ with
      | error e => simp [hr] at h
      | ok own =>
        simp only [hr] at h ⊢
        cases hm : shapeLoop env recur tr (rest ++ post) with
        | error e => simp [hm] at h
        | ok more =>
          simp only [hm, Except.ok.injEq] at h
          obtain ⟨L1, L2, h1, h2, rfl⟩ := ih post more hm
          simp only [h1]
          exact ⟨own ++ L1, L2, rfl, h2, by rw [← h, List.append_assoc]⟩
    · have ha' : f.Anonymous = false := by simpa using ha
      simp only [ha', Bool.false_eq_true, if_false] at h ⊢
      cases hj : applyJsonTag f.jsonTag (rawField env f) with
      | none =>
        simp only [hj] at h ⊢
        exact ih post L h
      | some sf =>
        simp only [hj] at h ⊢
        by_cases hc : (applyTsTag f.tsTag sf).TypeCustom = true
        · simp only [hc, if_true] at h ⊢
          cases hm : shapeLoop env recur tr (rest ++ post) with
          | error e => simp [hm] at h
          | ok more =>
            simp only [hm, Except.ok.injEq] at h
            obtain ⟨L1, L2, h1, h2, rfl⟩ := ih post more hm
            simp only [h1]
            exact ⟨_, L2, rfl, h2, by rw [← h]; simp⟩
        · have hc' : (applyTsTag f.tsTag sf).TypeCustom = false := by simpa using hc
          simp only [hc', Bool.false_eq_true, if_false] at h ⊢
          cases ht : tr f.Typ with
          | none => simp [ht] at h
          | some s =>
            simp only [ht] at h ⊢
            cases hm : shapeLoop env recur tr (rest ++ post) with
            | error e => simp [hm] at h
            | ok more =>
              simp only [hm, Except.ok.injEq] at h
              obtain ⟨L1, L2, h1, h2, rfl⟩ := ih post more hm
              simp only [h1]
              exact ⟨_, L2, rfl, h2, by rw [← h]; simp⟩

/-! ## What the translation queues -/

theorem translated_mono (env : TypeEnv) : ∀ (d : Nat) (t : TypeId) (v : String),
    translated env d t = some v → translated env (d + 1) t = some v := by
  intro d
  induction d with
  | zero => intro t v h; simp [translated] at h
  | succ n ih =>
    intro t v h
    rw [translated] at h ⊢
    cases hd : describe (env t) <;> simp only [hd] at h ⊢ <;> try exact h
    · -- pointer
      cases he : translated env n (env t).Elem with
      | none => simp [he] at h
      | some e => rw [ih _ _ he]; rw [he] at h; exact h
    · -- sequence
      cases he : translated env n (env t).Elem with
      | none => simp [he] at h
      | some e => rw [ih _ _ he]; rw [he] at h; exact h
    · -- mapping
      cases he : translated env n (env t).Elem with
      | none => simp [he] at h
      | some e =>
        rw [ih _ _ he]; rw [he] at h
        simp only at h ⊢
        split_ifs at h ⊢ with h0
        · exact h
        · cases hk : translated env n (env t).Key with
          | none => simp [hk] at h
          | some k => rw [ih _ _ hk]; rw [hk] at h; exact h

theorem translated_mono_le (env : TypeEnv) (t : TypeId) (v : String) :
    ∀ (d d' : Nat), d ≤ d' → translated env d t = some v → translated env d' t = some v := by
  intro d d' hle h
  induction hle with
  | refl => exact h
  | step _ ih => exact translated_mono env _ t v ih

theorem translated_unique (env : TypeEnv) (t : TypeId) (d d' : Nat) (v v' : String)
    (h : translated env d t = some v) (h' : translated env d' t = some v') : v = v' := by
  have h1 := translated_mono_le env t v d (max d d') (le_max_left _ _) h
  have h2 := translated_mono_le env t v' d' (max d d') (le_max_right _ _) h'
  rw [h1] at h2
  exact Option.some.inj h2

theorem Translates_translated {env : TypeEnv} {b b' : Bridge} {t : TypeId} {s : String}
    (h : Translates env b t b' s) : ∃ d, translated env d t = some s := by
  induction h with
  | struct b t hk => exact ⟨1, by rw [translated, describe_struct _ hk]⟩
  | named b t hk hs =>
    refine ⟨1, ?_⟩
    rw [translated]
    rcases hk with hk | hk
    · rw [describe_numeric _ hk]; simp [hs]
    · rw [describe_string _ hk]; simp [hs]
  | number b t hk hs => exact ⟨1, by rw [translated, describe_numeric _ hk]; simp [hs]⟩
  | string b t hk hs => exact ⟨1, by rw [translated, describe_string _ hk]; simp [hs]⟩
  | bool b t hk => exact ⟨1, by rw [translated]; simp [describe, hk]⟩
  | any b t hk => exact ⟨1, by rw [translated]; simp [describe, hk]⟩
  | unknown b t hk hk2 => exact ⟨1, by rw [translated, describe_unsupported _ hk hk2]⟩
  | seq b b1 t el hk _ ih =>
    obtain ⟨d, hd⟩ := ih
    refine ⟨d + 1, ?_⟩
    have : describe (env t) = .sequence := by rcases hk with h | h <;> simp [describe, h]
    rw [translated, this]; simp [hd]
  | ptr b b1 t el hk _ ih =>
    obtain ⟨d, hd⟩ := ih
    refine ⟨d + 1, ?_⟩
    have : describe (env t) = .pointer := by simp [describe, hk]
    rw [translated, this]; simp [hd]
  | mapNoElem b b1 t hk _ ih =>
    obtain ⟨d, hd⟩ := ih
    refine ⟨d + 1, ?_⟩
    have : describe (env t) = .mapping := by simp [describe, hk]
    rw [translated, this]; simp [hd]
  | map b b1 b2 t el k hk _ hne _ ih1 ih2 =>
    obtain ⟨d1, hd1⟩ := ih1
    obtain ⟨d2, hd2⟩ := ih2
    refine ⟨max d1 d2 + 1, ?_⟩
    have : describe (env t) = .mapping := by simp [describe, hk]
    rw [translated, this]
    simp [translated_mono_le env _ _ d1 _ (le_max_left _ _) hd1,
      translated_mono_le env _ _ d2 _ (le_max_right _ _) hd2, hne]

theorem Mentions_nominal {env : TypeEnv} {t u : TypeId} (h : Mentions env t u) :
    Nominal env u := by
  induction h with
  | struct t hk => exact Or.inl (describe_struct _ hk)
  | named t hk hs =>
    right
    rcases hk with hk | hk
    · rw [describe_numeric _ hk]; simp [hs]
    · rw [describe_string _ hk]; simp [hs]
  | elem _ _ _ _ ih => exact ih
  | key _ _ _ _ _ _ _ _ ih => exact ih

theorem QueueType_new (env : TypeEnv) (b : Bridge) (t : TypeId) :
    ∀ u ∈ (b.QueueType env t).QueuedTypes, u ∈ b.QueuedTypes ∨ (u = t ∧ Queueable env t) := by
  intro u hu
  unfold Bridge.QueueType at hu
  split_ifs at hu with h1 h2 h3
  · exact Or.inl hu
  · exact Or.inl hu
  · exact Or.inl hu
  · simp only [List.mem_append, List.mem_singleton] at hu
    rcases hu with hu | rfl
    · exact Or.inl hu
    · exact Or.inr ⟨rfl, h1⟩

/-- Every type that a translation adds to the queue is mentioned by the type. -/
theorem Translates_sound {env : TypeEnv} {b b' : Bridge} {t : TypeId} {s : String}
    (h : Translates env b t b' s) :
    ∀ u ∈ b'.QueuedTypes, u ∈ b.QueuedTypes ∨ (Mentions env t u ∧ Queueable env u) := by
  induction h with
  | struct b t hk =>
    intro u hu
    rcases QueueType_new env b t u hu with h | ⟨rfl, hq⟩
    · exact Or.inl h
    · exact Or.inr ⟨.struct _ hk, hq⟩
  | named b t hk hs =>
    intro u hu
    rcases QueueType_new env b t u hu with h | ⟨rfl, hq⟩
    · exact Or.inl h
    · exact Or.inr ⟨.named _ hk hs, hq⟩
  | number | string | bool | any | unknown => intro u hu; exact Or.inl hu
  | seq b b1 t el hk _ ih =>
    intro u hu
    rcases ih u hu with h | ⟨hm, hq⟩
    · exact Or.inl h
    · exact Or.inr ⟨.elem _ _ (by rcases hk with h | h <;> simp [h]) hm, hq⟩
  | ptr b b1 t el hk _ ih =>
    intro u hu
    rcases ih u hu with h | ⟨hm, hq⟩
    · exact Or.inl h
    · exact Or.inr ⟨.elem _ _ (by simp [hk]) hm, hq⟩
  | mapNoElem b b1 t hk _ ih =>
    intro u hu
    rcases ih u hu with h | ⟨hm, hq⟩
    · exact Or.inl h
    · exact Or.inr ⟨.elem _ _ (by simp [hk]) hm, hq⟩
  | map b b1 b2 t el k hk hel hne _ ih1 ih2 =>
    intro u hu
    rcases ih2 u hu with h | ⟨hm, hq⟩
    · rcases ih1 u h with h | ⟨hm, hq⟩
      · exact Or.inl h
      · exact Or.inr ⟨.elem _ _ (by simp [hk]) hm, hq⟩
    · obtain ⟨d, hd⟩ := Translates_translated hel
      exact Or.inr ⟨.key _ _ d el hk hd hne hm, hq⟩

theorem Ext_mem {b b' : Bridge} (h : Ext b b') {u : TypeId}
    (hu : u ∈ b.QueuedTypes ∨ u ∈ b.ProcessedTypes) :
    u ∈ b'.QueuedTypes ∨ u ∈ b'.ProcessedTypes := by
  obtain ⟨e, q, _, _⟩ := h.queue
  rcases hu with hu | hu
  · left; rw [q]; exact List.mem_append_left _ hu
  · right; rw [h.processed]; exact hu

theorem Mentions_inv {env : TypeEnv} {t u : TypeId} (h : Mentions env t u) :
    ((env t).kind = .Struct ∧ u = t) ∨
    (((env t).kind ∈ numericKinds ∨ (env t).kind = .String) ∧
      (env t).Str ≠ kindString (env t).kind ∧ u = t) ∨
    ((env t).kind ∈ [Kind.Slice, Kind.Array, Kind.Map, Kind.Ptr] ∧
      Mentions env (env t).Elem u) ∨
    ((env t).kind = .Map ∧ (∃ d v, translated env d (env t).Elem = some v ∧ v ≠ "") ∧
      Mentions env (env t).Key u) := by
  cases h with
  | struct _ hk => exact Or.inl ⟨hk, rfl⟩
  | named _ hk hs => exact Or.inr (Or.inl ⟨hk, hs, rfl⟩)
  | elem _ _ hk hm => exact Or.inr (Or.inr (Or.inl ⟨hk, hm⟩))
  | key _ _ d v hk hv hne hm => exact Or.inr (Or.inr (Or.inr ⟨hk, ⟨d, v, hv, hne⟩, hm⟩))

/-- Every type that the translated type mentions and `QueueType` accepts is
queued or processed after the translation. -/
theorem Translates_complete {env : TypeEnv} {b b' : Bridge} {t : TypeId} {s : String}
    (h : Translates env b t b' s) :
    ∀ u, Mentions env t u → Queueable env u →
      u ∈ b'.QueuedTypes ∨ u ∈ b'.ProcessedTypes := by
  induction h with
  | struct b t hk =>
    intro u hm hq
    rcases Mentions_inv hm with ⟨_, rfl⟩ | ⟨_, _, rfl⟩ | ⟨hk', _⟩ | ⟨hk', _, _⟩
    · exact QueueType_mem env b _ hq
    · exact QueueType_mem env b _ hq
    · exact absurd hk' (by rw [hk]; simp)
    · exact absurd hk' (by rw [hk]; simp)
  | named b t hk hs =>
    intro u hm hq
    rcases Mentions_inv hm with ⟨_, rfl⟩ | ⟨_, _, rfl⟩ | ⟨hk', _⟩ | ⟨hk', _, _⟩
    · exact QueueType_mem env b _ hq
    · exact QueueType_mem env b _ hq
    · exact absurd hk' (by
        revert hk; generalize (env t).kind = k; cases k <;> simp [numericKinds])
    · exact absurd hk' (by
        revert hk; generalize (env t).kind = k; cases k <;> simp [numericKinds])
  | number b t hk hs =>
    intro u hm hq
    rcases Mentions_inv hm with ⟨hk', _⟩ | ⟨_, hs', _⟩ | ⟨hk', _⟩ | ⟨hk', _, _⟩
    · exact absurd hk' (by
        revert hk; generalize (env t).kind = k; cases k <;> simp [numericKinds])
    · exact absurd hs hs'
    · exact absurd hk' (by
        revert hk; generalize (env t).kind = k; cases k <;> simp [numericKinds])
    · exact absurd hk' (by
        revert hk; generalize (env t).kind = k; cases k <;> simp [numericKinds])
  | string b t hk hs =>
    intro u hm hq
    rcases Mentions_inv hm with ⟨hk', _⟩ | ⟨_, hs', _⟩ | ⟨hk', _⟩ | ⟨hk', _, _⟩
    · exact absurd hk' (by rw [hk]; simp)
    · exact absurd hs hs'
    · exact absurd hk' (by rw [hk]; simp)
    · exact absurd hk' (by rw [hk]; simp)
  | bool b t hk =>
    intro u hm hq
    rcases Mentions_inv hm with ⟨hk', _⟩ | ⟨hk', _, _⟩ | ⟨hk', _⟩ | ⟨hk', _, _⟩
    · exact absurd hk' (by rw [hk]; simp)
    · exact absurd hk' (by rw [hk]; simp [numericKinds])
    · exact absurd hk' (by rw [hk]; simp)
    · exact absurd hk' (by rw [hk]; simp)
  | any b t hk =>
    intro u hm hq
    rcases Mentions_inv hm with ⟨hk', _⟩ | ⟨hk', _, _⟩ | ⟨hk', _⟩ | ⟨hk', _, _⟩
    · exact absurd hk' (by rw [hk]; simp)
    · exact absurd hk' (by rw [hk]; simp [numericKinds])
    · exact absurd hk' (by rw [hk]; simp)
    · exact absurd hk' (by rw [hk]; simp)
  | unknown b t hk hk2 =>
    intro u hm hq
    rcases Mentions_inv hm with ⟨hk', _⟩ | ⟨hk', _, _⟩ | ⟨hk', _⟩ | ⟨hk', _, _⟩
    · exact absurd hk' (by
        revert hk hk2; generalize (env t).kind = k; cases k <;> simp [numericKinds])
    · exact absurd hk' (by
        revert hk hk2; generalize (env t).kind = k; cases k <;> simp [numericKinds])
    · exact absurd hk' (by
        revert hk hk2; generalize (env t).kind = k; cases k <;> simp [numericKinds])
    · exact absurd hk' (by
        revert hk hk2; generalize (env t).kind = k; cases k <;> simp [numericKinds])
  | seq b b1 t el hk _ ih =>
    intro u hm hq
    rcases Mentions_inv hm with ⟨hk', _⟩ | ⟨hk', _, _⟩ | ⟨_, hm'⟩ | ⟨hk', _, _⟩
    · exact absurd hk' (by
        revert hk; generalize (env t).kind = k; cases k <;> simp [numericKinds])
    · exact absurd hk' (by
        revert hk; generalize (env t).kind = k; cases k <;> simp [numericKinds])
    · exact ih u hm' hq
    · exact absurd hk' (by
        revert hk; generalize (env t).kind = k; cases k <;> simp [numericKinds])
  | ptr b b1 t el hk _ ih =>
    intro u hm hq
    rcases Mentions_inv hm with ⟨hk', _⟩ | ⟨hk', _, _⟩ | ⟨_, hm'⟩ | ⟨hk', _, _⟩
    · exact absurd hk' (by rw [hk]; simp)
    · exact absurd hk' (by rw [hk]; simp [numericKinds])
    · exact ih u hm' hq
    · exact absurd hk' (by rw [hk]; simp)
  | mapNoElem b b1 t hk hel ih =>
    intro u hm hq
    rcases Mentions_inv hm with ⟨hk', _⟩ | ⟨hk', _, _⟩ | ⟨_, hm'⟩ | ⟨_, ⟨d, v, hv, hne⟩, _⟩
    · exact absurd hk' (by rw [hk]; simp)
    · exact absurd hk' (by rw [hk]; simp [numericKinds])
    · exact ih u hm' hq
    · obtain ⟨d0, hd0⟩ := Translates_translated hel
      exact absurd (translated_unique env _ d d0 v "" hv hd0) hne
  | map b b1 b2 t el k hk _ _ hkey ih1 ih2 =>
    intro u hm hq
    rcases Mentions_inv hm with ⟨hk', _⟩ | ⟨hk', _, _⟩ | ⟨_, hm'⟩ | ⟨_, _, hm'⟩
    · exact absurd hk' (by rw [hk]; simp)
    · exact absurd hk' (by rw [hk]; simp [numericKinds])
    · exact Ext_mem (Translates_ext hkey) (ih1 u hm' hq)
    · exact ih2 u hm' hq

/-! ## What `AddStructFields` queues -/

theorem Refs_tail {env : TypeEnv} {f : reflect.StructField} {rest : List reflect.StructField}
    {u : TypeId} (h : Refs env rest u) : Refs env (f :: rest) u := by
  cases h with
  | embedded _ g hg ha => exact .embedded _ g (List.mem_cons_of_mem _ hg) ha
  | promoted _ g _ hg ha hr => exact .promoted _ g _ (List.mem_cons_of_mem _ hg) ha hr
  | field _ g sf _ hg ha hj hc hm =>
    exact .field _ g sf _ (List.mem_cons_of_mem _ hg) ha hj hc hm

theorem Refs_cons_inv {env : TypeEnv} {f : reflect.StructField}
    {rest : List reflect.StructField} {u : TypeId} (h : Refs env (f :: rest) u) :
    (f.Anonymous = true ∧ (u = f.Typ ∨ Refs env (env f.Typ).Fields u)) ∨
    (f.Anonymous = false ∧ ∃ sf, applyJsonTag f.jsonTag (rawField env f) = some sf ∧
      (applyTsTag f.tsTag sf).TypeCustom = false ∧ Mentions env f.Typ u) ∨
    Refs env rest u := by
  cases h with
  | embedded _ g hg ha =>
    rcases List.mem_cons.1 hg with rfl | hg
    · exact Or.inl ⟨ha, Or.inl rfl⟩
    · exact Or.inr (Or.inr (.embedded _ g hg ha))
  | promoted _ g _ hg ha hr =>
    rcases List.mem_cons.1 hg with rfl | hg
    · exact Or.inl ⟨ha, Or.inr hr⟩
    · exact Or.inr (Or.inr (.promoted _ g _ hg ha hr))
  | field _ g sf _ hg ha hj hc hm =>
    rcases List.mem_cons.1 hg with rfl | hg
    · exact Or.inr (Or.inl ⟨ha, sf, hj, hc, hm⟩)
    · exact Or.inr (Or.inr (.field _ g sf _ hg ha hj hc hm))

theorem Refs_nil {env : TypeEnv} {u : TypeId} (h : Refs env [] u) : False := by
  cases h with
  | embedded _ g hg _ => simp at hg
  | promoted _ g _ hg _ _ => simp at hg
  | field _ g _ _ hg _ _ _ _ => simp at hg

/-- Every type that the loop of `AddStructFields` adds to the queue is referred to
by the fields, accepted by `QueueType`, and a record or named scalar. -/
theorem Adds_sound {env : TypeEnv} {b b' : Bridge} {acc acc' : List StructField}
    {fs : List reflect.StructField} (h : Adds env b acc fs b' acc') :
    ∀ u ∈ b'.QueuedTypes,
      u ∈ b.QueuedTypes ∨ (Refs env fs u ∧ Queueable env u ∧ Nominal env u) := by
  induction h with
  | nil => intro u hu; exact Or.inl hu
  | embed b b1 b2 acc acc1 acc2 f rest ha hk _ _ ih1 ih2 =>
    intro u hu
    rcases ih2 u hu with h | ⟨hr, hq, hn⟩
    · rcases ih1 u h with h | ⟨hr, hq, hn⟩
      · rcases QueueType_new env b f.Typ u h with h | ⟨rfl, hq⟩
        · exact Or.inl h
        · exact Or.inr ⟨.embedded _ f (List.mem_cons_self _ _) ha, hq,
            Or.inl (describe_struct _ hk)⟩
      · exact Or.inr ⟨.promoted _ f u (List.mem_cons_self _ _) ha hr, hq, hn⟩
    · exact Or.inr ⟨Refs_tail hr, hq, hn⟩
  | omitted _ _ _ _ _ _ _ _ _ ih =>
    intro u hu
    rcases ih u hu with h | ⟨hr, hq, hn⟩
    · exact Or.inl h
    · exact Or.inr ⟨Refs_tail hr, hq, hn⟩
  | custom _ _ _ _ _ _ _ _ _ _ _ ih =>
    intro u hu
    rcases ih u hu with h | ⟨hr, hq, hn⟩
    · exact Or.inl h
    · exact Or.inr ⟨Refs_tail hr, hq, hn⟩
  | plain b b1 b2 acc acc2 f rest sf s ha hj hc ht _ ih =>
    intro u hu
    rcases ih u hu with h | ⟨hr, hq, hn⟩
    · rcases Translates_sound ht u h with h | ⟨hm, hq⟩
      · exact Or.inl h
      · exact Or.inr ⟨.field _ f sf u (List.mem_cons_self _ _) ha hj hc hm, hq,
          Mentions_nominal hm⟩
    · exact Or.inr ⟨Refs_tail hr, hq, hn⟩

/-- Every type that the fields refer to and `QueueType` accepts is queued or
processed after the loop of `AddStructFields`. -/
theorem Adds_complete {env : TypeEnv} {b b' : Bridge} {acc acc' : List StructField}
    {fs : List reflect.StructField} (h : Adds env b acc fs b' acc') :
    ∀ u, Refs env fs u → Queueable env u → u ∈ b'.QueuedTypes ∨ u ∈ b'.ProcessedTypes := by
  induction h with
  | nil => intro u hr; exact absurd hr Refs_nil
  | embed b b1 b2 acc acc1 acc2 f rest ha hk h1 h2 ih1 ih2 =>
    intro u hr hq
    rcases Refs_cons_inv hr with ⟨_, rfl | hr'⟩ | ⟨ha', _⟩ | hr'
    · exact Ext_mem (Ext_trans (Adds_ext h1) (Adds_ext h2)) (QueueType_mem env b f.Typ hq)
    · exact Ext_mem (Adds_ext h2) (ih1 u hr' hq)
    · rw [ha] at ha'; exact absurd ha' (by simp)
    · exact ih2 u hr' hq
  | omitted b b2 acc acc2 f rest ha hj _ ih =>
    intro u hr hq
    rcases Refs_cons_inv hr with ⟨ha', _⟩ | ⟨_, sf, hj', _⟩ | hr'
    · rw [ha] at ha'; exact absurd ha' (by simp)
    · rw [hj] at hj'; exact absurd hj' (by simp)
    · exact ih u hr' hq
  | custom b b2 acc acc2 f rest sf ha hj hc _ ih =>
    intro u hr hq
    rcases Refs_cons_inv hr with ⟨ha', _⟩ | ⟨_, sf', hj', hc', _⟩ | hr'
    · rw [ha] at ha'; exact absurd ha' (by simp)
    · rw [hj] at hj'
      cases hj'
      rw [hc] at hc'; exact absurd hc' (by simp)
    · exact ih u hr' hq
  | plain b b1 b2 acc acc2 f rest sf s ha hj hc ht h2 ih =>
    intro u hr hq
    rcases Refs_cons_inv hr with ⟨ha', _⟩ | ⟨_, sf', _, _, hm⟩ | hr'
    · rw [ha] at ha'; exact absurd ha' (by simp)
    · exact Ext_mem (Adds_ext h2) (Translates_complete ht u hm hq)
    · exact ih u hr' hq

theorem processType_sound (env : TypeEnv) (fuel : Nat) (b b1 : Bridge) (t : TypeId)
    (h : processType env fuel b t = .ok b1) :
    ∀ u ∈ b1.QueuedTypes, u ∈ b.QueuedTypes ∨ (Discovers env t u ∧ Nominal env u) := by
  rcases processType_cases env fuel b b1 t h with ⟨hk, bm, sinfo, ha, rfl⟩ | ⟨_, rfl⟩
  · obtain ⟨_, _, hadds⟩ := AddStructFields_adds env fuel _ _ _ _ _ ha
    intro u hu
    rcases Adds_sound hadds u hu with h | ⟨hr, hq, hn⟩
    · exact Or.inl h
    · exact Or.inr ⟨⟨hk, hr, hq⟩, hn⟩
  · intro u hu
    have := (QueuePackage_frame b (env t).PkgPath).2.2.2.2
    simp only at hu
    rw [this] at hu
    exact Or.inl hu

theorem processType_complete (env : TypeEnv) (fuel : Nat) (b b1 : Bridge) (t : TypeId)
    (h : processType env fuel b t = .ok b1) :
    ∀ u, Discovers env t u → u ∈ b1.QueuedTypes ∨ u ∈ b.ProcessedTypes := by
  rcases processType_cases env fuel b b1 t h with ⟨hk, bm, sinfo, ha, rfl⟩ | ⟨hk, rfl⟩
  · obtain ⟨_, _, hadds⟩ := AddStructFields_adds env fuel _ _ _ _ _ ha
    intro u hd
    have := Adds_complete hadds u hd.2.1 hd.2.2
    rw [(Adds_ext hadds).processed] at this
    exact this
  · intro u hd
    exact absurd hd.1 hk

/-! ## The worklist computes the reachable types -/

theorem Reachable_queueable {env : TypeEnv} {roots : List TypeId} {u : TypeId}
    (h : Reachable env roots u) : Queueable env u := by
  obtain ⟨r, _, hq, hstar⟩ := h
  induction hstar with
  | refl => exact hq
  | tail _ hd _ => exact hd.2.2

theorem Reachable_step {env : TypeEnv} {roots : List TypeId} {t u : TypeId}
    (h : Reachable env roots t) (hd : Discovers env t u) : Reachable env roots u := by
  obtain ⟨r, hr, hq, hstar⟩ := h
  exact ⟨r, hr, hq, hstar.tail hd⟩

theorem queueRoots_disc (env : TypeEnv) (roots : List TypeId) : Disc env roots (queueRoots env roots) := by
  have key : ∀ (rs : List TypeId) (b : Bridge), (∀ r ∈ rs, r ∈ roots) →
      (∀ u ∈ b.QueuedTypes, u ∈ roots ∧ Queueable env u) →
      ∀ u ∈ (rs.foldl (Bridge.QueueType env) b).QueuedTypes, u ∈ roots ∧ Queueable env u := by
    intro rs
    induction rs with
    | nil => intro b _ hb; exact hb
    | cons r rs ih =>
      intro b hr hb
      apply ih _ (fun x hx => hr x (List.mem_cons_of_mem _ hx))
      intro u hu
      rcases QueueType_new env b r u hu with h | ⟨rfl, hq⟩
      · exact hb u h
      · exact ⟨hr _ (List.mem_cons_self _ _), hq⟩
  have hQ := key roots Bridge.empty (fun r hr => hr) (by simp [Bridge.empty])
  have hext := queueRoots_ext env roots Bridge.empty
  have hP : (queueRoots env roots).ProcessedTypes = [] := hext.processed
  have key2 : ∀ (rs : List TypeId) (b : Bridge) (r : TypeId), r ∈ rs → Queueable env r →
      r ∈ (rs.foldl (Bridge.QueueType env) b).QueuedTypes ∨
      r ∈ (rs.foldl (Bridge.QueueType env) b).ProcessedTypes := by
    intro rs
    induction rs with
    | nil => intro b r hr; simp at hr
    | cons x rs ih =>
      intro b r hr hq
      rcases List.mem_cons.1 hr with rfl | hr
      · exact Ext_mem (queueRoots_ext env rs _) (QueueType_mem env b r hq)
      · exact ih _ r hr hq
  refine ⟨?_, ?_, ?_, ?_, ?_, ?_⟩
  · intro u hu; rw [hP] at hu; simp at hu
  · intro u hu
    obtain ⟨h1, h2⟩ := hQ u hu
    exact ⟨u, h1, h2, Relation.ReflTransGen.refl⟩
  · intro u hu; rw [hP] at hu; simp at hu
  · intro u hu; exact Or.inr (hQ u hu).1
  · intro r hr hq; exact key2 roots Bridge.empty r hr hq
  · intro t ht; rw [hP] at ht; simp at ht

theorem processType_queue (env : TypeEnv) (fuel : Nat) (b b1 : Bridge) (t : TypeId)
    (h : processType env fuel b t = .ok b1) :
    ∃ extra, b1.QueuedTypes = b.QueuedTypes ++ extra ∧
      b1.ProcessedTypes = b.ProcessedTypes ++ [t] := by
  rcases processType_cases env fuel b b1 t h with ⟨_, bm, sinfo, ha, rfl⟩ | ⟨_, rfl⟩
  · obtain ⟨_, _, hadds⟩ := AddStructFields_adds env fuel _ _ _ _ _ ha
    have hext := Adds_ext hadds
    obtain ⟨extra, hqe, _, _⟩ := hext.queue
    exact ⟨extra, hqe, by simp [hext.processed]⟩
  · obtain ⟨_, _, _, f4, f5⟩ := QueuePackage_frame b (env t).PkgPath
    exact ⟨[], by simp [f5], by simp [f4]⟩

theorem step_disc (env : TypeEnv) (roots : List TypeId) (fuel : Nat) (b b1 : Bridge)
    (t : TypeId) (rest : List TypeId) (hq : b.QueuedTypes = t :: rest)
    (h : processType env fuel b t = .ok b1) (hd : Disc env roots b) :
    Disc env roots { b1 with QueuedTypes := b1.QueuedTypes.tail } := by
  obtain ⟨extra, hQ1, hP1⟩ := processType_queue env fuel b b1 t h
  have htail : b1.QueuedTypes.tail = rest ++ extra := by rw [hQ1, hq]; rfl
  have htQ : t ∈ b.QueuedTypes := by rw [hq]; exact List.mem_cons_self _ _
  have hsound := processType_sound env fuel b b1 t h
  have hcomp := processType_complete env fuel b b1 t h
  -- membership after the step
  have mono : ∀ u, (u ∈ b1.QueuedTypes ∨ u ∈ b.ProcessedTypes) →
      (u ∈ b1.QueuedTypes.tail ∨ u ∈ b1.ProcessedTypes) := by
    intro u hu
    rcases hu with hu | hu
    · rw [hQ1, hq] at hu
      simp only [List.cons_append, List.mem_cons] at hu
      rcases hu with rfl | hu
      · right; rw [hP1]; simp
      · left; rw [htail]; exact hu
    · right; rw [hP1]; exact List.mem_append_left _ hu
  have monoQ : ∀ u, (u ∈ b.QueuedTypes ∨ u ∈ b.ProcessedTypes) →
      (u ∈ b1.QueuedTypes.tail ∨ u ∈ b1.ProcessedTypes) := by
    intro u hu
    apply mono
    rcases hu with hu | hu
    · left; rw [hQ1]; exact List.mem_append_left _ hu
    · exact Or.inr hu
  have hnewQ : ∀ u ∈ b1.QueuedTypes.tail, u ∈ b1.QueuedTypes :=
    fun u hu => List.mem_of_mem_tail hu
  refine ⟨?_, ?_, ?_, ?_, ?_, ?_⟩
  · intro u hu
    simp only [hP1, List.mem_append, List.mem_singleton] at hu
    rcases hu with hu | rfl
    · exact hd.reachP u hu
    · exact hd.reachQ u htQ
  · intro u hu
    rcases hsound u (hnewQ u hu) with h1 | ⟨h1, _⟩
    · exact hd.reachQ u h1
    · exact Reachable_step (hd.reachQ t htQ) h1
  · intro u hu
    simp only [hP1, List.mem_append, List.mem_singleton] at hu
    rcases hu with hu | rfl
    · exact hd.nomP u hu
    · exact hd.nomQ u htQ
  · intro u hu
    rcases hsound u (hnewQ u hu) with h1 | ⟨_, h1⟩
    · exact hd.nomQ u h1
    · exact Or.inl h1
  · intro r hr hqr
    exact monoQ r (hd.roots r hr hqr)
  · intro t' ht' u hdu
    simp only [hP1, List.mem_append, List.mem_singleton] at ht'
    rcases ht' with ht' | rfl
    · exact monoQ u (hd.closed t' ht' u hdu)
    · exact mono u (hcomp u hdu)

theorem processQueue_disc (env : TypeEnv) (roots : List TypeId) (fuel : Nat) :
    ∀ (steps : Nat) (b b' : Bridge), processQueue env fuel steps b = .ok b' →
      Disc env roots b → Disc env roots b' := by
  intro steps
  induction steps with
  | zero =>
    intro b b' h hd
    unfold processQueue at h
    split_ifs at h with hq
    cases h
    exact hd
  | succ n ih =>
    intro b b' h hd
    unfold processQueue at h
    cases hq : b.QueuedTypes with
    | nil =>
      simp only [hq, Except.ok.injEq] at h
      subst h
      exact hd
    | cons t rest =>
      simp only [hq] at h
      cases hp : processType env fuel b t with
      | error e => simp [hp] at h
      | ok b1 =>
        simp only [hp] at h
        exact ih _ _ h (step_disc env roots fuel b b1 t rest hq hp hd)

theorem PkgFrame_disc {env : TypeEnv} {roots : List TypeId} {b b' : Bridge}
    (h : PkgFrame b b') (hd : Disc env roots b) : Disc env roots b' := by
  refine ⟨?_, ?_, ?_, ?_, ?_, ?_⟩
  · rw [h.processed]; exact hd.reachP
  · rw [h.queue]; exact hd.reachQ
  · rw [h.processed]; exact hd.nomP
  · rw [h.queue]; exact hd.nomQ
  · rw [h.processed, h.queue]; exact hd.roots
  · rw [h.processed, h.queue]; exact hd.closed

theorem Process_disc (env : TypeEnv) (src : Sources) (roots : List TypeId)
    (fuel steps : Nat) (b : Bridge)
    (h : Process env src fuel steps (queueRoots env roots) = .ok b) : Disc env roots b := by
  obtain ⟨b1, hq, hp⟩ := Process_cases env src fuel steps _ b h
  exact PkgFrame_disc (processPackages_frame src _ _ _ hp)
    (processQueue_disc env roots fuel steps _ b1 hq (queueRoots_disc env roots))

/-- With an empty queue, the discovery invariant makes the processed types the
reachable ones. -/
theorem Disc_final {env : TypeEnv} {roots : List TypeId} {b : Bridge}
    (hd : Disc env roots b) (hq : b.QueuedTypes = []) (u : TypeId) :
    u ∈ b.ProcessedTypes ↔ Reachable env roots u := by
  constructor
  · exact hd.reachP u
  · rintro ⟨r, hr, hqr, hstar⟩
    induction hstar with
    | refl =>
      rcases hd.roots r hr hqr with h | h
      · rw [hq] at h; simp at h
      · exact h
    | tail _ hstep ih =>
      rcases hd.closed _ ih _ hstep with h | h
      · rw [hq] at h; simp at h
      · exact h

/-! ## The struct infos are the shapes of the processed records -/

theorem shapeLoop_mono (env : TypeEnv)
    (recur recur' : TypeId → Except Fault (List StructField)) (tr tr' : TypeId → Option String)
    (hrec : ∀ t L, recur t = .ok L → recur' t = .ok L)
    (htr : ∀ t s, tr t = some s → tr' t = some s) :
    ∀ (fs : List reflect.StructField) (L : List StructField),
      shapeLoop env recur tr fs = .ok L → shapeLoop env recur' tr' fs = .ok L := by
  intro fs
  induction fs with
  | nil => intro L h; simpa [shapeLoop] using h
  | cons f rest ih =>
    intro L h
    rw [shapeLoop_cons] at h ⊢
    by_cases ha : f.Anonymous = true
    · simp only [ha, if_true] at h ⊢
      cases hr : recur f.Typ with
      | error e => simp [hr] at h
      | ok own =>
        simp only [hr] at h
        rw [hrec _ _ hr]
        cases hm : shapeLoop env recur tr rest with
        | error e => simp [hm] at h
        | ok more =>
          simp only [hm] at h
          simp only [ih _ hm]
          exact h
    · have ha' : f.Anonymous = false := by simpa using ha
      simp only [ha', Bool.false_eq_true, if_false] at h ⊢
      cases hj : applyJsonTag f.jsonTag (rawField env f) with
      | none =>
        simp only [hj] at h ⊢
        exact ih _ h
      | some sf =>
        simp only [hj] at h ⊢
        by_cases hc : (applyTsTag f.tsTag sf).TypeCustom = true
        · simp only [hc, if_true] at h ⊢
          cases hm : shapeLoop env recur tr rest with
          | error e => simp [hm] at h
          | ok more =>
            simp only [hm] at h
            simp only [ih _ hm]
            exact h
        · have hc' : (applyTsTag f.tsTag sf).TypeCustom = false := by simpa using hc
          simp only [hc', Bool.false_eq_true, if_false] at h ⊢
          cases ht : tr f.Typ with
          | none => simp [ht] at h
          | some s =>
            simp only [ht] at h
            simp only [htr _ _ ht]
            cases hm : shapeLoop env recur tr rest with
            | error e => simp [hm] at h
            | ok more =>
              simp only [hm] at h
              simp only [ih _ hm]
              exact h

theorem recordShape_mono (env : TypeEnv) : ∀ (d : Nat) (t : TypeId) (L : List StructField),
    recordShape env d t = .ok L → recordShape env (d + 1) t = .ok L := by
  intro d
  induction d with
  | zero => intro t L h; simp [recordShape] at h
  | succ n ih =>
    intro t L h
    rw [recordShape] at h ⊢
    split_ifs at h ⊢ with hk
    exact shapeLoop_mono env _ _ _ _ ih (translated_mono env n) _ _ h

theorem step_shape (env : TypeEnv) (fuel : Nat) (b b1 : Bridge) (t : TypeId)
    (h : processType env fuel b t = .ok b1) (hs : ShapeInv env fuel b) :
    ShapeInv env fuel { b1 with QueuedTypes := b1.QueuedTypes.tail } := by
  unfold ShapeInv at hs ⊢
  rcases processType_cases env fuel b b1 t h with ⟨hk, bm, sinfo, ha, rfl⟩ | ⟨hk, rfl⟩
  · obtain ⟨_, hname, hadds⟩ := AddStructFields_adds env fuel _ _ _ _ _ ha
    obtain ⟨L, hL, hf⟩ := AddStructFields_shape env fuel _ _ _ _ _ ha
    have hext := Adds_ext hadds
    simp only [List.nil_append] at hf
    simp only [hext.structs, hext.processed, List.filter_append, List.filter_cons, hk,
      decide_True, if_true, List.filter_nil]
    refine List.rel_append hs (List.Forall₂.cons ⟨hname, ?_⟩ List.Forall₂.nil)
    rw [hf]; exact hL
  · obtain ⟨f1, _, _, f4, _⟩ := QueuePackage_frame b (env t).PkgPath
    simp only [f1, f4, List.filter_append, List.filter_cons, hk, decide_False,
      Bool.false_eq_true, if_false, List.filter_nil, List.append_nil]
    exact hs

theorem processQueue_shape (env : TypeEnv) (fuel : Nat) : ∀ (steps : Nat) (b b' : Bridge),
    processQueue env fuel steps b = .ok b' → ShapeInv env fuel b → ShapeInv env fuel b' := by
  intro steps
  induction steps with
  | zero =>
    intro b b' h hs
    unfold processQueue at h
    split_ifs at h with hq
    cases h
    exact hs
  | succ n ih =>
    intro b b' h hs
    unfold processQueue at h
    cases hq : b.QueuedTypes with
    | nil =>
      simp only [hq, Except.ok.injEq] at h
      subst h
      exact hs
    | cons t rest =>
      simp only [hq] at h
      cases hp : processType env fuel b t with
      | error e => simp [hp] at h
      | ok b1 =>
        simp only [hp] at h
        exact ih _ _ h (step_shape env fuel b b1 t hp hs)

theorem Process_shape (env : TypeEnv) (src : Sources) (roots : List TypeId)
    (fuel steps : Nat) (b : Bridge)
    (h : Process env src fuel steps (queueRoots env roots) = .ok b) : ShapeInv env fuel b := by
  obtain ⟨b1, hq, hp⟩ := Process_cases env src fuel steps _ b h
  have hf := processPackages_frame src _ _ _ hp
  have hext := queueRoots_ext env roots Bridge.empty
  have h0 : ShapeInv env fuel (queueRoots env roots) := by
    unfold ShapeInv
    have e1 : (queueRoots env roots).Structs = [] := hext.structs
    have e2 : (queueRoots env roots).ProcessedTypes = [] := hext.processed
    rw [e1, e2]
    exact List.Forall₂.nil
  have h1 := processQueue_shape env fuel steps _ b1 hq h0
  unfold ShapeInv at h1 ⊢
  rw [hf.structs, hf.processed]
  exact h1

/-! ## Embedded fields in the record shape -/

theorem recordShape_struct (env : TypeEnv) (d : Nat) (t : TypeId) (L : List StructField)
    (h : recordShape env d t = .ok L) : (env t).kind = .Struct := by
  cases d with
  | zero => simp [recordShape] at h
  | succ n =>
    rw [recordShape] at h
    split_ifs at h with hk
    exact not_not.1 hk

theorem recordShape_embedded (env : TypeEnv) (n : Nat) (t : TypeId) (L : List StructField)
    (pre post : List reflect.StructField) (f : reflect.StructField)
    (h : recordShape env (n + 1) t = .ok L) (hf : (env t).Fields = pre ++ f :: post)
    (ha : f.Anonymous = true) :
    ∃ Lpre E Lpost, shapeOfFields env n pre = .ok Lpre ∧ recordShape env n f.Typ = .ok E ∧
      shapeOfFields env n post = .ok Lpost ∧ L = Lpre ++ E ++ Lpost := by
  rw [recordShape] at h
  split_ifs at h with hk
  rw [hf] at h
  obtain ⟨L1, L2, h1, h2, rfl⟩ := shapeLoop_append env _ _ pre (f :: post) L h
  rw [shapeLoop_cons] at h2
  simp only [ha, if_true] at h2
  cases hr : recordShape env n f.Typ with
  | error e => simp [hr] at h2
  | ok own =>
    simp only [hr] at h2
    cases hm : shapeLoop env (recordShape env n) (translated env n) post with
    | error e => simp [hm] at h2
    | ok more =>
      simp only [hm, Except.ok.injEq] at h2
      exact ⟨L1, own, more, h1, rfl, hm, by rw [← h2, List.append_assoc]⟩

theorem forall₂_right {α β : Type} {R : α → β → Prop} {l1 : List α} {l2 : List β}
    (h : List.Forall₂ R l1 l2) : ∀ y ∈ l2, ∃ x ∈ l1, R x y := by
  induction h with
  | nil => intro y hy; simp at hy
  | cons hxy _ ih =>
    intro y hy
    rcases List.mem_cons.1 hy with rfl | hy
    · exact ⟨_, List.mem_cons_self _ _, hxy⟩
    · obtain ⟨x, hx, hr⟩ := ih y hy
      exact ⟨x, List.mem_cons_of_mem _ hx, hr⟩

theorem firstPart_empty : firstPart "" = "" := by decide

/-! ## The constants recovered for a named scalar -/

theorem appendConsts_names (values : String → GoAny) : ∀ (names : List String)
    (consts : List ConstValue),
    (appendConsts values names consts).map (fun c => c.Name) =
      consts.map (fun c => c.Name) ++ keptNames names := by
  intro names
  induction names with
  | nil => intro consts; simp [appendConsts, keptNames]
  | cons n rest ih =>
    intro consts
    have hstep : appendConsts values (n :: rest) consts =
        appendConsts values rest
          (if n = "_" then consts else consts ++ [{ Name := n, Value := values n }]) := rfl
    rw [hstep, ih]
    by_cases hn : n = "_"
    · simp [hn, keptNames]
    · simp [hn, keptNames]

theorem modifyAt_get (f : EnumInfo → EnumInfo) : ∀ (es : List EnumInfo) (j i : Nat),
    (modifyAt f es j)[i]? = if i = j then es[i]?.map f else es[i]? := by
  intro es
  induction es with
  | nil => intro j i; simp [modifyAt]
  | cons e es ih =>
    intro j i
    cases j with
    | zero =>
      cases i with
      | zero => simp [modifyAt]
      | succ i => simp [modifyAt]
    | succ j =>
      cases i with
      | zero => simp [modifyAt]
      | succ i => simp [modifyAt, ih]

theorem constSpecsLoop_names (typesMap : String → Option Nat) (values : String → GoAny) :
    ∀ (specs : List ast.Spec) (cur : Option Nat) (enums enums' : List EnumInfo),
    constSpecsLoop typesMap values specs cur enums = .ok enums' →
    ∀ i, (enums'[i]?).map constNames =
      ((enums[i]?).map constNames).map (fun l => l ++ groupNames typesMap i specs cur) := by
  intro specs
  induction specs with
  | nil =>
    intro cur enums enums' h i
    simp only [constSpecsLoop, Except.ok.injEq] at h
    subst h
    cases enums[i]? <;> simp [groupNames]
  | cons spec rest ih =>
    intro cur enums enums' h i
    cases spec with
    | Other => simp [constSpecsLoop] at h
    | ValueSpec v =>
      rw [constSpecsLoop] at h
      rw [groupNames]
      cases hc : assignEnumInfo typesMap v cur with
      | none =>
        simp only [hc] at h
        rw [ih _ _ _ h i]
        cases enums[i]? <;> simp
      | some idx =>
        simp only [hc] at h
        rw [ih _ _ _ h i, modifyAt_get]
        by_cases hi : i = idx
        · subst hi
          cases hg : enums[i]? with
          | none => simp
          | some e =>
            simp [constNames, appendConsts_names, List.append_assoc]
        · have hne : ¬ (some idx = some i) := by
            intro h0; exact hi (Option.some.inj h0).symm
          cases enums[i]? <;> simp [hi, hne]

theorem constDeclsLoop_names (typesMap : String → Option Nat) (values : String → GoAny) :
    ∀ (decls : List ast.Decl) (enums enums' : List EnumInfo),
    constDeclsLoop typesMap values decls enums = .ok enums' →
    ∀ i, (enums'[i]?).map constNames =
      ((enums[i]?).map constNames).map (fun l => l ++ fileNames typesMap i decls) := by
  intro decls
  induction decls with
  | nil =>
    intro enums enums' h i
    simp only [constDeclsLoop, Except.ok.injEq] at h
    subst h
    cases enums[i]? <;> simp [fileNames]
  | cons decl rest ih =>
    intro enums enums' h i
    cases decl with
    | Other =>
      rw [constDeclsLoop] at h
      rw [fileNames]
      exact ih _ _ h i
    | GenDecl tok specs =>
      rw [constDeclsLoop] at h
      rw [fileNames]
      split_ifs at h with ht
      · rw [ih _ _ h i]
        have : ¬ tok = token.Token.CONST := ht
        cases enums[i]? <;> simp [this]
      · have htc : tok = token.Token.CONST := not_not.1 ht
        cases hs : constSpecsLoop typesMap values specs none enums with
        | error e => simp [hs] at h
        | ok enums1 =>
          simp only [hs] at h
          rw [ih _ _ h i, constSpecsLoop_names _ _ _ _ _ _ hs i]
          cases enums[i]? with
          | none => simp
          | some e => simp [htc, List.append_assoc]

theorem processFiles_names (typesMap : String → Option Nat) : ∀ (files : List ast.File)
    (b b' : Bridge), processFiles typesMap files b = .ok b' →
    ∀ i, (b'.Enums[i]?).map constNames =
      ((b.Enums[i]?).map constNames).map (fun l => l ++
        files.flatMap (fun file => fileNames typesMap i file.Decls)) := by
  intro files
  induction files with
  | nil =>
    intro b b' h i
    simp only [processFiles, Except.ok.injEq] at h
    subst h
    cases b.Enums[i]? <;> simp
  | cons file rest ih =>
    intro b b' h i
    rw [processFiles] at h
    cases hf : processFile typesMap file b with
    | error e => simp [hf] at h
    | ok b1 =>
      simp only [hf] at h
      rw [ih _ _ h i]
      unfold processFile at hf
      cases hc : constDeclsLoop typesMap (nameValues file.ScopeObjects) file.Decls b.Enums with
      | error e => simp [hc] at hf
      | ok enums =>
        simp only [hc] at hf
        cases he : errorDeclsLoop file.Decls b.Errors with
        | error e => simp [he] at hf
        | ok errors =>
          simp only [he, Except.ok.injEq] at hf
          subst hf
          simp only
          rw [constDeclsLoop_names _ _ _ _ _ hc i]
          cases b.Enums[i]? with
          | none => simp
          | some e => simp [List.append_assoc]

theorem keptNames_sublist (names : List String) : (keptNames names).Sublist names :=
  List.filter_sublist _

theorem groupNames_sublist (typesMap : String → Option Nat) (idx : Nat) :
    ∀ (specs : List ast.Spec) (cur : Option Nat),
    (groupNames typesMap idx specs cur).Sublist (declaredInGroup specs) := by
  intro specs
  induction specs with
  | nil => intro cur; simp [groupNames, declaredInGroup]
  | cons spec rest ih =>
    intro cur
    cases spec with
    | Other => rw [groupNames, declaredInGroup]; exact ih cur
    | ValueSpec v =>
      rw [groupNames, declaredInGroup]
      apply List.Sublist.append _ (ih _)
      split_ifs
      · exact keptNames_sublist _
      · exact List.nil_sublist _

theorem fileNames_sublist (typesMap : String → Option Nat) (idx : Nat) :
    ∀ (decls : List ast.Decl),
    (fileNames typesMap idx decls).Sublist (declaredInFile decls) := by
  intro decls
  induction decls with
  | nil => simp [fileNames, declaredInFile]
  | cons decl rest ih =>
    cases decl with
    | Other => rw [fileNames, declaredInFile]; exact ih
    | GenDecl tok specs =>
      rw [fileNames, declaredInFile]
      apply List.Sublist.append _ ih
      split_ifs
      · exact groupNames_sublist _ _ _ _
      · exact List.Sublist.refl _

theorem groupNames_no_discard (typesMap : String → Option Nat) (idx : Nat) :
    ∀ (specs : List ast.Spec) (cur : Option Nat), "_" ∉ groupNames typesMap idx specs cur := by
  intro specs
  induction specs with
  | nil => intro cur; simp [groupNames]
  | cons spec rest ih =>
    intro cur
    cases spec with
    | Other => rw [groupNames]; exact ih cur
    | ValueSpec v =>
      rw [groupNames]
      simp only [List.mem_append, not_or]
      refine ⟨?_, ih _⟩
      split_ifs
      · simp [keptNames]
      · simp

theorem fileNames_no_discard (typesMap : String → Option Nat) (idx : Nat) :
    ∀ (decls : List ast.Decl), "_" ∉ fileNames typesMap idx decls := by
  intro decls
  induction decls with
  | nil => simp [fileNames]
  | cons decl rest ih =>
    cases decl with
    | Other => rw [fileNames]; exact ih
    | GenDecl tok specs =>
      rw [fileNames]
      simp only [List.mem_append, not_or]
      refine ⟨?_, ih⟩
      split_ifs
      · exact groupNames_no_discard _ _ _ _
      · simp

/-- The descriptor kind of a type tells the case of the `switch` on its kind. -/
theorem describe_cases (r : reflect.RType) :
    (r.kind = .Struct ∧ describe r = .record) ∨
    (r.kind ∈ numericKinds ∧ r.Str = kindString r.kind ∧ describe r = .primitiveNumeric) ∨
    (r.kind ∈ numericKinds ∧ r.Str ≠ kindString r.kind ∧ describe r = .namedScalar) ∨
    (r.kind = .String ∧ r.Str = kindString r.kind ∧ describe r = .primitiveString) ∨
    (r.kind = .String ∧ r.Str ≠ kindString r.kind ∧ describe r = .namedScalar) ∨
    (r.kind = .Bool ∧ describe r = .boolean) ∨
    ((r.kind = .Slice ∨ r.kind = .Array) ∧ describe r = .sequence) ∨
    (r.kind = .Map ∧ describe r = .mapping) ∨
    (r.kind = .Ptr ∧ describe r = .pointer) ∨
    (r.kind = .Interface ∧ describe r = .dynamic) ∨
    (r.kind ∉ [Kind.Struct, .String, .Bool, .Slice, .Array, .Map, .Ptr, .Interface] ∧
      r.kind ∉ numericKinds ∧ describe r = .unsupported) := by
  rcases kind_cases r.kind with h | h | h | h | h | h | h | h | ⟨h, h2⟩
  · exact Or.inl ⟨h, describe_struct _ h⟩
  · by_cases hs : r.Str = kindString r.kind
    · exact Or.inr (Or.inl ⟨h, hs, by rw [describe_numeric _ h]; simp [hs]⟩)
    · exact Or.inr (Or.inr (Or.inl ⟨h, hs, by rw [describe_numeric _ h]; simp [hs]⟩))
  · by_cases hs : r.Str = kindString r.kind
    · exact Or.inr (Or.inr (Or.inr (Or.inl ⟨h, hs, by rw [describe_string _ h]; simp [hs]⟩)))
    · exact Or.inr (Or.inr (Or.inr (Or.inr (Or.inl
        ⟨h, hs, by rw [describe_string _ h]; simp [hs]⟩))))
  · exact Or.inr (Or.inr (Or.inr (Or.inr (Or.inr (Or.inl ⟨h, by simp [describe, h]⟩)))))
  · exact Or.inr (Or.inr (Or.inr (Or.inr (Or.inr (Or.inr (Or.inl
      ⟨h, by rcases h with h | h <;> simp [describe, h]⟩))))))
  · exact Or.inr (Or.inr (Or.inr (Or.inr (Or.inr (Or.inr (Or.inr (Or.inl
      ⟨h, by simp [describe, h]⟩)))))))
  · exact Or.inr (Or.inr (Or.inr (Or.inr (Or.inr (Or.inr (Or.inr (Or.inr (Or.inl
      ⟨h, by simp [describe, h]⟩))))))))
  · exact Or.inr (Or.inr (Or.inr (Or.inr (Or.inr (Or.inr (Or.inr (Or.inr (Or.inr (Or.inl
      ⟨h, by simp [describe, h]⟩)))))))))
  · exact Or.inr (Or.inr (Or.inr (Or.inr (Or.inr (Or.inr (Or.inr (Or.inr (Or.inr (Or.inr
      ⟨h, h2, describe_unsupported _ h h2⟩)))))))))

theorem describe_primitiveNumeric {r : reflect.RType} (h : describe r = .primitiveNumeric) :
    r.kind ∈ numericKinds ∧ r.Str = kindString r.kind := by
  rcases describe_cases r with ⟨_, d⟩ | ⟨a, b, _⟩ | ⟨_, _, d⟩ | ⟨_, _, d⟩ | ⟨_, _, d⟩ |
    ⟨_, d⟩ | ⟨_, d⟩ | ⟨_, d⟩ | ⟨_, d⟩ | ⟨_, d⟩ | ⟨_, _, d⟩
  all_goals first
    | exact ⟨a, b⟩
    | (rw [d] at h; cases h)

theorem describe_primitiveString {r : reflect.RType} (h : describe r = .primitiveString) :
    r.kind = .String ∧ r.Str = kindString r.kind := by
  rcases describe_cases r with ⟨_, d⟩ | ⟨_, _, d⟩ | ⟨_, _, d⟩ | ⟨a, b, _⟩ | ⟨_, _, d⟩ |
    ⟨_, d⟩ | ⟨_, d⟩ | ⟨_, d⟩ | ⟨_, d⟩ | ⟨_, d⟩ | ⟨_, _, d⟩
  all_goals first
    | exact ⟨a, b⟩
    | (rw [d] at h; cases h)

theorem describe_boolean {r : reflect.RType} (h : describe r = .boolean) : r.kind = .Bool := by
  rcases describe_cases r with ⟨_, d⟩ | ⟨_, _, d⟩ | ⟨_, _, d⟩ | ⟨_, _, d⟩ | ⟨_, _, d⟩ |
    ⟨a, _⟩ | ⟨_, d⟩ | ⟨_, d⟩ | ⟨_, d⟩ | ⟨_, d⟩ | ⟨_, _, d⟩
  all_goals first
    | exact a
    | (rw [d] at h; cases h)

theorem describe_sequence {r : reflect.RType} (h : describe r = .sequence) :
    r.kind = .Slice ∨ r.kind = .Array := by
  rcases describe_cases r with ⟨_, d⟩ | ⟨_, _, d⟩ | ⟨_, _, d⟩ | ⟨_, _, d⟩ | ⟨_, _, d⟩ |
    ⟨_, d⟩ | ⟨a, _⟩ | ⟨_, d⟩ | ⟨_, d⟩ | ⟨_, d⟩ | ⟨_, _, d⟩
  all_goals first
    | exact a
    | (rw [d] at h; cases h)

theorem describe_mapping {r : reflect.RType} (h : describe r = .mapping) : r.kind = .Map := by
  rcases describe_cases r with ⟨_, d⟩ | ⟨_, _, d⟩ | ⟨_, _, d⟩ | ⟨_, _, d⟩ | ⟨_, _, d⟩ |
    ⟨_, d⟩ | ⟨_, d⟩ | ⟨a, _⟩ | ⟨_, d⟩ | ⟨_, d⟩ | ⟨_, _, d⟩
  all_goals first
    | exact a
    | (rw [d] at h; cases h)

theorem describe_pointer {r : reflect.RType} (h : describe r = .pointer) : r.kind = .Ptr := by
  rcases describe_cases r with ⟨_, d⟩ | ⟨_, _, d⟩ | ⟨_, _, d⟩ | ⟨_, _, d⟩ | ⟨_, _, d⟩ |
    ⟨_, d⟩ | ⟨_, d⟩ | ⟨_, d⟩ | ⟨a, _⟩ | ⟨_, d⟩ | ⟨_, _, d⟩
  all_goals first
    | exact a
    | (rw [d] at h; cases h)

theorem describe_dynamic {r : reflect.RType} (h : describe r = .dynamic) :
    r.kind = .Interface := by
  rcases describe_cases r with ⟨_, d⟩ | ⟨_, _, d⟩ | ⟨_, _, d⟩ | ⟨_, _, d⟩ | ⟨_, _, d⟩ |
    ⟨_, d⟩ | ⟨_, d⟩ | ⟨_, d⟩ | ⟨_, d⟩ | ⟨a, _⟩ | ⟨_, _, d⟩
  all_goals first
    | exact a
    | (rw [d] at h; cases h)

/-! ## A root that is a composite type -/

/-- With the slice type `[]User` as a root, `QueueType` accepts it (its name is
empty, not "slice"), `processType` emits an enum entry with an empty name and the
type name "void" for it, and `User` behind it is never discovered. -/
theorem Process_on_slice_root :
    Process exEnv noSources 4 3 (queueRoots exEnv [3]) =
      .ok { Structs := [], Enums := [{ Name := "", TypeName := "void", Consts := [] }],
            Errors := [], ProcessedTypes := [3], QueuedTypes := [],
            QueuedPackages := [""], ProcessedPackages := [] } := by
  decide

/-! ## Constants by position -/

theorem enumTypesMap_congr (enums enums' : List EnumInfo)
    (h : enums.map (fun e => e.Name) = enums'.map (fun e => e.Name)) :
    enumTypesMap enums = enumTypesMap enums' := by
  funext name
  have hl : enums.length = enums'.length := by
    have := congrArg List.length h
    simpa using this
  have hg : ∀ i, (enums.get? i).map (fun e => e.Name) = (enums'.get? i).map (fun e => e.Name) := by
    intro i
    have := congrArg (fun l => l.get? i) h
    simpa [List.getElem?_map] using this
  unfold enumTypesMap
  rw [hl]
  congr 1
  apply List.filter_congr
  intro i _
  rw [hg i]

theorem enumTypesMap_sound (enums : List EnumInfo) (name : String) (i : Nat)
    (h : enumTypesMap enums name = some i) :
    (enums[i]?).map (fun e => e.Name) = some name := by
  unfold enumTypesMap at h
  have hm := List.mem_of_getLast?_eq_some h
  rw [List.mem_filter] at hm
  simpa using hm.2

theorem PkgFrame_typesMap {b b' : Bridge} (h : PkgFrame b b') :
    enumTypesMap b'.Enums = enumTypesMap b.Enums := by
  apply enumTypesMap_congr
  have := congrArg (List.map Prod.fst) h.enums
  simpa [List.map_map, Function.comp] using this

theorem processPackages_names (src : Sources) : ∀ (paths : List String) (b b' : Bridge),
    processPackages src paths b = .ok b' →
    ∀ i, (b'.Enums[i]?).map constNames =
      ((b.Enums[i]?).map constNames).map (fun l => l ++
        packagesNames src (enumTypesMap b.Enums) i paths) := by
  intro paths
  induction paths with
  | nil =>
    intro b b' h i
    simp only [processPackages, Except.ok.injEq] at h
    subst h
    cases b.Enums[i]? <;> simp [packagesNames]
  | cons p rest ih =>
    intro b b' h i
    unfold processPackages at h
    cases hp : ProcessPackage src b p with
    | error e => simp [hp] at h
    | ok b1 =>
      simp only [hp] at h
      have hf := ProcessPackage_frame src b b1 p hp
      have h2 := ih b1 b' h i
      rw [PkgFrame_typesMap hf] at h2
      rw [h2]
      have h1 : (b1.Enums[i]?).map constNames =
          ((b.Enums[i]?).map constNames).map (fun l => l ++
            packagesNames src (enumTypesMap b.Enums) i [p]) := by
        unfold ProcessPackage at hp
        cases hs : src p with
        | none =>
          simp only [hs, Except.ok.injEq] at hp
          subst hp
          cases b.Enums[i]? <;> simp [packagesNames, hs]
        | some pkgs =>
          simp only [hs] at hp
          have := processFiles_names _ _ _ _ hp i
          rw [this]
          cases b.Enums[i]? <;> simp [packagesNames, hs]
      rw [h1]
      cases b.Enums[i]? <;> simp [packagesNames]

/-- The first loop of `Process` records no constant. -/
theorem processType_noConsts (env : TypeEnv) (fuel : Nat) (b b1 : Bridge) (t : TypeId)
    (h : processType env fuel b t = .ok b1) (hc : ∀ e ∈ b.Enums, e.Consts = []) :
    ∀ e ∈ b1.Enums, e.Consts = [] := by
  rcases processType_cases env fuel b b1 t h with ⟨_, bm, sinfo, ha, rfl⟩ | ⟨_, rfl⟩
  · have hext := Adds_ext (AddStructFields_adds env fuel b _ t bm sinfo ha).2.2
    intro e he
    apply hc
    rw [← hext.enums]
    exact he
  · intro e he
    simp only [Bridge.QueuePackage] at he
    split_ifs at he <;>
    · simp only [List.mem_append, List.mem_singleton] at he
      rcases he with he | rfl
      · exact hc e he
      · rfl

theorem processQueue_noConsts (env : TypeEnv) (fuel : Nat) : ∀ (steps : Nat) (b b' : Bridge),
    processQueue env fuel steps b = .ok b' → (∀ e ∈ b.Enums, e.Consts = []) →
    ∀ e ∈ b'.Enums, e.Consts = [] := by
  intro steps
  induction steps with
  | zero =>
    intro b b' h hc
    unfold processQueue at h
    split_ifs at h
    cases h
    exact hc
  | succ n ih =>
    intro b b' h hc
    unfold processQueue at h
    cases hq : b.QueuedTypes with
    | nil =>
      simp only [hq, Except.ok.injEq] at h
      subst h
      exact hc
    | cons t rest =>
      simp only [hq] at h
      cases hp : processType env fuel b t with
      | error e => simp [hp] at h
      | ok b1 =>
        simp only [hp] at h
        exact ih _ b' h (processType_noConsts env fuel b b1 t hp hc)

theorem queueRoots_noConsts (env : TypeEnv) (roots : List TypeId) :
    ∀ e ∈ (queueRoots env roots).Enums, e.Consts = [] := by
  have hext := queueRoots_ext env roots Bridge.empty
  intro e he
  unfold queueRoots at he
  rw [hext.enums] at he
  simp [Bridge.empty] at he

theorem groupNames_count (typesMap : String → Option Nat) (i j : Nat) (hij : i ≠ j) (x : String) :
    ∀ (specs : List ast.Spec) (cur : Option Nat),
    (groupNames typesMap i specs cur).count x + (groupNames typesMap j specs cur).count x ≤
      (declaredInGroup specs).count x := by
  intro specs
  induction specs with
  | nil => intro cur; simp [groupNames, declaredInGroup]
  | cons spec rest ih =>
    intro cur
    cases spec with
    | Other => simpa [groupNames, declaredInGroup] using ih cur
    | ValueSpec v =>
      simp only [groupNames, declaredInGroup, List.count_append]
      have hrest := ih (assignEnumInfo typesMap v cur)
      have hk : (keptNames v.Names).count x ≤ v.Names.count x :=
        (List.filter_sublist _).count_le _
      by_cases h1 : assignEnumInfo typesMap v cur = some i
      · have h2 : assignEnumInfo typesMap v cur ≠ some j := by
          rw [h1]; intro hh; exact hij (Option.some.inj hh)
        simp only [h1, if_true] at hrest ⊢
        rw [if_neg (by rw [h1] at h2; exact h2)]
        simp only [List.count_nil]
        omega
      · rw [if_neg h1]
        by_cases h2 : assignEnumInfo typesMap v cur = some j
        · rw [if_pos h2]
          simp only [List.count_nil]
          omega
        · rw [if_neg h2]
          simp only [List.count_nil]
          omega

theorem fileNames_count (typesMap : String → Option Nat) (i j : Nat) (hij : i ≠ j) (x : String) :
    ∀ (decls : List ast.Decl),
    (fileNames typesMap i decls).count x + (fileNames typesMap j decls).count x ≤
      (declaredInFile decls).count x := by
  intro decls
  induction decls with
  | nil => simp [fileNames, declaredInFile]
  | cons decl rest ih =>
    cases decl with
    | Other => simpa [fileNames, declaredInFile] using ih
    | GenDecl tok specs =>
      simp only [fileNames, declaredInFile, List.count_append]
      by_cases ht : tok = .CONST
      · simp only [ht, if_true]
        have := groupNames_count typesMap i j hij x specs none
        omega
      · simp only [if_neg ht, List.count_nil]
        omega

theorem fileNames_disjoint (typesMap : String → Option Nat) (i j : Nat) (hij : i ≠ j)
    (decls : List ast.Decl) (hn : (declaredInFile decls).Nodup) (x : String)
    (hi : x ∈ fileNames typesMap i decls) : x ∉ fileNames typesMap j decls := by
  intro hj
  have h1 := List.count_pos_iff.2 hi
  have h2 := List.count_pos_iff.2 hj
  have h3 := fileNames_count typesMap i j hij x decls
  have h4 := List.nodup_iff_count_le_one.1 hn x
  omega

theorem two_positions {α : Type} (l : List α) (a b : α) (ha : a ∈ l)
    (hb : b ∈ l) (hab : a ≠ b) : ∃ i j : Nat, i ≠ j ∧ l[i]? = some a ∧ l[j]? = some b := by
  obtain ⟨i, hi⟩ := List.getElem?_of_mem ha
  obtain ⟨j, hj⟩ := List.getElem?_of_mem hb
  refine ⟨i, j, ?_, hi, hj⟩
  intro hij
  subst hij
  rw [hi] at hj
  exact hab (Option.some.inj hj)

/-! ## Sentinel errors -/

theorem errorOfDecl_some (decl : ast.Decl) (einfo : ErrorInfo)
    (h : errorOfDecl decl = .ok (some einfo)) :
    ∃ typ c cs, decl = .GenDecl .VAR [.ValueSpec
        { Names := [einfo.Name], Typ := typ,
          Values := [.CallExpr (.SelectorExpr (.Ident "errors") "New")
            [.BasicLit .STRING einfo.Value]] }] ∧
      einfo.Name.data = c :: cs ∧ 'A' ≤ c ∧ c ≤ 'Z' := by
  cases decl with
  | Other => simp [errorOfDecl] at h
  | GenDecl tok specs =>
    simp only [errorOfDecl] at h
    repeat' split at h
    all_goals try (simp at h; done)
    rename_i htok _ valSpec _ varName hnames _ c cs hdata hc _ fnPkgName fnName hp hn _ kind value hvalues hk
    obtain ⟨names, typ, values⟩ := valSpec
    simp only [Except.ok.injEq, Option.some.injEq] at h
    subst h
    simp only at hnames hvalues
    simp only [ne_eq, not_not] at htok hp hn hk
    subst hnames hvalues htok hp hn hk
    refine ⟨typ, c, cs, rfl, hdata, ?_, ?_⟩
    · exact not_lt.1 (fun hh => hc (Or.inl hh))
    · exact not_lt.1 (fun hh => hc (Or.inr hh))

theorem errorOfDecl_of_shape (typ : Option ast.Expr) (name value : String) (c : Char)
    (cs : List Char) (hdata : name.data = c :: cs) (h1 : 'A' ≤ c) (h2 : c ≤ 'Z') :
    errorOfDecl (.GenDecl .VAR [.ValueSpec
        { Names := [name], Typ := typ,
          Values := [.CallExpr (.SelectorExpr (.Ident "errors") "New")
            [.BasicLit .STRING value]] }]) =
      .ok (some { Name := name, Value := value }) := by
  have hc : ¬ (c < 'A' ∨ c > 'Z') := by
    rintro (hh | hh)
    · exact absurd h1 (not_le.2 hh)
    · exact absurd h2 (not_le.2 hh)
  simp [errorOfDecl, hdata, hc]

theorem errorDeclsLoop_append : ∀ (decls : List ast.Decl) (errors errors' : List ErrorInfo),
    errorDeclsLoop decls errors = .ok errors' →
    errors' = errors ++ decls.filterMap (fun decl => (errorOfDecl decl).toOption.join) := by
  intro decls
  induction decls with
  | nil =>
    intro errors errors' h
    simp only [errorDeclsLoop, Except.ok.injEq] at h
    simp [h]
  | cons decl rest ih =>
    intro errors errors' h
    unfold errorDeclsLoop at h
    cases hd : errorOfDecl decl with
    | error e => simp [hd] at h
    | ok r =>
      cases r with
      | none =>
        simp only [hd] at h
        rw [ih _ _ h]
        simp [List.filterMap_cons, hd, Except.toOption]
      | some einfo =>
        simp only [hd] at h
        rw [ih _ _ h]
        simp [List.filterMap_cons, hd, Except.toOption]

theorem processFiles_errors (typesMap : String → Option Nat) : ∀ (files : List ast.File)
    (b b' : Bridge), processFiles typesMap files b = .ok b' →
    b'.Errors = b.Errors ++ (files.flatMap (fun file => file.Decls)).filterMap
      (fun decl => (errorOfDecl decl).toOption.join) := by
  intro files
  induction files with
  | nil =>
    intro b b' h
    simp only [processFiles, Except.ok.injEq] at h
    simp [h]
  | cons file rest ih =>
    intro b b' h
    unfold processFiles at h
    cases hf : processFile typesMap file b with
    | error e => simp [hf] at h
    | ok b1 =>
      simp only [hf] at h
      rw [ih _ _ h]
      unfold processFile at hf
      cases hc : constDeclsLoop typesMap (nameValues file.ScopeObjects) file.Decls b.Enums with
      | error e => simp [hc] at hf
      | ok enums =>
        simp only [hc] at hf
        cases he : errorDeclsLoop file.Decls b.Errors with
        | error e => simp [he] at hf
        | ok errors =>
          simp only [he, Except.ok.injEq] at hf
          subst hf
          simp only
          rw [errorDeclsLoop_append _ _ _ he]
          simp [List.filterMap_append]

/-! ## The generated text -/

theorem join_cons (a : String) (l : List String) : String.join (a :: l) = a ++ String.join l := by
  apply String.ext
  simp [String.join_eq]

theorem join_nil : String.join [] = "" := rfl

theorem foldl_append_join {α : Type} (f : α → String) : ∀ (xs : List α) (w : String),
    xs.foldl (fun w x => w ++ f x) w = w ++ String.join (xs.map f) := by
  intro xs
  induction xs with
  | nil => intro w; simp [join_nil]
  | cons x rest ih =>
    intro w
    rw [List.foldl_cons, ih, List.map_cons, join_cons, String.append_assoc]

theorem writeEnum_eq (marshal : GoAny → String) (w : String) (einfo : EnumInfo) :
    writeEnum marshal w einfo = w ++ enumText marshal einfo := by
  simp only [writeEnum, enumText, foldl_append_join, String.append_assoc]

theorem writeStruct_eq (w : String) (sinfo : StructInfo) :
    writeStruct w sinfo = w ++ structText sinfo := by
  simp only [writeStruct, structText, foldl_append_join, String.append_assoc]

theorem WriteStructTSBinding_eq (marshal : GoAny → String) (b : Bridge) (w : String) :
    WriteStructTSBinding marshal b w =
      w ++ enumsText marshal b.Enums ++ errorsText b.Errors ++ structsText b.Structs := by
  have he : ∀ w, b.Enums.foldl (writeEnum marshal) w = w ++ enumsText marshal b.Enums := by
    intro w
    have hfun : writeEnum marshal = fun w x => w ++ enumText marshal x := by
      funext w x
      exact writeEnum_eq marshal w x
    rw [hfun]
    exact foldl_append_join (enumText marshal) b.Enums w
  have hs : ∀ w, b.Structs.foldl writeStruct w = w ++ structsText b.Structs := by
    intro w
    have hfun : writeStruct = fun w x => w ++ structText x := by
      funext w x
      exact writeStruct_eq w x
    rw [hfun]
    exact foldl_append_join structText b.Structs w
  have hr : ∀ w, b.Errors.foldl writeError w = w ++ String.join (b.Errors.map
      (fun e => "export const " ++ e.Name ++ " = " ++ e.Value ++ ";\n")) := by
    intro w
    have hfun : writeError =
        fun w (e : ErrorInfo) => w ++ ("export const " ++ e.Name ++ " = " ++ e.Value ++ ";\n") := by
      funext w e
      rfl
    rw [hfun]
    exact foldl_append_join _ b.Errors w
  unfold WriteStructTSBinding
  simp only [he, hs, hr]
  by_cases hz : b.Errors = []
  · simp [hz, errorsText]
  · have hpos : b.Errors.length > 0 := List.length_pos.2 hz
    simp only [hpos, if_true, errorsText, if_neg hz, String.append_assoc]

theorem WriteProcTSBinding_eq (env : TypeEnv) (httpRequestPtr : TypeId) (p : ProcedureInfo)
    (w : String) :
    WriteProcTSBinding env httpRequestPtr p w = w ++ stubText env httpRequestPtr p := by
  have hf : fmt.Sprintf "\x7d\n\n" = "\x7d\n\n" := by decide
  have h1 : "(data: BodyInit): Promise<rpc.Response<" =
      "(data: " ++ ("BodyInit" ++ "): Promise<rpc.Response<") := by decide
  have h2 : "', data);\n" = "', " ++ ("data" ++ ");\n") := by decide
  have h3 : "', JSON.stringify(data));\n" = "', " ++ ("JSON.stringify(data)" ++ ");\n") := by
    decide
  unfold WriteProcTSBinding stubText
  by_cases h : p.InputType = httpRequestPtr
  · simp only [h, if_true, hf, h1, h2, String.append_assoc]
  · simp only [if_neg h, hf, h3, String.append_assoc]

theorem writeProcs_eq (env : TypeEnv) (httpRequestPtr : TypeId) (app : Application) :
    ∀ (names : List String) (f f' : String),
    writeProcs env httpRequestPtr app names f = .ok f' →
    ∃ procs, names.map app.procMap = procs.map some ∧
      f' = f ++ stubsText env httpRequestPtr procs := by
  intro names
  induction names with
  | nil =>
    intro f f' h
    simp only [writeProcs, Except.ok.injEq] at h
    exact ⟨[], rfl, by simp [h.symm, stubsText, join_nil]⟩
  | cons name rest ih =>
    intro f f' h
    unfold writeProcs at h
    cases hp : app.procMap name with
    | none => simp [hp] at h
    | some proc =>
      simp only [hp] at h
      obtain ⟨procs, hm, hf⟩ := ih _ _ h
      refine ⟨proc :: procs, by simp [hp, hm], ?_⟩
      rw [hf, WriteProcTSBinding_eq]
      simp [stubsText, join_cons, String.append_assoc]

/-! ## The registry -/

theorem register_procMap (app : Application) (r : Registration) (name : String) :
    (register app r).procMap name =
      match lastProc name [r] with
      | some info => some info
      | none => app.procMap name := by
  cases r with
  | proc p maxBytes =>
    by_cases h : _LocalProcName p.fullName = name
    · subst h
      simp [register, _RegisterProc, lastProc]
    · have h' : name ≠ _LocalProcName p.fullName := fun e => h e.symm
      simp [register, _RegisterProc, lastProc, h, Function.update_noteq h']
  | data p => simp [register, _RegisterDataProc, lastProc]

theorem lastProc_append_singleton (name : String) (regs : List Registration) (r : Registration) :
    lastProc name (regs ++ [r]) =
      match lastProc name [r] with
      | some info => some info
      | none => lastProc name regs := by
  unfold lastProc
  simp only [List.reverse_append, List.reverse_cons, List.reverse_nil, List.nil_append,
    List.singleton_append, List.filterMap_cons, List.filterMap_nil]
  split <;> simp_all

theorem registerAll_procMap (app : Application) (name : String) : ∀ (regs : List Registration),
    (regs.foldl register app).procMap name =
      match lastProc name regs with
      | some info => some info
      | none => app.procMap name := by
  intro regs
  induction regs using List.reverseRecOn with
  | nil => simp [lastProc]
  | append_singleton regs r ih =>
    rw [List.foldl_append, List.foldl_cons, List.foldl_nil, register_procMap,
      lastProc_append_singleton]
    cases h : lastProc name [r] with
    | some info => simp
    | none => simpa using ih

theorem lastProc_none (name : String) (regs : List Registration)
    (h : ∀ p maxBytes, Registration.proc p maxBytes ∈ regs → _LocalProcName p.fullName ≠ name) :
    lastProc name regs = none := by
  unfold lastProc
  rw [List.head?_eq_none_iff, List.filterMap_eq_nil_iff]
  intro r hr
  cases r with
  | proc p maxBytes =>
    have := h p maxBytes (List.mem_reverse.1 hr)
    simp [this]
  | data p => rfl

/-! ## Serving requests -/

theorem doPrintf_verbatim : ∀ (fuel : Nat) (s : List Char), s.length < fuel → '%' ∉ s →
    fmt.doPrintf fuel s = s := by
  intro fuel
  induction fuel with
  | zero => intro s h; omega
  | succ n ih =>
    intro s hl hp
    cases s with
    | nil => rfl
    | cons c cs =>
      have hc : c ≠ '%' := fun e => hp (by simp [e])
      have hcs : '%' ∉ cs := fun e => hp (List.mem_cons_of_mem _ e)
      simp only [fmt.doPrintf, hc, ne_eq, not_false_eq_true, if_true]
      rw [ih cs (by simp at hl; omega) hcs]

/-- A format without a percent sign is written as it is. -/
theorem Sprintf_verbatim (text : String) (h : '%' ∉ text.data) : fmt.Sprintf text = text := by
  unfold fmt.Sprintf
  rw [doPrintf_verbatim _ _ (Nat.lt_succ_self _) h]

theorem stringsTrimPrefix_append (pre s : String) : stringsTrimPrefix (pre ++ s) pre = s := by
  unfold stringsTrimPrefix
  have h : pre.data.isPrefixOf (pre ++ s).data = true := by
    rw [List.isPrefixOf_iff_prefix, String.data_append]
    exact List.prefix_append _ _
  rw [if_pos h]
  apply String.ext
  simp [String.data_append]

theorem WriteHeader_Write (w : ResponseWriter) (code : Int) (text : String)
    (hw : w.sent = none) :
    (w.WriteHeader code).Write text =
      { w with statusCode := code, sent := some code, body := w.body ++ text } := by
  simp [ResponseWriter.WriteHeader, ResponseWriter.Write, hw]

theorem RespondError_verbatim (w : ResponseWriter) (text : String) (hw : w.sent = none)
    (h : '%' ∉ text.data) :
    RespondError w text = { w with statusCode := 400, sent := some 400, body := w.body ++ text } := by
  unfold RespondError
  rw [Sprintf_verbatim text h, WriteHeader_Write w 400 text hw]

theorem MakeContext_body (app : Application) (request : Request) (body : Body) :
    MakeContext app { request with Body := body } = MakeContext app request := rfl

/-- A request that is no client request error reaches the scoped call. -/
theorem HandleRPC_invokes (httpRequestPtr : TypeId) (decode : TypeId → Body → Option Value)
    (formatFloat : Int → String) (procDur : Int) (app : Application) (w : ResponseWriter)
    (request : Request) (h : clientError httpRequestPtr decode app request = none) :
    ∃ proc arg, app.procMap (stringsTrimPrefix request.RequestURI "/rpc/") = some proc ∧
      HandleRPC httpRequestPtr decode formatFloat procDur app w request =
        invokeProc formatFloat procDur app w
          { request with Body := MaxBytesReader request.Body proc.MaxBytes } proc arg ∧
      (proc.InputType = httpRequestPtr →
        arg = .request { request with Body := MaxBytesReader request.Body proc.MaxBytes }) ∧
      (proc.InputType ≠ httpRequestPtr →
        ∃ x, decode proc.InputType (MaxBytesReader request.Body proc.MaxBytes) = some x ∧
          arg = .object x) := by
  unfold clientError at h
  split_ifs at h with hm
  have hm' : request.Method = "POST" := by simpa using hm
  cases hp : app.procMap (stringsTrimPrefix request.RequestURI "/rpc/") with
  | none => simp [hp] at h
  | some proc =>
    simp only [hp] at h
    split_ifs at h with hd
    by_cases hr : proc.InputType = httpRequestPtr
    · refine ⟨proc, .request { request with Body := MaxBytesReader request.Body proc.MaxBytes },
        rfl, ?_, fun _ => rfl, fun hne => absurd hr hne⟩
      simp [HandleRPC, hm', PREFIX_RPC, hp, hr]
    · have hd' : decode proc.InputType (MaxBytesReader request.Body proc.MaxBytes) ≠ none :=
        fun e => hd ⟨hr, e⟩
      obtain ⟨x, hx⟩ := Option.ne_none_iff_exists'.1 hd'
      refine ⟨proc, .object x, rfl, ?_, fun he => absurd he hr, fun _ => ⟨x, hx, rfl⟩⟩
      simp [HandleRPC, hm', PREFIX_RPC, hp, hr, hx]

theorem invokeProc_events (formatFloat : Int → String) (procDur : Int) (app : Application)
    (w : ResponseWriter) (request : Request) (proc : ProcedureInfo) (arg : Input) :
    (invokeProc formatFloat procDur app w request proc arg).events =
      (MakeContext app request).2 ++ [Event.Call proc.ProcName] ++
        (proc.ProcValue (MakeContext app request).1 arg).events ++
        CloseContext (proc.ProcValue (MakeContext app request).1 arg).context := by
  unfold invokeProc
  dsimp only
  split
  · rfl
  · split <;> rfl

theorem Get_SetHeader (w : ResponseWriter) (key value : String) :
    (w.SetHeader key value).Get key = some value := by
  unfold ResponseWriter.SetHeader ResponseWriter.Get
  simp only
  rw [List.find?_append]
  have h : (w.header.filter (fun kv => decide (kv.1 ≠ key))).find?
      (fun kv => decide (kv.1 = key)) = none := by
    rw [List.find?_eq_none]
    intro kv hkv
    have := (List.mem_filter.1 hkv).2
    simpa using this
  rw [h]
  simp

theorem Get_SetHeader_other (w : ResponseWriter) (key other value : String) (h : other ≠ key) :
    (w.SetHeader other value).Get key = w.Get key := by
  unfold ResponseWriter.SetHeader ResponseWriter.Get
  simp only
  rw [List.find?_append]
  have h1 : (w.header.filter (fun kv => decide (kv.1 ≠ other))).find?
      (fun kv => decide (kv.1 = key)) = w.header.find? (fun kv => decide (kv.1 = key)) := by
    rw [List.find?_filter]
    congr 1
    funext kv
    by_cases hk : kv.1 = key
    · have : ¬ key = other := fun e => h e.symm
      simp [hk, this]
    · simp [hk]
  rw [h1]
  cases w.header.find? (fun kv => decide (kv.1 = key)) with
  | some kv => simp
  | none => simp [h]

theorem HandleRPC_eq_invoke_object (httpRequestPtr : TypeId)
    (decode : TypeId → Body → Option Value) (formatFloat : Int → String) (procDur : Int)
    (app : Application) (w : ResponseWriter) (request : Request) (proc : ProcedureInfo)
    (x : Value) (hmeth : request.Method = "POST")
    (hproc : app.procMap (stringsTrimPrefix request.RequestURI "/rpc/") = some proc)
    (hjson : proc.InputType ≠ httpRequestPtr)
    (hdec : decode proc.InputType (MaxBytesReader request.Body proc.MaxBytes) = some x) :
    HandleRPC httpRequestPtr decode formatFloat procDur app w request =
      invokeProc formatFloat procDur app w
        { request with Body := MaxBytesReader request.Body proc.MaxBytes } proc (.object x) := by
  simp [HandleRPC, hmeth, PREFIX_RPC, hproc, hjson, hdec]

theorem HandleRPC_eq_invoke_request (httpRequestPtr : TypeId)
    (decode : TypeId → Body → Option Value) (formatFloat : Int → String) (procDur : Int)
    (app : Application) (w : ResponseWriter) (request : Request) (proc : ProcedureInfo)
    (hmeth : request.Method = "POST")
    (hproc : app.procMap (stringsTrimPrefix request.RequestURI "/rpc/") = some proc)
    (hraw : proc.InputType = httpRequestPtr) :
    HandleRPC httpRequestPtr decode formatFloat procDur app w request =
      invokeProc formatFloat procDur app w
        { request with Body := MaxBytesReader request.Body proc.MaxBytes } proc
        (.request { request with Body := MaxBytesReader request.Body proc.MaxBytes }) := by
  simp [HandleRPC, hmeth, PREFIX_RPC, hproc, hraw]

/-- A client request error is answered with status 400 and its message, and
nothing happens outside the response. -/
theorem HandleRPC_reject_of_clientError (httpRequestPtr : TypeId)
    (decode : TypeId → Body → Option Value) (formatFloat : Int → String) (procDur : Int)
    (app : Application) (w : ResponseWriter) (request : Request) (msg : String)
    (hw : w.sent = none) (hm : clientError httpRequestPtr decode app request = some msg) :
    HandleRPC httpRequestPtr decode formatFloat procDur app w request =
      { w := { w with statusCode := 400, sent := some 400, body := w.body ++ msg },
        events := [], panicked := false } ∧
    msg ∈ ["RPC calls must be POST", "Procedure Not Found", "InvalidRequest"] := by
  unfold clientError at hm
  split_ifs at hm with hmeth
  · simp only [Option.some.injEq] at hm
    subst hm
    refine ⟨?_, by simp⟩
    simp only [HandleRPC, hmeth, ne_eq, not_false_eq_true, if_true]
    rw [RespondError_verbatim w _ hw (by decide)]
  · have hmeth' : request.Method = "POST" := by simpa using hmeth
    cases hp : app.procMap (stringsTrimPrefix request.RequestURI "/rpc/") with
    | none =>
      simp only [hp, Option.some.injEq] at hm
      subst hm
      refine ⟨?_, by simp⟩
      simp only [HandleRPC, hmeth', PREFIX_RPC, hp, ne_eq, not_true_eq_false, if_false]
      rw [RespondError_verbatim w _ hw (by decide)]
    | some proc =>
      simp only [hp] at hm
      split_ifs at hm with hd
      simp only [Option.some.injEq] at hm
      subst hm
      refine ⟨?_, by simp⟩
      simp only [HandleRPC, hmeth', PREFIX_RPC, hp, ne_eq, not_true_eq_false, if_false, hd.1,
        hd.2]
      rw [RespondError_verbatim w _ hw (by decide)]

/-! ## DigitsIn -/

theorem digitsLoop_nonpos (fuel : Nat) (count n : Int) (h : n ≤ 0) :
    digitsLoop fuel count n = some (count, n) := by
  cases fuel with
  | zero => simp [digitsLoop, not_lt.2 h]
  | succ f => simp [digitsLoop, not_lt.2 h]

/-- On a positive number the loop counts the decimal digits and leaves zero: with
`k` iterations to spare for a number below `10 ^ k`. -/
theorem digitsLoop_pos : ∀ (m : Nat) (fuel : Nat) (count : Int), 0 < m → m < 10 ^ fuel →
    ∃ k : Nat, 1 ≤ k ∧ k ≤ fuel ∧ digitsLoop fuel count (m : Int) = some (count + k, 0) ∧
      10 ^ (k - 1) ≤ m ∧ m < 10 ^ k := by
  intro m
  induction m using Nat.strong_induction_on with
  | _ m ih =>
    intro fuel count hm hf
    cases fuel with
    | zero => simp at hf; omega
    | succ f =>
      have hpos : (m : Int) > 0 := by exact_mod_cast hm
      have hdiv : Int.tdiv (m : Int) 10 = ((m / 10 : Nat) : Int) := by
        rw [Int.tdiv_eq_ediv (by omega) (by norm_num)]
        norm_cast
      rw [digitsLoop, if_pos hpos, hdiv]
      by_cases hsmall : m < 10
      · have hz : m / 10 = 0 := Nat.div_eq_of_lt hsmall
        rw [hz]
        refine ⟨1, le_refl _, by omega, ?_, by simpa using hm, by simpa using hsmall⟩
        rw [Nat.cast_zero, digitsLoop_nonpos f (count + 1) 0 (le_refl _)]
        simp
      · have hq : 0 < m / 10 := Nat.div_pos (by omega) (by norm_num)
        have hlt : m / 10 < m := Nat.div_lt_self hm (by norm_num)
        have hqf : m / 10 < 10 ^ f := by
          rw [Nat.div_lt_iff_lt_mul (by norm_num)]
          rw [pow_succ] at hf
          exact hf
        obtain ⟨k, hk1, hkf, hloop, hlo, hhi⟩ := ih (m / 10) hlt f (count + 1) hq hqf
        refine ⟨k + 1, by omega, by omega, ?_, ?_, ?_⟩
        · rw [hloop]
          simp only [Option.some.injEq, Prod.mk.injEq, and_true]
          push_cast
          ring
        · have : k + 1 - 1 = (k - 1) + 1 := by omega
          rw [this, pow_succ]
          have := Nat.div_mul_le_self m 10
          nlinarith
        · rw [pow_succ]
          have := Nat.lt_mul_of_div_lt hhi (by norm_num : 0 < 10)
          linarith

theorem pow_bracket_unique (m j k : Nat) (hj1 : 10 ^ (j - 1) ≤ m) (hj2 : m < 10 ^ j)
    (hk1 : 10 ^ (k - 1) ≤ m) (hk2 : m < 10 ^ k) (hj : 1 ≤ j) (hk : 1 ≤ k) : j = k := by
  by_contra hne
  rcases Nat.lt_or_gt_of_ne hne with h | h
  · have : 10 ^ j ≤ 10 ^ (k - 1) := Nat.pow_le_pow_right (by norm_num) (by omega)
    omega
  · have : 10 ^ k ≤ 10 ^ (j - 1) := Nat.pow_le_pow_right (by norm_num) (by omega)
    omega

/-! ## The queued packages -/

theorem mem_keepFirst (x : String) : ∀ (l : List String), x ∈ keepFirst l ↔ x ∈ l := by
  intro l
  induction l with
  | nil => simp [keepFirst]
  | cons y ys ih =>
    simp only [keepFirst, List.mem_cons, List.mem_filter, ih, decide_eq_true_eq]
    constructor
    · rintro (h | ⟨h, _⟩)
      · exact Or.inl h
      · exact Or.inr h
    · rintro (h | h)
      · exact Or.inl h
      · by_cases hxy : x = y
        · exact Or.inl hxy
        · exact Or.inr ⟨h, hxy⟩

theorem keepFirst_nodup : ∀ (l : List String), (keepFirst l).Nodup := by
  intro l
  induction l with
  | nil => simp [keepFirst]
  | cons y ys ih =>
    simp only [keepFirst, List.nodup_cons, List.mem_filter, decide_eq_true_eq]
    exact ⟨fun h => h.2 rfl, ih.filter _⟩

theorem keepFirst_append_singleton (x : String) : ∀ (l : List String),
    keepFirst (l ++ [x]) = if x ∈ l then keepFirst l else keepFirst l ++ [x] := by
  intro l
  induction l with
  | nil => simp [keepFirst]
  | cons y ys ih =>
    have hstep : keepFirst (y :: ys ++ [x]) =
        y :: (keepFirst (ys ++ [x])).filter (fun z => decide (z ≠ y)) := rfl
    rw [hstep, ih]
    by_cases hm : x ∈ ys
    · simp [hm, keepFirst]
    · by_cases hxy : x = y
      · subst hxy
        simp [hm, keepFirst, List.filter_append]
      · have hyx : ¬ y = x := fun e => hxy e.symm
        simp [hm, hxy, hyx, keepFirst, List.filter_append]

theorem QueuePackage_keepFirst (b : Bridge) (p : String) (l : List String)
    (hp : b.ProcessedPackages = []) (hq : b.QueuedPackages = keepFirst l) :
    (b.QueuePackage p).ProcessedPackages = [] ∧
    (b.QueuePackage p).QueuedPackages = keepFirst (l ++ [p]) := by
  rw [keepFirst_append_singleton]
  unfold Bridge.QueuePackage
  by_cases hm : p ∈ l
  · simp [hm, hp, hq, mem_keepFirst]
  · simp [hm, hp, hq, mem_keepFirst]

theorem processType_pkgInv (env : TypeEnv) (fuel : Nat) (b b1 : Bridge) (t : TypeId)
    (h : processType env fuel b t = .ok b1) (hinv : PkgInv env b) : PkgInv env b1 := by
  obtain ⟨hp, hq⟩ := hinv
  rcases processType_cases env fuel b b1 t h with ⟨hk, bm, sinfo, ha, rfl⟩ | ⟨hk, rfl⟩
  · have hext := Adds_ext (AddStructFields_adds env fuel b _ t bm sinfo ha).2.2
    refine ⟨?_, ?_⟩
    · simp only [hext.ppkgs, hp]
    · simp only [hext.qpkgs, hq, hext.processed]
      simp [scalarPackages, List.filter_append, hk]
  · obtain ⟨h1, h2⟩ := QueuePackage_keepFirst b (env t).PkgPath _ hp hq
    obtain ⟨_, _, _, f4, _⟩ := QueuePackage_frame b (env t).PkgPath
    refine ⟨?_, ?_⟩
    · simp only [h1]
    · simp only [h2, f4]
      simp [scalarPackages, List.filter_append, hk]

theorem processQueue_pkgInv (env : TypeEnv) (fuel : Nat) : ∀ (steps : Nat) (b b' : Bridge),
    processQueue env fuel steps b = .ok b' → PkgInv env b → PkgInv env b' := by
  intro steps
  induction steps with
  | zero =>
    intro b b' h hinv
    unfold processQueue at h
    split_ifs at h
    cases h
    exact hinv
  | succ n ih =>
    intro b b' h hinv
    unfold processQueue at h
    cases hq : b.QueuedTypes with
    | nil =>
      simp only [hq, Except.ok.injEq] at h
      subst h
      exact hinv
    | cons t rest =>
      simp only [hq] at h
      cases hp : processType env fuel b t with
      | error e => simp [hp] at h
      | ok b1 =>
        simp only [hp] at h
        exact ih _ b' h (processType_pkgInv env fuel b b1 t hp hinv)

theorem queueRoots_pkgInv (env : TypeEnv) (roots : List TypeId) :
    PkgInv env (queueRoots env roots) := by
  have hext := queueRoots_ext env roots Bridge.empty
  unfold PkgInv queueRoots
  rw [hext.ppkgs, hext.qpkgs, hext.processed]
  simp [Bridge.empty, scalarPackages, keepFirst]

theorem processPackages_sources (src src' : Sources) : ∀ (paths : List String) (b : Bridge),
    (∀ p ∈ paths, src' p = src p) → processPackages src' paths b = processPackages src paths b := by
  intro paths
  induction paths with
  | nil => intro b _; rfl
  | cons p rest ih =>
    intro b h
    have hp : ProcessPackage src' b p = ProcessPackage src b p := by
      unfold ProcessPackage
      rw [h p (List.mem_cons_self _ _)]
    unfold processPackages
    rw [hp]
    cases ProcessPackage src b p with
    | error e => rfl
    | ok b1 => exact ih b1 (fun q hq => h q (List.mem_cons_of_mem _ hq))

/-! ## The invocation of a procedure -/

theorem openAfter_append (e1 e2 : List Event) : ∀ (txs : List vbolt.Tx),
    openAfter (e1 ++ e2) txs = (openAfter e1 txs).bind (openAfter e2) := by
  induction e1 with
  | nil => intro txs; rfl
  | cons e rest ih =>
    intro txs
    cases e with
    | ReadTx db => simp [openAfter, ih]
    | WriteTx db => simp [openAfter, ih]
    | TxClose tx =>
      cases tx with
      | none => simp [openAfter, ih]
      | some tx =>
        by_cases h : tx ∈ txs
        · simp [openAfter, ih, h]
        · simp [openAfter, h]
    | Call n => simp [openAfter, ih]
    | Effect w => simp [openAfter, ih]

/-- A procedure that uses `UseWriteTx` only keeps exactly the transaction of its
context open. -/
theorem Uses_openAfter {ctx ctx' : Context} {events : List Event} (h : Uses ctx ctx' events) :
    openAfter events ctx.Tx.toList = some ctx'.Tx.toList := by
  induction h with
  | done ctx => rfl
  | effect ctx ctx' what events _ ih => simpa [openAfter] using ih
  | write ctx ctx' events _ ih =>
    rw [openAfter_append]
    rcases ctx with ⟨a, t, _ | ⟨db, _ | _⟩⟩ <;> simpa [UseWriteTx, openAfter] using ih

theorem MakeContext_openAfter (app : Application) (request : Request) :
    openAfter (MakeContext app request).2 [] = some (MakeContext app request).1.Tx.toList := by
  unfold MakeContext
  cases app.DB <;> rfl

/-- From `MakeContext` to `CloseContext`, around a procedure that uses `UseWriteTx`
only: every transaction that is opened is closed, once. -/
theorem invocation_balanced {α : Type} (app : Application) (request : Request)
    (procName : String) (run : HandlerRun α) (h : Uses (MakeContext app request).1 run.context run.events) :
    openAfter ((MakeContext app request).2 ++ [Event.Call procName] ++ run.events ++
      CloseContext run.context) [] = some [] := by
  rw [openAfter_append, openAfter_append, openAfter_append, MakeContext_openAfter]
  simp only [Option.some_bind, openAfter]
  rw [Uses_openAfter h]
  simp only [Option.some_bind, CloseContext]
  cases run.context.Tx with
  | none => rfl
  | some tx => simp [openAfter]

theorem HandleRPC_of_invocation (httpRequestPtr : TypeId)
    (decode : TypeId → Body → Option Value) (formatFloat : Int → String) (procDur : Int)
    (app : Application) (w : ResponseWriter) (request : Request) (proc : ProcedureInfo)
    (arg : Input) (h : rpcInvocation httpRequestPtr decode app request = some (proc, arg)) :
    HandleRPC httpRequestPtr decode formatFloat procDur app w request =
      invokeProc formatFloat procDur app w
        { request with Body := MaxBytesReader request.Body proc.MaxBytes } proc arg := by
  unfold rpcInvocation at h
  split_ifs at h with hm
  have hm' : request.Method = "POST" := by simpa using hm
  cases hp : app.procMap (stringsTrimPrefix request.RequestURI "/rpc/") with
  | none => simp [hp] at h
  | some proc' =>
    simp only [hp] at h
    split_ifs at h with hraw
    · simp only [Option.some.injEq, Prod.mk.injEq] at h
      obtain ⟨rfl, rfl⟩ := h
      exact HandleRPC_eq_invoke_request httpRequestPtr decode formatFloat procDur app w request
        proc' hm' hp hraw
    · cases hd : decode proc'.InputType (MaxBytesReader request.Body proc'.MaxBytes) with
      | none => simp [hd] at h
      | some x =>
        simp only [hd, Option.map_some', Option.some.injEq, Prod.mk.injEq] at h
        obtain ⟨rfl, rfl⟩ := h
        exact HandleRPC_eq_invoke_object httpRequestPtr decode formatFloat procDur app w request
          proc' x hm' hp hraw hd

theorem HandleData_of_invocation (zero : TypeId → Value) (formatFloat : Int → String)
    (procDur : Int) (app : Application) (w : ResponseWriter) (request : Request)
    (proc : DataProcInfo) (h : dataInvocation app request = some proc) :
    HandleData zero formatFloat procDur app w request =
      invokeDataProc formatFloat procDur app w request proc (.object (zero proc.InputType)) := by
  unfold dataInvocation at h
  split_ifs at h with hm
  have hm' : request.Method = "GET" := by simpa using hm
  simp [HandleData, hm', PREFIX_DATA, h]

theorem invokeDataProc_events (formatFloat : Int → String) (procDur : Int) (app : Application)
    (w : ResponseWriter) (request : Request) (proc : DataProcInfo) (arg : Input) :
    (invokeDataProc formatFloat procDur app w request proc arg).events =
      (MakeContext app request).2 ++ [Event.Call proc.ProcName] ++
        (proc.ProcValue (MakeContext app request).1 arg).events ++
        CloseContext (proc.ProcValue (MakeContext app request).1 arg).context := by
  unfold invokeDataProc
  dsimp only
  split
  · rfl
  · split <;> rfl

theorem postProcess_events (served : Served) :
    (postProcess served).events = served.events ∧ (postProcess served).panicked = false := by
  unfold postProcess
  cases h : served.panicked <;> simp [h]

theorem postProcess_panic (served : Served) (h : served.panicked = true)
    (hw : served.w.sent = none) :
    (postProcess served).w =
      { served.w with statusCode := 500, sent := some 500,
                      body := served.w.body ++ "Server Error" } := by
  have hf : fmt.Sprintf "Server Error" = "Server Error" := by decide
  unfold postProcess
  rw [if_pos h, hf]
  exact WriteHeader_Write served.w 500 "Server Error" hw

theorem invokeProc_panic (formatFloat : Int → String) (procDur : Int) (app : Application)
    (w : ResponseWriter) (request : Request) (proc : ProcedureInfo) (arg : Input)
    (h : (proc.ProcValue (MakeContext app request).1 arg).returned = .panic) :
    (invokeProc formatFloat procDur app w request proc arg).w = w ∧
    (invokeProc formatFloat procDur app w request proc arg).panicked = true := by
  unfold invokeProc
  simp [h]

theorem invokeDataProc_panic (formatFloat : Int → String) (procDur : Int) (app : Application)
    (w : ResponseWriter) (request : Request) (proc : DataProcInfo) (arg : Input)
    (h : (proc.ProcValue (MakeContext app request).1 arg).returned = .panic) :
    (invokeDataProc formatFloat procDur app w request proc arg).w = w ∧
    (invokeDataProc formatFloat procDur app w request proc arg).panicked = true := by
  unfold invokeDataProc
  simp [h]

/-! ## The claims -/

/-- C1: starting from the empty bridge with any roots queued, whenever `Process`
returns, no type occurs twice in `ProcessedTypes`, the queue is empty, and the
entries of `Structs` and `Enums` are, in order, exactly the processed types of
struct kind and the other processed types: one entry per processed type. -/
theorem Process_emits_each_type_once (env : TypeEnv) (src : Sources) (roots : List TypeId)
    (fuel steps : Nat) (b : Bridge)
    (h : Process env src fuel steps (queueRoots env roots) = .ok b) :
    b.ProcessedTypes.Nodup ∧
    b.Structs.map (fun s => s.Name) =
      (b.ProcessedTypes.filter (fun t => decide ((env t).kind = .Struct))).map
        (fun t => (env t).Name) ∧
    b.Enums.map (fun e => e.Name) =
      (b.ProcessedTypes.filter (fun t => decide ((env t).kind ≠ .Struct))).map
        (fun t => (env t).Name) ∧
    b.Structs.length + b.Enums.length = b.ProcessedTypes.length := by
  obtain ⟨⟨hn, hs, he⟩, hq⟩ := Process_inv env src fuel steps _ b h (queueRoots_inv env roots)
  rw [hq, List.append_nil] at hn
  have he' : b.Enums.map (fun e => e.Name) =
      (b.ProcessedTypes.filter (fun t => decide ((env t).kind ≠ .Struct))).map
        (fun t => (env t).Name) := by
    have := congrArg (List.map Prod.fst) he
    simpa [List.map_map, Function.comp_def] using this
  refine ⟨hn, hs, he', ?_⟩
  have h1 := congrArg List.length hs
  have h2 := congrArg List.length he'
  simp only [List.length_map] at h1 h2
  rw [h1, h2]
  have := @List.length_eq_length_filter_add _ b.ProcessedTypes (fun t => decide ((env t).kind = .Struct))
  simp only [decide_not] at this ⊢
  omega

theorem Process_emits_each_type_once_witness :
    Process exEnv noSources 4 3 (queueRoots exEnv [2, 0]) = .ok exResult ∧
    exResult.ProcessedTypes.Nodup ∧
    exResult.Structs.length + exResult.Enums.length = exResult.ProcessedTypes.length :=
  have h : Process exEnv noSources 4 3 (queueRoots exEnv [2, 0]) = .ok exResult := by decide
  have w := Process_emits_each_type_once exEnv noSources [2, 0] 4 3 exResult h
  ⟨h, w.1, w.2.2.2⟩

/-- C2, counterexample: on the finite type graph `type Forest []Forest`,
`type Tree struct { Kids Forest }`, `Process` returns for no budget of recursion
depth and of steps: the recursion of `DecideTypescriptTypeName` through the element
type never stops. -/
theorem Process_diverges_on_recursive_slice :
    ¬ ∃ (fuel steps : Nat) (b : Bridge),
      Process loopEnv noSources fuel steps (queueRoots loopEnv [0]) = .ok b := by
  rintro ⟨fuel, steps, b, h⟩
  have hq : (queueRoots loopEnv [0]).QueuedTypes = [0] := by decide
  have hk : (loopEnv 0).kind = .Struct := rfl
  have hp : processQueue loopEnv fuel steps (queueRoots loopEnv [0]) = .error .fuel := by
    cases steps with
    | zero => simp [processQueue, hq]
    | succ n =>
      rw [processQueue, hq]
      simp [processType, hk, loopEnv_AddStructFields]
  simp [Process, hp] at h

/-- C2, amended: on a finite list `S` of types that is closed under references and
holds the roots, in which composite types are well founded through their element
and key types and embedded fields are structs embedded by value, with enough
recursion depth and well-parsed package sources, `Process` returns whenever it is
given at least `S.length` iterations of its first loop: the queue is emptied after
at most as many `processType` steps as there are types in `S`, also when records
refer to themselves or to each other through pointer, slice or map fields. -/
theorem Process_terminates (env : TypeEnv) (src : Sources) (S roots : List TypeId)
    (crank erank : TypeId → Nat) (fuel steps : Nat)
    (hS : Closed env S) (hroots : ∀ r ∈ roots, r ∈ S)
    (hc : CompositeRanked env S crank) (he : EmbedRanked env S erank)
    (hf : ∀ t ∈ S, ∀ u ∈ S, erank t + crank u + 2 ≤ fuel)
    (hsrc : WellParsed src) (hsteps : S.length ≤ steps) :
    ∃ b, Process env src fuel steps (queueRoots env roots) = .ok b ∧
      b.QueuedTypes = [] ∧ b.ProcessedTypes.Nodup ∧ b.ProcessedTypes.length ≤ S.length := by
  have hinv := queueRoots_inv env roots
  have hext := queueRoots_ext env roots Bridge.empty
  have hP : (queueRoots env roots).ProcessedTypes = [] := hext.processed
  have hQ : ∀ u ∈ (queueRoots env roots).QueuedTypes, u ∈ S := by
    have key : ∀ (rs : List TypeId) (b : Bridge), (∀ r ∈ rs, r ∈ S) →
        (∀ u ∈ b.QueuedTypes, u ∈ S) →
        ∀ u ∈ (rs.foldl (Bridge.QueueType env) b).QueuedTypes, u ∈ S := by
      intro rs
      induction rs with
      | nil => intro b _ hb; exact hb
      | cons r rs ih =>
        intro b hr hb
        exact ih _ (fun x hx => hr x (List.mem_cons_of_mem _ hx))
          (QueueType_closed env S b r (hr r (List.mem_cons_self _ _)) hb)
    exact key roots Bridge.empty hroots (by simp [Bridge.empty])
  obtain ⟨b1, h1, hsub⟩ := processQueue_total env S crank erank hS hc he fuel hf steps
    (queueRoots env roots) hinv (by rw [hP]; simp) hQ (by omega)
  obtain ⟨b, h2⟩ := processPackages_total src hsrc b1.QueuedPackages b1
  have hproc : Process env src fuel steps (queueRoots env roots) = .ok b := by
    simp [Process, h1, h2]
  obtain ⟨hinvb, hqb⟩ := Process_inv env src fuel steps _ b hproc hinv
  have hfr := processPackages_frame src _ _ _ h2
  have hnd : b.ProcessedTypes.Nodup := by
    have := hinvb.1
    rw [hqb, List.append_nil] at this
    exact this
  refine ⟨b, hproc, hqb, hnd, ?_⟩
  exact length_le_of_nodup_subset hnd (by rw [hfr.processed]; exact hsub)

theorem Process_terminates_witness :
    ∃ b, Process exEnv noSources 4 9 (queueRoots exEnv [2, 0]) = .ok b ∧
      b.QueuedTypes = [] ∧ b.ProcessedTypes.Nodup ∧
      b.ProcessedTypes.length ≤ (List.range 9).length :=
  Process_terminates exEnv noSources (List.range 9) [2, 0] exCompositeRank exEmbedRank 4 9
    (by unfold Closed; decide) (by decide)
    (by unfold CompositeRanked; decide) (by unfold EmbedRanked; decide)
    (by decide) (by intro path pkgs h; simp [noSources] at h) (by decide)

/-- C3, counterexample: `Time` is a record type reachable from the root `User`
through the record field `When`, yet `Process` does not emit it: the field has a
type-name override, so its type is never looked at. -/
theorem Process_skips_overridden_field_type :
    Process exEnv noSources 4 3 (queueRoots exEnv [2, 0]) = .ok exResult ∧
    (∃ f ∈ (exEnv 2).Fields, f.Typ = 8) ∧ (exEnv 8).kind = .Struct ∧
    8 ∉ exResult.ProcessedTypes ∧ "Time" ∉ exResult.Structs.map (fun s => s.Name) := by
  decide

/-- C3, amended: when every root that `QueueType` accepts is a record or a named
numeric or string type, then whenever `Process` returns, the processed types are
exactly the types discovered from the roots (through embedded fields and their
promoted fields, and through the pointer targets, element types and key types
of the fields that are neither omitted nor overridden), each of them is a
record or a named numeric or string type, and the entries of `Structs` and `Enums`
are in order the processed types of struct kind and the others. -/
theorem Process_emits_reachable (env : TypeEnv) (src : Sources) (roots : List TypeId)
    (fuel steps : Nat) (b : Bridge)
    (hroots : ∀ r ∈ roots, Queueable env r → Nominal env r)
    (h : Process env src fuel steps (queueRoots env roots) = .ok b) :
    (∀ u, u ∈ b.ProcessedTypes ↔ Reachable env roots u) ∧
    (∀ u ∈ b.ProcessedTypes, Nominal env u) ∧
    b.Structs.map (fun s => s.Name) =
      (b.ProcessedTypes.filter (fun t => decide ((env t).kind = .Struct))).map
        (fun t => (env t).Name) ∧
    b.Enums.map (fun e => (e.Name, e.TypeName)) =
      (b.ProcessedTypes.filter (fun t => decide ((env t).kind ≠ .Struct))).map
        (fun t => ((env t).Name, DecideEnumTypeName env t)) := by
  have hd := Process_disc env src roots fuel steps b h
  obtain ⟨⟨_, hs, he⟩, hq⟩ := Process_inv env src fuel steps _ b h (queueRoots_inv env roots)
  refine ⟨Disc_final hd hq, ?_, hs, he⟩
  intro u hu
  rcases hd.nomP u hu with hn | hr
  · exact hn
  · exact hroots u hr (Reachable_queueable (hd.reachP u hu))

theorem Process_emits_reachable_witness :
    (∀ u, u ∈ exResult.ProcessedTypes ↔ Reachable exEnv [2, 0] u) ∧
    (∀ u ∈ exResult.ProcessedTypes, Nominal exEnv u) :=
  have w := Process_emits_reachable exEnv noSources [2, 0] 4 3 exResult
    (by
      intro r hr hq
      simp only [List.mem_cons, List.mem_singleton, List.not_mem_nil, or_false] at hr
      rcases hr with rfl | rfl
      · exact Or.inl (by decide)
      · exact absurd rfl hq)
    (by decide)
  ⟨w.1, w.2.1⟩

/-- C4: an embedded record field contributes, at its position in the parent's
field list, exactly the fields of the embedded record's own struct info, in
their order; `AddStructFields` also queues the embedded type, and after `Process`
the embedded type is processed exactly once and has its own entry in `Structs`,
whose fields are the ones found in place in the parent's entry. -/
theorem embedded_fields_flattened (env : TypeEnv) :
    (∀ (fuel : Nat) (b b' : Bridge) (sinfo sinfo' : StructInfo) (t : TypeId)
        (pre post : List reflect.StructField) (f : reflect.StructField),
      (env t).Fields = pre ++ f :: post → f.Anonymous = true →
      AddStructFields env (fuel + 1) b sinfo t = .ok (b', sinfo') →
      ∃ Lpre E Lpost,
        shapeOfFields env fuel pre = .ok Lpre ∧ shapeOfFields env fuel post = .ok Lpost ∧
        sinfo'.Fields = sinfo.Fields ++ (Lpre ++ E ++ Lpost) ∧
        (∀ b0 : Bridge, ∃ b1, AddStructFields env fuel b0
            { Name := (env f.Typ).Name, Fields := [] } f.Typ =
          .ok (b1, { Name := (env f.Typ).Name, Fields := E })) ∧
        (Queueable env f.Typ → f.Typ ∈ b'.QueuedTypes ∨ f.Typ ∈ b'.ProcessedTypes)) ∧
    (∀ (src : Sources) (roots : List TypeId) (fuel steps : Nat) (b : Bridge) (t : TypeId)
        (pre post : List reflect.StructField) (f : reflect.StructField),
      Process env src fuel steps (queueRoots env roots) = .ok b →
      t ∈ b.ProcessedTypes → (env t).kind = .Struct →
      (env t).Fields = pre ++ f :: post → f.Anonymous = true → Queueable env f.Typ →
      b.ProcessedTypes.count f.Typ = 1 ∧
      List.Forall₂ (OwnShape env fuel) b.Structs
        (b.ProcessedTypes.filter (fun t => decide ((env t).kind = .Struct))) ∧
      ∃ sT ∈ b.Structs, ∃ sE ∈ b.Structs, OwnShape env fuel sT t ∧
        OwnShape env fuel sE f.Typ ∧ ∃ Lpre Lpost, sT.Fields = Lpre ++ sE.Fields ++ Lpost) := by
  constructor
  · intro fuel b b' sinfo sinfo' t pre post f hf ha h
    obtain ⟨L, hL, hfields⟩ := AddStructFields_shape env _ _ _ _ _ _ h
    obtain ⟨Lpre, E, Lpost, h1, h2, h3, rfl⟩ :=
      recordShape_embedded env fuel t L pre post f hL hf ha
    obtain ⟨_, _, hadds⟩ := AddStructFields_adds env _ _ _ _ _ _ h
    refine ⟨Lpre, E, Lpost, h1, h3, hfields, ?_, ?_⟩
    · intro b0
      obtain ⟨b1, hb1⟩ := AddStructFields_of_shape env fuel f.Typ E h2 b0
        { Name := (env f.Typ).Name, Fields := [] }
      exact ⟨b1, by simpa using hb1⟩
    · intro hq
      exact Adds_complete hadds f.Typ
        (.embedded _ f (by rw [hf]; simp) ha) hq
  · intro src roots fuel steps b t pre post f h ht hk hf ha hq
    have hd := Process_disc env src roots fuel steps b h
    obtain ⟨⟨hn, _, _⟩, hqe⟩ := Process_inv env src fuel steps _ b h (queueRoots_inv env roots)
    rw [hqe, List.append_nil] at hn
    have hshape := Process_shape env src roots fuel steps b h
    -- the parent's own entry
    have htf : t ∈ b.ProcessedTypes.filter (fun t => decide ((env t).kind = .Struct)) := by
      simp [List.mem_filter, ht, hk]
    obtain ⟨sT, hsT, hoT⟩ := forall₂_right hshape t htf
    -- the embedded type is processed
    have hEP : f.Typ ∈ b.ProcessedTypes := by
      rcases hd.closed t ht f.Typ
        ⟨hk, .embedded _ f (by rw [hf]; simp) ha, hq⟩ with h1 | h1
      · rw [hqe] at h1; simp at h1
      · exact h1
    cases fuel with
    | zero => have := hoT.2; simp [recordShape] at this
    | succ n =>
      obtain ⟨Lpre, E, Lpost, _, h2, _, hTF⟩ :=
        recordShape_embedded env n t sT.Fields pre post f hoT.2 hf ha
      have hkE := recordShape_struct env n f.Typ E h2
      have hEf : f.Typ ∈ b.ProcessedTypes.filter (fun t => decide ((env t).kind = .Struct)) := by
        simp [List.mem_filter, hEP, hkE]
      obtain ⟨sE, hsE, hoE⟩ := forall₂_right hshape f.Typ hEf
      have hEq : sE.Fields = E := by
        have := recordShape_mono env n f.Typ E h2
        rw [hoE.2] at this
        exact (Except.ok.inj this)
      refine ⟨List.count_eq_one_of_mem hn hEP, hshape, sT, hsT, sE, hsE, hoT, hoE,
        Lpre, Lpost, ?_⟩
      rw [hEq]; exact hTF

theorem embedded_fields_flattened_witness :
    exResult.ProcessedTypes.count 6 = 1 ∧
    ∃ sT ∈ exResult.Structs, ∃ sE ∈ exResult.Structs, OwnShape exEnv 4 sT 2 ∧
      OwnShape exEnv 4 sE 6 ∧ ∃ Lpre Lpost, sT.Fields = Lpre ++ sE.Fields ++ Lpost :=
  have w := (embedded_fields_flattened exEnv).2 noSources [2, 0] 4 3 exResult 2 []
    ((exEnv 2).Fields.tail) exBaseField (by decide) (by decide) (by decide) (by decide) rfl
    (by unfold Queueable; decide)
  ⟨w.1, w.2.2⟩

/-- C5 at the failing input: the embedded field `Secret` of `User` carries the
omission marker, yet the struct info built for `User` holds the field `Token`
that comes from it. -/
theorem embedded_omitted_field_is_promoted :
    (secretEnv 0).Fields.head? =
      some { Name := "Secret", Typ := 1, Anonymous := true, jsonTag := "-", tsTag := "" } ∧
    firstPart "-" = "-" ∧
    AddStructFields secretEnv 3 Bridge.empty { Name := "User", Fields := [] } 0 =
      .ok ({ Bridge.empty with QueuedTypes := [1] },
           { Name := "User",
             Fields := [{ Name := "Token", TypeName := "string", TypeCustom := false },
                        { Name := "ID", TypeName := "number", TypeCustom := false }] }) ∧
    Process secretEnv noSources 3 2 (queueRoots secretEnv [0]) =
      .ok { Structs :=
              [{ Name := "User",
                 Fields := [{ Name := "Token", TypeName := "string", TypeCustom := false },
                            { Name := "ID", TypeName := "number", TypeCustom := false }] },
               { Name := "Secret",
                 Fields := [{ Name := "Token", TypeName := "string", TypeCustom := false }] }],
            Enums := [], Errors := [], ProcessedTypes := [0, 1], QueuedTypes := [],
            QueuedPackages := [], ProcessedPackages := [] } := by
  decide

/-- C6 at the failing input: the embedded field `Stamp` of `Post` carries the ts tag
`Date`, whose first part is not empty, yet the struct info built for `Post` holds no
field of type name `Date` and no field with `TypeCustom` set: the tag is never read,
the type `Stamp` is queued because of this field, and its fields `Wall` and `Ext` are
flattened into `Post` under their translated types, so `Process` emits `Stamp` as
well. The same field written with a name gives the one entry `Stamp` of type name
`Date` with `TypeCustom` set, and queues nothing. -/
theorem embedded_ts_override_is_ignored :
    (stampEnv true 0).Fields.head? =
      some { Name := "Stamp", Typ := 1, Anonymous := true, jsonTag := "", tsTag := "Date" } ∧
    firstPart "Date" = "Date" ∧
    AddStructFields (stampEnv true) 3 Bridge.empty { Name := "Post", Fields := [] } 0 =
      .ok ({ Bridge.empty with QueuedTypes := [1] },
           { Name := "Post",
             Fields := [{ Name := "Wall", TypeName := "number", TypeCustom := false },
                        { Name := "Ext", TypeName := "number", TypeCustom := false },
                        { Name := "Title", TypeName := "string", TypeCustom := false }] }) ∧
    AddStructFields (stampEnv false) 3 Bridge.empty { Name := "Post", Fields := [] } 0 =
      .ok (Bridge.empty,
           { Name := "Post",
             Fields := [{ Name := "Stamp", TypeName := "Date", TypeCustom := true },
                        { Name := "Title", TypeName := "string", TypeCustom := false }] }) ∧
    Process (stampEnv true) noSources 3 2 (queueRoots (stampEnv true) [0]) =
      .ok { Structs :=
              [{ Name := "Post",
                 Fields := [{ Name := "Wall", TypeName := "number", TypeCustom := false },
                            { Name := "Ext", TypeName := "number", TypeCustom := false },
                            { Name := "Title", TypeName := "string", TypeCustom := false }] },
               { Name := "Stamp",
                 Fields := [{ Name := "Wall", TypeName := "number", TypeCustom := false },
                            { Name := "Ext", TypeName := "number", TypeCustom := false }] }],
            Enums := [], Errors := [], ProcessedTypes := [0, 1], QueuedTypes := [],
            QueuedPackages := [], ProcessedPackages := [] } := by
  decide

/-- The type-name override on the path of the named fields: a field that is not
embedded and not omitted, whose ts tag has the non-empty first part `p`, contributes
exactly one struct field, with type name `p` and `TypeCustom` set, whatever its Go
type is; the loop of `AddStructFields` calls neither `DecideTypescriptTypeName` nor
`QueueType` for it and hands the bridge on unchanged, and the entry stands at the
field's place in the result. -/
theorem ts_override_is_verbatim (env : TypeEnv) (f : reflect.StructField) (sf : StructField)
    (p : String) (ha : f.Anonymous = false)
    (hj : applyJsonTag f.jsonTag (rawField env f) = some sf)
    (hp : firstPart f.tsTag = p) (hne : p ≠ "") :
    (∀ (recur : Bridge → StructInfo → TypeId → Except Fault (Bridge × StructInfo))
        (decide : Bridge → TypeId → Except Fault (Bridge × String))
        (rest : List reflect.StructField) (b : Bridge) (sinfo : StructInfo),
      addFieldsLoop env recur decide (f :: rest) b sinfo =
        addFieldsLoop env recur decide rest b
          { sinfo with Fields := sinfo.Fields ++
              [{ Name := sf.Name, TypeName := p, TypeCustom := true }] }) ∧
    (∀ (fuel : Nat) (b b' : Bridge) (sinfo sinfo' : StructInfo) (t : TypeId)
        (pre post : List reflect.StructField),
      (env t).Fields = pre ++ f :: post →
      AddStructFields env (fuel + 1) b sinfo t = .ok (b', sinfo') →
      ∃ Lpre Lpost, shapeOfFields env fuel pre = .ok Lpre ∧
        shapeOfFields env fuel post = .ok Lpost ∧
        sinfo'.Fields = sinfo.Fields ++
          (Lpre ++ { Name := sf.Name, TypeName := p, TypeCustom := true } :: Lpost)) := by
  have htag : f.tsTag ≠ "" := by
    intro h0
    rw [h0, firstPart_empty] at hp
    exact hne hp.symm
  have hts : applyTsTag f.tsTag sf = { Name := sf.Name, TypeName := p, TypeCustom := true } := by
    unfold applyTsTag
    rw [hp]
    simp [htag, hne]
  have hraw : ({ Name := f.Name, TypeName := (env f.Typ).Name, TypeCustom := false } :
      StructField) = rawField env f := rfl
  constructor
  · intro recur decide rest b sinfo
    rw [addFieldsLoop]
    simp only [ha, Bool.false_eq_true, if_false, hraw, hj, hts, not_true_eq_false]
  · intro fuel b b' sinfo sinfo' t pre post hf h
    obtain ⟨L, hL, hfields⟩ := AddStructFields_shape env _ _ _ _ _ _ h
    rw [recordShape] at hL
    split_ifs at hL with hk
    rw [hf] at hL
    obtain ⟨L1, L2, h1, h2, rfl⟩ := shapeLoop_append env _ _ pre (f :: post) L hL
    rw [shapeLoop_cons] at h2
    simp only [ha, Bool.false_eq_true, if_false, hj, hts, if_true] at h2
    cases hm : shapeLoop env (recordShape env fuel) (translated env fuel) post with
    | error e => simp [hm] at h2
    | ok more =>
      simp only [hm, Except.ok.injEq] at h2
      exact ⟨L1, more, h1, hm, by rw [hfields, ← h2]⟩

theorem ts_override_is_verbatim_witness :
    addFieldsLoop exEnv (AddStructFields exEnv 2) (DecideTypescriptTypeName exEnv 2)
        [exWhenField] Bridge.empty { Name := "User", Fields := [] } =
      addFieldsLoop exEnv (AddStructFields exEnv 2) (DecideTypescriptTypeName exEnv 2)
        [] Bridge.empty
        { Name := "User",
          Fields := [] ++ [{ Name := "When", TypeName := "Date", TypeCustom := true }] } :=
  (ts_override_is_verbatim exEnv exWhenField
    { Name := "When", TypeName := "Time", TypeCustom := false } "Date"
    rfl (by decide) (by decide) (by decide)).1
    (AddStructFields exEnv 2) (DecideTypescriptTypeName exEnv 2) [] Bridge.empty
    { Name := "User", Fields := [] }

/-- C7: the type name that `DecideTypescriptTypeName` returns is the structural
translation of the specification, at every depth and from every bridge state. Case
by case: a plain numeric type gives "number", the plain string "string", a bool
"boolean", an interface "any"; a record or a named numeric or string type gives
its declared name and goes through `QueueType`, after which it is queued or
processed unless its name is the name of its kind; a sequence gives the
translation of its element followed by "[]", a pointer followed by " | null", a
mapping "Record<key, value>"; and an empty translation of the element, key or
value makes the translation of the enclosing type empty. -/
theorem DecideTypescriptTypeName_is_translated (env : TypeEnv) (fuel : Nat) (b : Bridge)
    (t : TypeId) :
    typeNameOf (DecideTypescriptTypeName env fuel b t) = translated env fuel t ∧
    (describe (env t) = .primitiveNumeric →
      DecideTypescriptTypeName env (fuel + 1) b t = .ok (b, "number")) ∧
    (describe (env t) = .primitiveString →
      DecideTypescriptTypeName env (fuel + 1) b t = .ok (b, "string")) ∧
    (describe (env t) = .boolean →
      DecideTypescriptTypeName env (fuel + 1) b t = .ok (b, "boolean")) ∧
    (describe (env t) = .dynamic →
      DecideTypescriptTypeName env (fuel + 1) b t = .ok (b, "any")) ∧
    ((describe (env t) = .record ∨ describe (env t) = .namedScalar) →
      DecideTypescriptTypeName env (fuel + 1) b t = .ok (b.QueueType env t, (env t).Name) ∧
      ((env t).Name ≠ kindString (env t).kind →
        t ∈ (b.QueueType env t).QueuedTypes ∨ t ∈ (b.QueueType env t).ProcessedTypes)) ∧
    (describe (env t) = .sequence → ∀ (b1 : Bridge) (e : String),
      DecideTypescriptTypeName env fuel b (env t).Elem = .ok (b1, e) →
      DecideTypescriptTypeName env (fuel + 1) b t =
        .ok (b1, if e = "" then "" else e ++ "[]")) ∧
    (describe (env t) = .pointer → ∀ (b1 : Bridge) (e : String),
      DecideTypescriptTypeName env fuel b (env t).Elem = .ok (b1, e) →
      DecideTypescriptTypeName env (fuel + 1) b t =
        .ok (b1, if e = "" then "" else e ++ " | null")) ∧
    (describe (env t) = .mapping → ∀ (b1 : Bridge),
      DecideTypescriptTypeName env fuel b (env t).Elem = .ok (b1, "") →
      DecideTypescriptTypeName env (fuel + 1) b t = .ok (b1, "")) ∧
    (describe (env t) = .mapping → ∀ (b1 b2 : Bridge) (v k : String),
      DecideTypescriptTypeName env fuel b (env t).Elem = .ok (b1, v) → v ≠ "" →
      DecideTypescriptTypeName env fuel b1 (env t).Key = .ok (b2, k) →
      DecideTypescriptTypeName env (fuel + 1) b t =
        .ok (b2, if k = "" then "" else "Record<" ++ k ++ ", " ++ v ++ ">")) := by
  refine ⟨Decide_typeName env fuel b t, ?_, ?_, ?_, ?_, ?_, ?_, ?_, ?_, ?_⟩
  · intro h
    obtain ⟨hk, hs⟩ := describe_primitiveNumeric h
    rw [Decide_numeric env fuel b t hk]; simp [hs]
  · intro h
    obtain ⟨hk, hs⟩ := describe_primitiveString h
    rw [Decide_string env fuel b t hk]; simp [hs]
  · intro h
    exact Decide_bool env fuel b t (describe_boolean h)
  · intro h
    exact Decide_interface env fuel b t (describe_dynamic h)
  · intro h
    exact ⟨Decide_nominal env fuel b t h, QueueType_mem env b t⟩
  · intro h b1 e he
    rw [Decide_seq env fuel b t (describe_sequence h), he]
    simp only
    split_ifs <;> rfl
  · intro h b1 e he
    rw [Decide_ptr env fuel b t (describe_pointer h), he]
    simp only
    split_ifs <;> rfl
  · intro h b1 he
    rw [Decide_map env fuel b t (describe_mapping h), he]
    simp
  · intro h b1 b2 v k hv hne hk
    rw [Decide_map env fuel b t (describe_mapping h), hv]
    simp only [hne, if_false, hk]
    split_ifs <;> rfl

theorem DecideTypescriptTypeName_is_translated_witness :
    typeNameOf (DecideTypescriptTypeName exEnv 2 Bridge.empty 7) = some "Record<string, Role>" ∧
    DecideTypescriptTypeName exEnv 1 Bridge.empty 5 =
      .ok ({ Bridge.empty with QueuedTypes := [5] }, "Role") :=
  ⟨(DecideTypescriptTypeName_is_translated exEnv 2 Bridge.empty 7).1.trans (by decide),
   ((DecideTypescriptTypeName_is_translated exEnv 0 Bridge.empty 5).2.2.2.2.2.1
      (Or.inr (by decide))).1.trans (by decide)⟩

/-- C8 at the failing input: the named float type `Celsius`, a named scalar that
`DecideTypescriptTypeName` translates by its name and queues, is emitted as an enum
whose `TypeName` is "void", where the plain `float64` translates to "number". -/
theorem Process_named_float_is_void :
    Process floatEnv noSources 2 2 (queueRoots floatEnv [0]) =
      .ok { Structs := [{ Name := "Reading",
                          Fields := [{ Name := "Temp", TypeName := "Celsius",
                                       TypeCustom := false }] }],
            Enums := [{ Name := "Celsius", TypeName := "void", Consts := [] }],
            Errors := [], ProcessedTypes := [0, 1], QueuedTypes := [],
            QueuedPackages := ["app"], ProcessedPackages := [] } ∧
    describe (floatEnv 1) = .namedScalar ∧
    DecideEnumTypeName floatEnv 1 = "void" ∧
    (∀ (env : TypeEnv) (t : TypeId),
      (env t).kind = .Float32 ∨ (env t).kind = .Float64 → DecideEnumTypeName env t = "void") := by
  refine ⟨by decide, by decide, by decide, ?_⟩
  intro env t h
  rcases h with h | h <;> simp [DecideEnumTypeName, h, enumNumberKinds]

/-- C9, counterexample: the constants `A` and `B` of `Level` are declared in two
files of one package; visiting the files in one order or the other, both possible
for the iteration over the map `pkg.Files`, `Process` records the list `A, B` or
the list `B, A`: the order is not a function of the source. -/
theorem consts_order_follows_file_visit :
    (Process paintEnv (appSources [fileA, fileB]) 2 3 (queueRoots paintEnv [0])).toOption.map
        (fun b => b.Enums.map constNames) = some [[], ["A", "B"]] ∧
    (Process paintEnv (appSources [fileB, fileA]) 2 3 (queueRoots paintEnv [0])).toOption.map
        (fun b => b.Enums.map constNames) = some [[], ["B", "A"]] := by
  decide

/-- C9, amended: whenever `ProcessPackage` returns on a parsed package, the names
of the constants of each named scalar are the names it had before, followed, for
each file in the order the files are visited, by the constants the declarations of
the file give to it in declaration order, whatever the scope objects are and in
whatever order they are listed; per file these names are a sublist of the declared
constant names in declaration order and never hold the discard identifier. -/
theorem ProcessPackage_consts_in_declaration_order (src : Sources) (b b' : Bridge)
    (pkgPath : String) (pkgs : List ast.Package) (hsrc : src pkgPath = some pkgs)
    (h : ProcessPackage src b pkgPath = .ok b') :
    (∀ i, (b'.Enums[i]?).map constNames =
      ((b.Enums[i]?).map constNames).map (fun l => l ++
        (pkgs.flatMap (fun pkg => pkg.Files)).flatMap
          (fun file => fileNames (enumTypesMap b.Enums) i file.Decls))) ∧
    (∀ (file : ast.File) (i : Nat),
      (fileNames (enumTypesMap b.Enums) i file.Decls).Sublist (declaredInFile file.Decls) ∧
      "_" ∉ fileNames (enumTypesMap b.Enums) i file.Decls) := by
  constructor
  · intro i
    unfold ProcessPackage at h
    simp only [hsrc] at h
    exact processFiles_names _ _ _ _ h i
  · intro file i
    exact ⟨fileNames_sublist _ _ _, fileNames_no_discard _ _ _⟩

theorem ProcessPackage_consts_in_declaration_order_witness :
    (enumResult.Enums[1]?).map constNames = some ["Low", "Mid", "High"] ∧
    declaredInFile levelFile.Decls = ["Low", "Mid", "_", "High"] :=
  ⟨((ProcessPackage_consts_in_declaration_order (appSources [colorFile, levelFile])
      enumBridge enumResult "app" [{ Files := [colorFile, levelFile] }]
      rfl (by decide)).1 1).trans (by decide),
   by decide⟩

/-- C10 at the failing input: for `Red Color = "red"`, `Blue Color = "blue"` and
`Low Level = iota + 1`, `Mid`, `_`, `High`, the values recorded are the positions
of the specs in their groups, `0, 1` and `0, 1, 3`, the `Data` of the scope
objects, and neither the strings "red", "blue" nor the numbers `1, 2, 4`. -/
theorem Process_records_iota_not_value :
    colorFile.ScopeObjects =
      [{ Kind := .Con, Name := "Red", Data := GoAny.int 0 },
       { Kind := .Con, Name := "Blue", Data := GoAny.int 1 }] ∧
    Process paintEnv (appSources [colorFile, levelFile]) 2 3 (queueRoots paintEnv [0]) =
      .ok { Structs := [{ Name := "Paint",
                          Fields := [{ Name := "C", TypeName := "Color", TypeCustom := false },
                                     { Name := "L", TypeName := "Level", TypeCustom := false }] }],
            Enums := [{ Name := "Color", TypeName := "string",
                        Consts := [{ Name := "Red", Value := GoAny.int 0 },
                                   { Name := "Blue", Value := GoAny.int 1 }] },
                      { Name := "Level", TypeName := "number",
                        Consts := [{ Name := "Low", Value := GoAny.int 0 },
                                   { Name := "Mid", Value := GoAny.int 1 },
                                   { Name := "High", Value := GoAny.int 3 }] }],
            Errors := [], ProcessedTypes := [0, 1, 2], QueuedTypes := [],
            QueuedPackages := ["app"], ProcessedPackages := [] } := by
  decide

/-- C11, counterexample: `Color` and `Level` are two named scalars of kind int. The
group of `Level` ends with the untyped constant `Answer = 42`, whose declaration
gives it no type; `Process` records it among the constants of `Level`, because the
spec has no type identifier and follows a spec of type `Level`. -/
theorem untyped_const_joins_preceding_enum :
    (Process shadeEnv (appSources [shadeFile]) 2 3 (queueRoots shadeEnv [0])).toOption.map
        (fun b => b.Enums.map (fun e => (e.Name, constNames e))) =
      some [("Color", ["Red", "Green"]), ("Level", ["Low", "High", "Answer"])] := by
  decide

/-- C11, amended: whenever `Process` returns, two different processed types that
are not structs have entries at two different positions of `Enums`, each under the
name of its type; the constant names of the entry at position `i`
are exactly the names that the const groups of the queued packages give to `i` by
position (the names, `_` apart, of a spec whose type identifier `enumTypesMap`
sends to `i` and of the specs after it in the group up to the next type
identifier); `enumTypesMap` sends an identifier only to an entry of that name; and
a constant declared once in a file is given to at most one position. -/
theorem Process_consts_follow_group_position (env : TypeEnv) (src : Sources)
    (roots : List TypeId) (fuel steps : Nat) (b : Bridge)
    (h : Process env src fuel steps (queueRoots env roots) = .ok b) :
    (∀ t1 t2, t1 ∈ b.ProcessedTypes → t2 ∈ b.ProcessedTypes → (env t1).kind ≠ .Struct →
      (env t2).kind ≠ .Struct → t1 ≠ t2 →
      ∃ i j : Nat, i ≠ j ∧
        (b.Enums[i]?).map (fun e => e.Name) = some (env t1).Name ∧
        (b.Enums[j]?).map (fun e => e.Name) = some (env t2).Name) ∧
    (∀ i, (b.Enums[i]?).map constNames =
      (b.Enums[i]?).map
        (fun _ => packagesNames src (enumTypesMap b.Enums) i b.QueuedPackages)) ∧
    (∀ name i, enumTypesMap b.Enums name = some i →
      (b.Enums[i]?).map (fun e => e.Name) = some name) ∧
    (∀ (decls : List ast.Decl) (i j : Nat), i ≠ j → (declaredInFile decls).Nodup →
      ∀ x ∈ fileNames (enumTypesMap b.Enums) i decls,
        x ∉ fileNames (enumTypesMap b.Enums) j decls) := by
  obtain ⟨⟨_, _, he⟩, _⟩ := Process_inv env src fuel steps _ b h (queueRoots_inv env roots)
  obtain ⟨b1, h1, h2⟩ := Process_cases env src fuel steps _ b h
  have hf := processPackages_frame src _ _ _ h2
  have hn : b.Enums.map (fun e => e.Name) =
      (b.ProcessedTypes.filter (fun t => decide ((env t).kind ≠ .Struct))).map
        (fun t => (env t).Name) := by
    have := congrArg (List.map Prod.fst) he
    simpa [List.map_map, Function.comp_def] using this
  refine ⟨?_, ?_, ?_, ?_⟩
  · intro t1 t2 m1 m2 k1 k2 hne
    obtain ⟨i, j, hij, hi, hj⟩ := two_positions
      (b.ProcessedTypes.filter (fun t => decide ((env t).kind ≠ .Struct))) t1 t2
      (List.mem_filter.2 ⟨m1, by simpa using k1⟩) (List.mem_filter.2 ⟨m2, by simpa using k2⟩) hne
    refine ⟨i, j, hij, ?_, ?_⟩
    · have := congrArg (fun l => l[i]?) hn
      simp only [List.getElem?_map] at this
      rw [this, hi]; rfl
    · have := congrArg (fun l => l[j]?) hn
      simp only [List.getElem?_map] at this
      rw [this, hj]; rfl
  · intro i
    have hnames := processPackages_names src _ _ _ h2 i
    have hc := processQueue_noConsts env fuel steps _ b1 h1 (queueRoots_noConsts env roots)
    rw [← PkgFrame_typesMap hf, ← hf.qpkgs] at hnames
    rw [hnames]
    have hlen : b.Enums.length = b1.Enums.length := by
      have := congrArg List.length hf.enums
      simpa using this
    cases hb1 : b1.Enums[i]? with
    | none =>
      have : b.Enums[i]? = none := by
        rw [List.getElem?_eq_none_iff] at hb1 ⊢
        omega
      simp [this]
    | some e1 =>
      have hlt : i < b.Enums.length := by
        have := (List.getElem?_eq_some_iff.1 hb1).1
        omega
      have hce : constNames e1 = [] := by
        unfold constNames
        rw [hc e1 (List.getElem?_mem hb1)]
        rfl
      rw [List.getElem?_eq_getElem hlt]
      simp [hce]
  · intro name i hi
    exact enumTypesMap_sound _ _ _ hi
  · intro decls i j hij hnd x hx
    exact fileNames_disjoint _ i j hij decls hnd x hx

theorem Process_consts_follow_group_position_witness :
    Process shadeEnv (appSources [shadeFile]) 2 3 (queueRoots shadeEnv [0]) = .ok shadeResult ∧
    (shadeResult.Enums[1]?).map constNames = some ["Low", "High", "Answer"] ∧
    packagesNames (appSources [shadeFile]) (enumTypesMap shadeResult.Enums) 1 ["app"] =
      ["Low", "High", "Answer"] :=
  have h : Process shadeEnv (appSources [shadeFile]) 2 3 (queueRoots shadeEnv [0]) =
      .ok shadeResult := by decide
  have w := Process_consts_follow_group_position shadeEnv (appSources [shadeFile]) [0] 2 3
    shadeResult h
  ⟨h, (w.2.1 1).trans (by decide), by decide⟩

/-- C12, counterexample: `ErrNotFound` and `ErrDenied` are declared in one
parenthesized `var` block, each a single identifier starting with an uppercase
letter and initialised by `errors.New` of one string literal; `ProcessPackage`
records neither, because the block has more than one spec. -/
theorem var_block_errors_are_skipped :
    (ProcessPackage (appSources [fileOf errorBlockDecls]) Bridge.empty "app").toOption.map
        (fun b => b.Errors) = some [] := by
  decide

/-- C12, amended: whenever `ProcessPackage` returns on a parsed package, `Errors`
is what it was, followed, in the order the files are visited and the declarations
stand, by one record for each declaration that the loop body accepts; and the loop
body accepts a declaration, with record `einfo`, exactly when it is a `var`
declaration with a single spec (standing alone or alone in its parentheses) that
declares the one identifier `einfo.Name`, starting with `A..Z`, with any declared
type or none, initialised by the single expression `errors.New(lit)` for one string
literal whose source text, quotes included, is `einfo.Value`. -/
theorem ProcessPackage_records_single_spec_errors (src : Sources) (b b' : Bridge)
    (pkgPath : String) (pkgs : List ast.Package) (hsrc : src pkgPath = some pkgs)
    (h : ProcessPackage src b pkgPath = .ok b') :
    b'.Errors = b.Errors ++
      ((pkgs.flatMap (fun pkg => pkg.Files)).flatMap (fun file => file.Decls)).filterMap
        (fun decl => (errorOfDecl decl).toOption.join) ∧
    ∀ (decl : ast.Decl) (einfo : ErrorInfo),
      errorOfDecl decl = .ok (some einfo) ↔
        ∃ typ c cs, decl = .GenDecl .VAR [.ValueSpec
            { Names := [einfo.Name], Typ := typ,
              Values := [.CallExpr (.SelectorExpr (.Ident "errors") "New")
                [.BasicLit .STRING einfo.Value]] }] ∧
          einfo.Name.data = c :: cs ∧ 'A' ≤ c ∧ c ≤ 'Z' := by
  constructor
  · unfold ProcessPackage at h
    simp only [hsrc] at h
    exact processFiles_errors _ _ _ _ h
  · intro decl einfo
    constructor
    · exact errorOfDecl_some decl einfo
    · rintro ⟨typ, c, cs, rfl, hdata, h1, h2⟩
      exact errorOfDecl_of_shape typ einfo.Name einfo.Value c cs hdata h1 h2

theorem ProcessPackage_records_single_spec_errors_witness :
    ProcessPackage (appSources [fileOf errorDecls]) Bridge.empty "app" = .ok errorResult ∧
    errorResult.Errors = Bridge.empty.Errors ++
      (([({ Files := [fileOf errorDecls] } : ast.Package)].flatMap
        (fun pkg => pkg.Files)).flatMap (fun file => file.Decls)).filterMap
        (fun decl => (errorOfDecl decl).toOption.join) :=
  have h : ProcessPackage (appSources [fileOf errorDecls]) Bridge.empty "app" =
      .ok errorResult := by decide
  ⟨h, (ProcessPackage_records_single_spec_errors (appSources [fileOf errorDecls])
    Bridge.empty errorResult "app" [{ Files := [fileOf errorDecls] }] rfl h).1⟩

/-- C13: whenever `GenerateTSBindings` writes a file, its text is a function of the
bridge state that `Process` returns for the queued procedure types and of the
procedures found for the names of `procList`: the import line, then for each
`EnumInfo` in list order its alias line and its constants in list order, then the
sentinel errors in list order, then the interfaces in list order with their fields
in the order of `Fields`, then the stubs in the order of `procList`. -/
theorem GenerateTSBindings_emits_sections_in_order (env : TypeEnv) (src : Sources)
    (fuel steps : Nat) (marshal : GoAny → String) (httpRequestPtr : TypeId)
    (app : Application) (targetFile text : String)
    (h : GenerateTSBindings env src fuel steps marshal httpRequestPtr app targetFile =
      .ok (some text)) :
    ∃ queued s2t procs,
      queueProcTypes env httpRequestPtr app app.procList Bridge.empty = .ok queued ∧
      Process env src fuel steps queued = .ok s2t ∧
      app.procList.map app.procMap = procs.map some ∧
      text = bindingText marshal env httpRequestPtr s2t procs ∧
      bindingText marshal env httpRequestPtr s2t procs =
        "import * as rpc from \"vlens/rpc\"\n\n" ++
          String.join (s2t.Enums.map (enumText marshal)) ++ errorsText s2t.Errors ++
          String.join (s2t.Structs.map structText) ++
          String.join (procs.map (stubText env httpRequestPtr)) := by
  unfold GenerateTSBindings at h
  rw [if_neg (by intro ht; simp [ht] at h)] at h
  dsimp only at h
  cases hq : queueProcTypes env httpRequestPtr app app.procList Bridge.empty with
  | error e => simp [hq] at h
  | ok queued =>
    simp only [hq] at h
    cases hp : Process env src fuel steps queued with
    | error e => simp [hp] at h
    | ok s2t =>
      simp only [hp] at h
      cases hw : writeProcs env httpRequestPtr app app.procList
          (WriteStructTSBinding marshal s2t
            (fmt.Sprintf "import * as rpc from \"vlens/rpc\"" ++ "\n" ++ "\n")) with
      | error e => simp [hw] at h
      | ok f =>
        simp only [hw, Except.ok.injEq, Option.some.injEq] at h
        obtain ⟨procs, hm, hf⟩ := writeProcs_eq env httpRequestPtr app _ _ _ hw
        refine ⟨queued, s2t, procs, rfl, hp, hm, ?_, rfl⟩
        rw [← h, hf, WriteStructTSBinding_eq]
        have hi : fmt.Sprintf "import * as rpc from \"vlens/rpc\"" ++ "\n" ++ "\n" =
            "import * as rpc from \"vlens/rpc\"\n\n" := by decide
        rw [hi]
        rfl

set_option maxRecDepth 100000 in
theorem GenerateTSBindings_emits_sections_in_order_witness :
    GenerateTSBindings rpcEnv (appSources [accountFile]) 3 6 marshalConst 0 exampleApp
      "bindings.ts" = .ok (some exampleBindings) ∧
    ∃ queued s2t procs,
      queueProcTypes rpcEnv 0 exampleApp exampleApp.procList Bridge.empty = .ok queued ∧
      Process rpcEnv (appSources [accountFile]) 3 6 queued = .ok s2t ∧
      exampleApp.procList.map exampleApp.procMap = procs.map some ∧
      exampleBindings = bindingText marshalConst rpcEnv 0 s2t procs ∧
      bindingText marshalConst rpcEnv 0 s2t procs =
        "import * as rpc from \"vlens/rpc\"\n\n" ++
          String.join (s2t.Enums.map (enumText marshalConst)) ++ errorsText s2t.Errors ++
          String.join (s2t.Structs.map structText) ++
          String.join (procs.map (stubText rpcEnv 0)) :=
  have h : GenerateTSBindings rpcEnv (appSources [accountFile]) 3 6 marshalConst 0 exampleApp
      "bindings.ts" = .ok (some exampleBindings) := by decide
  ⟨h, GenerateTSBindings_emits_sections_in_order rpcEnv (appSources [accountFile]) 3 6
    marshalConst 0 exampleApp "bindings.ts" exampleBindings h⟩

/-- C14: registering is a total operation, and after any sequence of registrations
the entry of `procMap` under a name is the `ProcedureInfo` made by the last
registration of a typed procedure with that name: its function, the name, its
input type, its output type and its `MaxBytes`; a name under which the sequence
registers no typed procedure keeps the entry it had. -/
theorem registration_last_wins (app : Application) (regs : List Registration) (name : String) :
    ((regs.foldl register app).procMap name =
      match lastProc name regs with
      | some info => some info
      | none => app.procMap name) ∧
    ((∀ p maxBytes, Registration.proc p maxBytes ∈ regs → _LocalProcName p.fullName ≠ name) →
      (regs.foldl register app).procMap name = app.procMap name) := by
  refine ⟨registerAll_procMap app name regs, ?_⟩
  intro h
  rw [registerAll_procMap app name regs, lastProc_none name regs h]

theorem registration_last_wins_witness :
    (((exampleRegistrations.foldl register (NewApplication "app" none)).procMap "GetUser").map
      (fun info => (info.ProcName, info.InputType, info.OutputType, info.MaxBytes)) =
        some ("GetUser", 1, 5, 20)) ∧
    ((exampleRegistrations.foldl register (NewApplication "app" none)).procMap "Export").isNone :=
  ⟨(congrArg (Option.map (fun info : ProcedureInfo =>
      (info.ProcName, info.InputType, info.OutputType, info.MaxBytes)))
      (registration_last_wins (NewApplication "app" none) exampleRegistrations "GetUser").1).trans
      (by decide),
   by
    rw [(registration_last_wins (NewApplication "app" none) exampleRegistrations "Export").2
      (by
        intro p maxBytes hmem
        simp only [exampleRegistrations, List.mem_cons, List.mem_singleton, List.mem_nil_iff,
          or_false] at hmem
        rcases hmem with h | h | h
        · cases h; decide
        · cases h
        · cases h; decide)]
    rfl⟩

set_option maxRecDepth 100000 in
/-- C15 at the failing input: `GetUser` is registered twice with `RegisterProc`.
`procMap` holds one entry for the name, `procList` holds the name twice, and the
generated text has the stub `export async function GetUser` twice. -/
theorem GenerateTSBindings_repeats_stub :
    twiceApp.procList = ["GetUser", "GetUser"] ∧
    GenerateTSBindings rpcEnv noSources 3 6 marshalConst 0 twiceApp "bindings.ts" =
      .ok (some (
        "import * as rpc from \"vlens/rpc\"\n\n" ++
        "export interface GetUserInput \x7b\n" ++
        "    ID: number\n" ++
        "\x7d\n\n" ++
        "export interface User \x7b\n" ++
        "    Name: string\n" ++
        "\x7d\n\n" ++
        "export async function GetUser(data: GetUserInput): Promise<rpc.Response<User>> \x7b\n" ++
        "    return await rpc.call<User>('GetUser', JSON.stringify(data));\n" ++
        "\x7d\n\n" ++
        "export async function GetUser(data: GetUserInput): Promise<rpc.Response<User>> \x7b\n" ++
        "    return await rpc.call<User>('GetUser', JSON.stringify(data));\n" ++
        "\x7d\n\n")) := by
  constructor
  · decide
  · decide

/-- C16: for a request that is a client request error (a method other than POST, a
name after the prefix that is not registered, a body that does not decode into the
input type of a JSON-bodied procedure) and a response to which nothing was sent
yet, `HandleRPC` sends status 400, writes the fixed message of the error and
nothing else, and nothing happens outside the response: no call of `MakeContext`
opens a transaction and no procedure is called. -/
theorem HandleRPC_rejects_client_errors (httpRequestPtr : TypeId)
    (decode : TypeId → Body → Option Value) (formatFloat : Int → String) (procDur : Int)
    (app : Application) (w : ResponseWriter) (request : Request) (msg : String)
    (hw : w.sent = none) (hm : clientError httpRequestPtr decode app request = some msg) :
    HandleRPC httpRequestPtr decode formatFloat procDur app w request =
      { w := { w with statusCode := 400, sent := some 400, body := w.body ++ msg },
        events := [], panicked := false } ∧
    msg ∈ ["RPC calls must be POST", "Procedure Not Found", "InvalidRequest"] :=
  HandleRPC_reject_of_clientError httpRequestPtr decode formatFloat procDur app w request msg hw hm

theorem HandleRPC_rejects_client_errors_witness :
    clientError 0 exampleDecode exampleApp (postTo "/rpc/GetUser" bytesNope) =
      some "InvalidRequest" ∧
    HandleRPC 0 exampleDecode exampleFormatFloat 0 exampleApp ResponseWriter.fresh
        (postTo "/rpc/GetUser" bytesNope) =
      { w := { ResponseWriter.fresh with
               statusCode := 400, sent := some 400,
               body := ResponseWriter.fresh.body ++ "InvalidRequest" },
        events := [], panicked := false } :=
  ⟨by decide,
   (HandleRPC_rejects_client_errors 0 exampleDecode exampleFormatFloat 0 exampleApp
      ResponseWriter.fresh (postTo "/rpc/GetUser" bytesNope) "InvalidRequest" rfl
      (by decide)).1⟩

/-- C17 at the failing input: the procedure returns `errors.New("no user with id %d")`.
`RespondError` passes the text to `Fprintf` as the format, which has no operand for
the verb: the status is 400 and the body is `no user with id %!d(MISSING)`, not the
text of the error. -/
theorem RespondError_formats_error_text :
    HandleRPC 0 exampleDecode exampleFormatFloat 0
        (RegisterProc (NewApplication "app" none) (failingProc "no user with id %d"))
        ResponseWriter.fresh (postTo "/rpc/FindUser" bytesIdOne) =
      { w := { statusCode := 400, procDur := 0, header := [], sent := some 400,
               body := "no user with id %!d(MISSING)" },
        events := [.Call "FindUser", .TxClose none], panicked := false } := by
  decide

/-- C18, counterexample: `GetUser` is registered with input `GetUserInput` and output
`User`, its handler returns `User{Name: "Ann"}` and nil, and the body `{"ID":1}` is
posted to `/rpc/GetUser`. The status is 200 and the body is the JSON text followed
by a newline, which `Encode` appends; it is not exactly `{"Name":"Ann"}`. -/
theorem GetUser_body_ends_with_newline :
    HandleRPC 0 exampleDecode exampleFormatFloat 0 exampleApp ResponseWriter.fresh
        (postTo "/rpc/GetUser" bytesIdOne) =
      { w := { statusCode := 0, procDur := 0,
               header := [("Server-Timing", "proc;dur=0.000000"),
                          ("Content-Type", "application/json")],
               sent := some 200, body := "\x7b\"Name\":\"Ann\"\x7d\n" },
        events := [.ReadTx 0, .Call "GetUser", .Effect "read user",
                   .TxClose (some { db := 0, writable := false })],
        panicked := false } ∧
    "\x7b\"Name\":\"Ann\"\x7d\n" ≠ "\x7b\"Name\":\"Ann\"\x7d" := by
  decide

/-- C18, amended: for a procedure registered under `name` with a JSON body, a POST
to `"/rpc/" ++ name` whose size-limited body decodes into the input type, and a
handler that returns a value `v` of struct kind with JSON text `j` and a nil error,
`HandleRPC` on a response to which nothing was sent yet sends status 200, sets
`Content-Type: application/json`, and writes `j` followed by a newline; the handler
does not end in a panic. -/
theorem HandleRPC_answers_json_line (httpRequestPtr : TypeId)
    (decode : TypeId → Body → Option Value) (formatFloat : Int → String) (procDur : Int)
    (app : Application) (w : ResponseWriter) (request : Request) (name : String)
    (proc : ProcedureInfo) (x v : Value) (j : String)
    (hw : w.sent = none) (hmeth : request.Method = "POST")
    (huri : request.RequestURI = "/rpc/" ++ name) (hproc : app.procMap name = some proc)
    (hjson : proc.InputType ≠ httpRequestPtr)
    (hdec : decode proc.InputType (MaxBytesReader request.Body proc.MaxBytes) = some x)
    (hret : (proc.ProcValue (MakeContext app request).1 (.object x)).returned =
      .values (some v) none)
    (hk : v.kind = .Struct) (hj : v.json = .returns (some j)) :
    (HandleRPC httpRequestPtr decode formatFloat procDur app w request).w.sent = some 200 ∧
    (HandleRPC httpRequestPtr decode formatFloat procDur app w request).w.body =
      w.body ++ (j ++ "\n") ∧
    (HandleRPC httpRequestPtr decode formatFloat procDur app w request).w.Get "Content-Type" =
      some "application/json" ∧
    (HandleRPC httpRequestPtr decode formatFloat procDur app w request).w.statusCode =
      w.statusCode ∧
    (HandleRPC httpRequestPtr decode formatFloat procDur app w request).panicked = false := by
  have hname : stringsTrimPrefix request.RequestURI "/rpc/" = name := by
    rw [huri]; exact stringsTrimPrefix_append "/rpc/" name
  rw [HandleRPC_eq_invoke_object httpRequestPtr decode formatFloat procDur app w request proc x
    hmeth (by rw [hname]; exact hproc) hjson hdec]
  unfold invokeProc
  simp only [MakeContext_body, hret, Respond, hk, if_true, hj]
  refine ⟨?_, ?_, ?_, ?_, ?_⟩
  · simp [ResponseWriter.Write, ResponseWriter.SetHeader, hw]
  · rfl
  · exact Get_SetHeader _ _ _
  · rfl
  · trivial

theorem HandleRPC_answers_json_line_witness :
    (HandleRPC 0 exampleDecode exampleFormatFloat 0 exampleApp ResponseWriter.fresh
      (postTo "/rpc/GetUser" bytesIdOne)).w.sent = some 200 ∧
    (HandleRPC 0 exampleDecode exampleFormatFloat 0 exampleApp ResponseWriter.fresh
      (postTo "/rpc/GetUser" bytesIdOne)).w.body =
      ResponseWriter.fresh.body ++ ("\x7b\"Name\":\"Ann\"\x7d" ++ "\n") :=
  have h := HandleRPC_answers_json_line 0 exampleDecode exampleFormatFloat 0 exampleApp
    ResponseWriter.fresh (postTo "/rpc/GetUser" bytesIdOne) "GetUser"
    { ProcValue := getUserProc.call, ProcName := "GetUser", InputType := 1, OutputType := 2,
      MaxBytes := 1024 * 1024 }
    inputOne userAnn "\x7b\"Name\":\"Ann\"\x7d" rfl rfl rfl rfl (by decide) (by decide) rfl rfl rfl
  ⟨h.1, h.2.1⟩

/-- C19, counterexample: a procedure whose result type is an interface returns the
nil interface and a nil error. `Respond` sets the timing header and panics on
`t.Kind()`: none of the three outcomes is reached, nothing is written. -/
theorem Respond_panics_on_nil_output :
    Respond exampleFormatFloat ResponseWriter.fresh none =
      ({ ResponseWriter.fresh with header := [("Server-Timing", "proc;dur=0.000000")] }, true) ∧
    HandleRPC 0 exampleDecode exampleFormatFloat 0
        (RegisterProc (NewApplication "app" none) nilProc) ResponseWriter.fresh
        (postTo "/rpc/Anything" bytesIdOne) =
      { w := { ResponseWriter.fresh with header := [("Server-Timing", "proc;dur=0.000000")] },
        events := [.Call "Anything", .TxClose none], panicked := true } := by
  decide

/-- C19, amended: on a response to which nothing was sent yet, `Respond` puts every
output other than the nil interface into exactly one of three outcomes, and it ends
in a panic exactly when the one call it makes on the value does (`json.Marshal` for
a struct, `String()` for another Stringer). A value of struct kind, Stringer or not:
`Content-Type: application/json`, no status is written; the body is the JSON text
and a newline, with status 200 sent, and nothing is written when the encoding
reports an error or panics. Another value that is a Stringer or a string:
`Content-Type: text/plain`, no status is written; the body is the result of
`String()`, or the string, with status 200 sent, and nothing is written when
`String()` panics. Every other value: status 500 is written and the body is
`INTERNAL PROGRAMMING ERROR`, the content type is left as it was. -/
theorem Respond_classifies_output (formatFloat : Int → String) (w r : ResponseWriter)
    (object : Value) (panicked : Bool) (hw : w.sent = none)
    (hr : Respond formatFloat w (some object) = (r, panicked)) :
    panicked = callPanics object ∧
    match outcomeOf object with
    | .json =>
      object.kind = .Struct ∧ r.Get "Content-Type" = some "application/json" ∧
      r.statusCode = w.statusCode ∧
      (∀ text, object.json = .returns (some text) →
        r.body = w.body ++ (text ++ "\n") ∧ r.sent = some 200) ∧
      (object.json = .returns none ∨ object.json = .panics → r.body = w.body ∧ r.sent = none)
    | .text =>
      object.kind ≠ .Struct ∧ (object.stringer.isSome ∨ object.str.isSome) ∧
      r.Get "Content-Type" = some "text/plain" ∧ r.statusCode = w.statusCode ∧
      (∀ s, object.stringer = some (.returns s) → r.body = w.body ++ s ∧ r.sent = some 200) ∧
      (∀ s, object.stringer = none → object.str = some s →
        r.body = w.body ++ s ∧ r.sent = some 200) ∧
      (object.stringer = some .panics → r.body = w.body ∧ r.sent = none)
    | .programmingError =>
      object.kind ≠ .Struct ∧ object.stringer = none ∧ object.str = none ∧
      r.Get "Content-Type" = w.Get "Content-Type" ∧
      r.body = w.body ++ "INTERNAL PROGRAMMING ERROR" ∧
      r.statusCode = 500 ∧ r.sent = some 500 := by
  have hf : fmt.Sprintf "INTERNAL PROGRAMMING ERROR" = "INTERNAL PROGRAMMING ERROR" := by decide
  unfold Respond at hr
  simp only at hr
  unfold outcomeOf callPanics
  by_cases hk : object.kind = .Struct
  · simp only [hk, if_true] at hr ⊢
    cases hj : object.json with
    | returns res =>
      cases res with
      | some text =>
        simp only [hj, Prod.mk.injEq] at hr
        obtain ⟨rfl, rfl⟩ := hr
        refine ⟨by simp, trivial, Get_SetHeader _ _ _, rfl, ?_, ?_⟩
        · intro text' ht
          cases ht
          exact ⟨rfl, by simp [ResponseWriter.Write, ResponseWriter.SetHeader, hw]⟩
        · rintro (h | h) <;> cases h
      | none =>
        simp only [hj, Prod.mk.injEq] at hr
        obtain ⟨rfl, rfl⟩ := hr
        refine ⟨by simp, trivial, Get_SetHeader _ _ _, rfl, ?_, ?_⟩
        · intro text' ht
          cases ht
        · intro _
          exact ⟨rfl, by simp [ResponseWriter.SetHeader, hw]⟩
    | panics =>
      simp only [hj, Prod.mk.injEq] at hr
      obtain ⟨rfl, rfl⟩ := hr
      refine ⟨by simp, trivial, Get_SetHeader _ _ _, rfl, ?_, ?_⟩
      · intro text' ht
        cases ht
      · intro _
        exact ⟨rfl, by simp [ResponseWriter.SetHeader, hw]⟩
  · simp only [hk, if_false] at hr ⊢
    cases hs : object.stringer with
    | some res =>
      cases res with
      | returns s =>
        simp only [hs, Prod.mk.injEq] at hr
        obtain ⟨rfl, rfl⟩ := hr
        simp only [Option.isSome_some, true_or, if_true]
        refine ⟨by simp, hk, trivial, Get_SetHeader _ _ _, rfl, ?_, ?_, ?_⟩
        · intro s' h
          cases h
          exact ⟨rfl, by simp [ResponseWriter.Write, ResponseWriter.SetHeader, hw]⟩
        · intro s' h
          cases h
        · intro h
          cases h
      | panics =>
        simp only [hs, Prod.mk.injEq] at hr
        obtain ⟨rfl, rfl⟩ := hr
        simp only [Option.isSome_some, true_or, if_true]
        refine ⟨by simp, hk, trivial, Get_SetHeader _ _ _, rfl, ?_, ?_, ?_⟩
        · intro s' h
          cases h
        · intro s' h
          cases h
        · intro _
          exact ⟨rfl, by simp [ResponseWriter.SetHeader, hw]⟩
    | none =>
      cases hstr : object.str with
      | some str =>
        simp only [hs, hstr, Prod.mk.injEq] at hr
        obtain ⟨rfl, rfl⟩ := hr
        simp only [Option.isSome_some, or_true, if_true]
        refine ⟨by simp, hk, trivial, Get_SetHeader _ _ _, rfl, ?_, ?_, ?_⟩
        · intro s' h
          cases h
        · intro s' _ h
          cases h
          exact ⟨rfl, by simp [ResponseWriter.Write, ResponseWriter.SetHeader, hw]⟩
        · intro h
          cases h
      | none =>
        simp only [hs, hstr, Prod.mk.injEq, hf] at hr
        obtain ⟨rfl, rfl⟩ := hr
        simp only [Option.isSome_none, or_self, Bool.false_eq_true, if_false]
        refine ⟨by simp, hk, trivial, trivial, ?_, rfl, rfl, ?_⟩
        · exact Get_SetHeader_other w "Content-Type" "Server-Timing" _ (by decide)
        · simp [ResponseWriter.Write, ResponseWriter.WriteHeader, ResponseWriter.SetHeader, hw]

theorem Respond_classifies_output_witness :
    Respond exampleFormatFloat ResponseWriter.fresh (some userAnn) =
      ({ ResponseWriter.fresh with
          header := [("Server-Timing", "proc;dur=0.000000"), ("Content-Type", "application/json")],
          sent := some 200, body := "\x7b\"Name\":\"Ann\"\x7d\n" }, false) ∧
    outcomeOf userAnn = .json ∧ false = callPanics userAnn ∧
    Respond exampleFormatFloat ResponseWriter.fresh (some stampPanics) =
      ({ ResponseWriter.fresh with
          header := [("Server-Timing", "proc;dur=0.000000"), ("Content-Type", "text/plain")] },
        true) ∧
    outcomeOf stampPanics = .text ∧ true = callPanics stampPanics :=
  have hr : Respond exampleFormatFloat ResponseWriter.fresh (some userAnn) =
      ({ ResponseWriter.fresh with
          header := [("Server-Timing", "proc;dur=0.000000"), ("Content-Type", "application/json")],
          sent := some 200, body := "\x7b\"Name\":\"Ann\"\x7d\n" }, false) := by decide
  have hp : Respond exampleFormatFloat ResponseWriter.fresh (some stampPanics) =
      ({ ResponseWriter.fresh with
          header := [("Server-Timing", "proc;dur=0.000000"), ("Content-Type", "text/plain")] },
        true) := by decide
  ⟨hr, by decide,
   (Respond_classifies_output exampleFormatFloat ResponseWriter.fresh _ userAnn false rfl hr).1,
   hp, by decide,
   (Respond_classifies_output exampleFormatFloat ResponseWriter.fresh _ stampPanics true rfl hp).1⟩

/-- C20, counterexample: `Upload` is registered with `RegisterProcRawInput` and a
ceiling of 4 bytes. A POST with a body of 6 bytes is not answered with 400: the
procedure is called, does what it does, and its result is sent with status 200. -/
theorem raw_body_procedure_runs_on_long_body :
    (exampleApp.procMap "Upload").map (fun proc => (proc.InputType, proc.MaxBytes)) =
      some (0, 4) ∧
    HandleRPC 0 exampleDecode exampleFormatFloat 0 exampleApp ResponseWriter.fresh
        (postTo "/rpc/Upload" [1, 2, 3, 4, 5, 6]) =
      { w := { statusCode := 0, procDur := 0,
               header := [("Server-Timing", "proc;dur=0.000000"),
                          ("Content-Type", "application/json")],
               sent := some 200, body := "\x7b\"Size\":0\x7d\n" },
        events := [.ReadTx 0, .Call "Upload", .Effect "record upload",
                   .TxClose (some { db := 0, writable := false })],
        panicked := false } := by
  decide

/-- C20, amended: for a POST to a registered procedure, `HandleRPC` hands the
decoder or the procedure a body cut at the ceiling: of a body longer than `MaxBytes`
the first `MaxBytes` bytes and then an error, and two requests that differ only
beyond that are served alike. For a JSON-bodied procedure, when the decoder reports
an error on the body so cut, the answer is 400 with `InvalidRequest` and the
procedure is not called. A procedure with a raw body is called whatever the length
of the body. -/
theorem HandleRPC_cuts_body_at_MaxBytes (httpRequestPtr : TypeId)
    (decode : TypeId → Body → Option Value) (formatFloat : Int → String) (procDur : Int)
    (app : Application) (w : ResponseWriter) (request : Request) (proc : ProcedureInfo)
    (hw : w.sent = none) (hmeth : request.Method = "POST")
    (hproc : app.procMap (stringsTrimPrefix request.RequestURI "/rpc/") = some proc) :
    (proc.MaxBytes.toNat < request.Body.data.length →
      MaxBytesReader request.Body proc.MaxBytes =
        { data := request.Body.data.take proc.MaxBytes.toNat, err := true }) ∧
    (∀ body, MaxBytesReader body proc.MaxBytes = MaxBytesReader request.Body proc.MaxBytes →
      HandleRPC httpRequestPtr decode formatFloat procDur app w { request with Body := body } =
        HandleRPC httpRequestPtr decode formatFloat procDur app w request) ∧
    (proc.InputType ≠ httpRequestPtr →
      decode proc.InputType (MaxBytesReader request.Body proc.MaxBytes) = none →
      HandleRPC httpRequestPtr decode formatFloat procDur app w request =
        { w := { w with statusCode := 400, sent := some 400,
                        body := w.body ++ "InvalidRequest" },
          events := [], panicked := false }) ∧
    (proc.InputType = httpRequestPtr →
      Event.Call proc.ProcName ∈
        (HandleRPC httpRequestPtr decode formatFloat procDur app w request).events) := by
  refine ⟨?_, ?_, ?_, ?_⟩
  · intro hlen
    simp [MaxBytesReader, hlen]
  · intro body hbody
    by_cases hraw : proc.InputType = httpRequestPtr
    · rw [HandleRPC_eq_invoke_request httpRequestPtr decode formatFloat procDur app w request proc
        hmeth hproc hraw,
        HandleRPC_eq_invoke_request httpRequestPtr decode formatFloat procDur app w
          { request with Body := body } proc hmeth hproc hraw]
      simp only [hbody]
    · cases hdec : decode proc.InputType (MaxBytesReader request.Body proc.MaxBytes) with
      | none =>
        simp [HandleRPC, hmeth, PREFIX_RPC, hproc, hraw, hdec, hbody]
      | some x =>
        rw [HandleRPC_eq_invoke_object httpRequestPtr decode formatFloat procDur app w request proc
          x hmeth hproc hraw hdec,
          HandleRPC_eq_invoke_object httpRequestPtr decode formatFloat procDur app w
            { request with Body := body } proc x hmeth hproc hraw (by simpa [hbody] using hdec)]
        simp only [hbody]
  · intro hjson hdec
    have hm : clientError httpRequestPtr decode app request = some "InvalidRequest" := by
      simp [clientError, hmeth, hproc, hjson, hdec]
    exact (HandleRPC_reject_of_clientError httpRequestPtr decode formatFloat procDur app w request
      "InvalidRequest" hw hm).1
  · intro hraw
    rw [HandleRPC_eq_invoke_request httpRequestPtr decode formatFloat procDur app w request proc
      hmeth hproc hraw, invokeProc_events]
    simp

theorem HandleRPC_cuts_body_at_MaxBytes_witness :
    MaxBytesReader (postTo "/rpc/Upload" [1, 2, 3, 4, 5, 6]).Body 4 =
      { data := [1, 2, 3, 4], err := true } ∧
    HandleRPC 0 exampleDecode exampleFormatFloat 0 exampleApp ResponseWriter.fresh
        { postTo "/rpc/Upload" [1, 2, 3, 4, 5, 6] with
          Body := { data := [1, 2, 3, 4, 7, 8, 9], err := false } } =
      HandleRPC 0 exampleDecode exampleFormatFloat 0 exampleApp ResponseWriter.fresh
        (postTo "/rpc/Upload" [1, 2, 3, 4, 5, 6]) ∧
    Event.Call "Upload" ∈
      (HandleRPC 0 exampleDecode exampleFormatFloat 0 exampleApp ResponseWriter.fresh
        (postTo "/rpc/Upload" [1, 2, 3, 4, 5, 6])).events :=
  have h := HandleRPC_cuts_body_at_MaxBytes 0 exampleDecode exampleFormatFloat 0 exampleApp
    ResponseWriter.fresh (postTo "/rpc/Upload" [1, 2, 3, 4, 5, 6])
    { ProcValue := uploadProc.call, ProcName := "Upload", InputType := 0, OutputType := 7,
      MaxBytes := 4 }
    rfl rfl rfl
  ⟨(h.1 (by decide)).trans (by decide),
   h.2.1 { data := [1, 2, 3, 4, 7, 8, 9], err := false } (by decide),
   h.2.2.2 rfl⟩

/-- C21: for a request that reaches invocation in `HandleRPC` or in `HandleData`
under `ServeHTTP`, with nothing sent to the response before, what happens outside
the response is, on every exit path of the procedure alike (a value, an error, a
panic): the events of `MakeContext`, the call, what the procedure does, and then
once the events of `CloseContext` on the context as the procedure leaves it; when
the procedure touches the transaction through `UseWriteTx` only, every transaction
opened on the way is closed once and none stays open. No panic leaves `ServeHTTP`,
and when the procedure panics the response is status 500 with the body
`Server Error` and nothing else. -/
theorem ServeHTTP_releases_context_once (httpRequestPtr : TypeId)
    (decode : TypeId → Body → Option Value) (zero : TypeId → Value)
    (formatFloat : Int → String) (procDur : Int) (app : Application) (w : ResponseWriter)
    (request : Request) (hw : w.sent = none) :
    (∀ proc arg, rpcInvocation httpRequestPtr decode app request = some (proc, arg) →
      (ServeHTTP (HandleRPC httpRequestPtr decode formatFloat procDur app) w request).events =
        (MakeContext app request).2 ++ [Event.Call proc.ProcName] ++
          (proc.ProcValue (MakeContext app request).1 arg).events ++
          CloseContext (proc.ProcValue (MakeContext app request).1 arg).context ∧
      (ServeHTTP (HandleRPC httpRequestPtr decode formatFloat procDur app) w request).panicked =
        false ∧
      ((proc.ProcValue (MakeContext app request).1 arg).returned = .panic →
        (ServeHTTP (HandleRPC httpRequestPtr decode formatFloat procDur app) w request).w =
          { w with statusCode := 500, sent := some 500, body := w.body ++ "Server Error" }) ∧
      (Uses (MakeContext app request).1 (proc.ProcValue (MakeContext app request).1 arg).context
          (proc.ProcValue (MakeContext app request).1 arg).events →
        openAfter
          (ServeHTTP (HandleRPC httpRequestPtr decode formatFloat procDur app) w request).events
          [] = some [])) ∧
    (∀ proc, dataInvocation app request = some proc →
      (ServeHTTP (HandleData zero formatFloat procDur app) w request).events =
        (MakeContext app request).2 ++ [Event.Call proc.ProcName] ++
          (proc.ProcValue (MakeContext app request).1 (.object (zero proc.InputType))).events ++
          CloseContext
            (proc.ProcValue (MakeContext app request).1 (.object (zero proc.InputType))).context ∧
      (ServeHTTP (HandleData zero formatFloat procDur app) w request).panicked = false ∧
      ((proc.ProcValue (MakeContext app request).1 (.object (zero proc.InputType))).returned =
          .panic →
        (ServeHTTP (HandleData zero formatFloat procDur app) w request).w =
          { w with statusCode := 500, sent := some 500, body := w.body ++ "Server Error" }) ∧
      (Uses (MakeContext app request).1
          (proc.ProcValue (MakeContext app request).1 (.object (zero proc.InputType))).context
          (proc.ProcValue (MakeContext app request).1 (.object (zero proc.InputType))).events →
        openAfter (ServeHTTP (HandleData zero formatFloat procDur app) w request).events [] =
          some [])) := by
  constructor
  · intro proc arg hinv
    have hh := HandleRPC_of_invocation httpRequestPtr decode formatFloat procDur app w request
      proc arg hinv
    have hev : (ServeHTTP (HandleRPC httpRequestPtr decode formatFloat procDur app) w
        request).events =
        (MakeContext app request).2 ++ [Event.Call proc.ProcName] ++
          (proc.ProcValue (MakeContext app request).1 arg).events ++
          CloseContext (proc.ProcValue (MakeContext app request).1 arg).context := by
      unfold ServeHTTP WrapHttpResponeWriter
      rw [(postProcess_events _).1, hh, invokeProc_events, MakeContext_body]
    refine ⟨hev, ?_, ?_, ?_⟩
    · unfold ServeHTTP
      exact (postProcess_events _).2
    · intro hp
      have hpan := invokeProc_panic formatFloat procDur app w
        { request with Body := MaxBytesReader request.Body proc.MaxBytes } proc arg
        (by rw [MakeContext_body]; exact hp)
      unfold ServeHTTP WrapHttpResponeWriter
      rw [postProcess_panic _ (by rw [hh]; exact hpan.2) (by rw [hh, hpan.1]; exact hw), hh,
        hpan.1]
    · intro hu
      rw [hev]
      exact invocation_balanced app request proc.ProcName _ hu
  · intro proc hinv
    have hh := HandleData_of_invocation zero formatFloat procDur app w request proc hinv
    have hev : (ServeHTTP (HandleData zero formatFloat procDur app) w request).events =
        (MakeContext app request).2 ++ [Event.Call proc.ProcName] ++
          (proc.ProcValue (MakeContext app request).1 (.object (zero proc.InputType))).events ++
          CloseContext
            (proc.ProcValue (MakeContext app request).1
              (.object (zero proc.InputType))).context := by
      unfold ServeHTTP WrapHttpResponeWriter
      rw [(postProcess_events _).1, hh, invokeDataProc_events]
    refine ⟨hev, ?_, ?_, ?_⟩
    · unfold ServeHTTP
      exact (postProcess_events _).2
    · intro hp
      have hpan := invokeDataProc_panic formatFloat procDur app w request proc _ hp
      unfold ServeHTTP WrapHttpResponeWriter
      rw [postProcess_panic _ (by rw [hh]; exact hpan.2) (by rw [hh, hpan.1]; exact hw), hh,
        hpan.1]
    · intro hu
      rw [hev]
      exact invocation_balanced app request proc.ProcName _ hu

theorem ServeHTTP_releases_context_once_witness :
    (ServeHTTP (HandleRPC 0 exampleDecode exampleFormatFloat 0 saveApp) ResponseWriter.fresh
      (postTo "/rpc/Save" bytesIdOne)).events =
      [.ReadTx 0, .Call "Save", .TxClose (some { db := 0, writable := false }), .WriteTx 0,
       .Effect "write user", .TxClose (some { db := 0, writable := true })] ∧
    (ServeHTTP (HandleRPC 0 exampleDecode exampleFormatFloat 0 saveApp) ResponseWriter.fresh
      (postTo "/rpc/Save" bytesIdOne)).w =
      { ResponseWriter.fresh with
        statusCode := 500, sent := some 500,
        body := ResponseWriter.fresh.body ++ "Server Error" } ∧
    openAfter
      (ServeHTTP (HandleRPC 0 exampleDecode exampleFormatFloat 0 saveApp) ResponseWriter.fresh
        (postTo "/rpc/Save" bytesIdOne)).events [] = some [] :=
  have h := (ServeHTTP_releases_context_once 0 exampleDecode (fun _ => inputOne)
    exampleFormatFloat 0 saveApp ResponseWriter.fresh (postTo "/rpc/Save" bytesIdOne) rfl).1
    { ProcValue := saveProc.call, ProcName := "Save", InputType := 1, OutputType := 2,
      MaxBytes := 1024 * 1024 }
    (.object inputOne) rfl
  ⟨h.1.trans (by decide), h.2.2.1 rfl,
   h.2.2.2 (Uses.write _ _ _ (Uses.effect _ _ _ _ (Uses.done _)))⟩

/-- C22: for a context with a read-only transaction `UseWriteTx` closes that
transaction and then opens a write transaction on the same database, which becomes
the transaction of the context; for a context whose transaction is writable or that
has none it does nothing and leaves the context as it is. It never leaves a
read-only transaction where there was a writable one, a second call after the first
does nothing, and `AppName` and `Token` are never changed. -/
theorem UseWriteTx_escalates_once (ctx : Context) :
    (∀ tx, ctx.Tx = some tx → tx.writable = false →
      UseWriteTx ctx =
        ({ ctx with Tx := some { db := tx.db, writable := true } },
          [.TxClose (some tx), .WriteTx tx.db])) ∧
    (∀ tx, ctx.Tx = some tx → tx.writable = true → UseWriteTx ctx = (ctx, [])) ∧
    (ctx.Tx = none → UseWriteTx ctx = (ctx, [])) ∧
    (∀ tx, (UseWriteTx ctx).1.Tx = some tx → tx.writable = true) ∧
    UseWriteTx (UseWriteTx ctx).1 = ((UseWriteTx ctx).1, []) ∧
    (UseWriteTx ctx).1.AppName = ctx.AppName ∧ (UseWriteTx ctx).1.Token = ctx.Token := by
  rcases ctx with ⟨appName, token, _ | ⟨db, _ | _⟩⟩ <;> simp [UseWriteTx]

theorem UseWriteTx_escalates_once_witness :
    UseWriteTx { AppName := "app", Token := "t", Tx := some { db := 0, writable := false } } =
      ({ AppName := "app", Token := "t", Tx := some { db := 0, writable := true } },
        [.TxClose (some { db := 0, writable := false }), .WriteTx 0]) :=
  (UseWriteTx_escalates_once
    { AppName := "app", Token := "t", Tx := some { db := 0, writable := false } }).1
    { db := 0, writable := false } rfl rfl

/-- C23: when `req.Cookie` gives, as package net/http does, a cookie of the name
asked for or none, the context built by `MakeContext` has as `Token` the value of
the header `x-auth-token` when that is not empty, otherwise the value of the cookie
`authToken`, otherwise the empty string, as it is; `AppName` is the name of the
application; and the transaction is a read-only one on the database of the
application, opened by `vbolt.ReadTx`, or none when there is no database. -/
theorem MakeContext_token (app : Application) (req : Request)
    (hcookie : ∀ name c, req.Cookie name = some c → c.1 = name) :
    (MakeContext app req).1.Token = tokenOf req ∧
    (req.Header "x-auth-token" ≠ "" → (MakeContext app req).1.Token = req.Header "x-auth-token") ∧
    (∀ value, req.Header "x-auth-token" = "" → req.Cookie "authToken" = some ("authToken", value) →
      (MakeContext app req).1.Token = value) ∧
    (req.Header "x-auth-token" = "" → req.Cookie "authToken" = none →
      (MakeContext app req).1.Token = "") ∧
    (MakeContext app req).1.AppName = app.Name ∧
    (MakeContext app req).1.Tx = app.DB.map (fun db => { db := db, writable := false }) ∧
    (MakeContext app req).2 = (app.DB.map (fun db => Event.ReadTx db)).toList := by
  have htok : (MakeContext app req).1.Token = tokenOf req := by
    unfold MakeContext tokenOf getCookieValue
    cases hdb : app.DB <;>
    · by_cases hh : req.Header "x-auth-token" = ""
      · cases hc : req.Cookie "authToken" with
        | none => simp [hh, hc]
        | some c => simp [hh, hc, hcookie "authToken" c hc]
      · simp [hh]
  refine ⟨htok, ?_, ?_, ?_, ?_, ?_, ?_⟩
  · intro hh
    rw [htok, tokenOf, if_pos hh]
  · intro value hh hc
    rw [htok, tokenOf]
    simp [hh, hc]
  · intro hh hc
    rw [htok, tokenOf]
    simp [hh, hc]
  · unfold MakeContext
    cases app.DB <;> rfl
  · unfold MakeContext
    cases app.DB <;> rfl
  · unfold MakeContext
    cases app.DB <;> rfl

theorem MakeContext_token_witness :
    (MakeContext exampleApp (requestWith "" (some "s3cret"))).1.Token = "s3cret" ∧
    (MakeContext exampleApp (requestWith "abc" (some "s3cret"))).1.Token = "abc" ∧
    (MakeContext exampleApp (requestWith "" none)).1.Token = "" :=
  ⟨(MakeContext_token exampleApp (requestWith "" (some "s3cret"))
      (by
        intro name c h
        simp only [requestWith] at h
        split_ifs at h with hn
        · simp only [Option.map_some', Option.some.injEq] at h
          rw [← h, hn]
        )).2.2.1 "s3cret" rfl rfl,
   by decide, by decide⟩

/-- C24: whenever `Process` returns on the roots queued into the empty bridge,
`QueuedPackages` holds, without duplicates and in the order of the first
occurrences, exactly the package paths of the processed types that are not of
struct kind. `ProcessPackage` is run on these paths and no other: whatever the
sources of the other packages hold, those of a package that contributes record
types only among them, `Process` returns the same bridge. -/
theorem Process_queues_scalar_packages (env : TypeEnv) (src : Sources) (roots : List TypeId)
    (fuel steps : Nat) (b : Bridge)
    (h : Process env src fuel steps (queueRoots env roots) = .ok b) :
    b.QueuedPackages = keepFirst (scalarPackages env b.ProcessedTypes) ∧
    b.QueuedPackages.Nodup ∧
    (∀ p, p ∈ b.QueuedPackages ↔
      ∃ t ∈ b.ProcessedTypes, (env t).kind ≠ .Struct ∧ (env t).PkgPath = p) ∧
    (∀ src' : Sources, (∀ p ∈ b.QueuedPackages, src' p = src p) →
      Process env src' fuel steps (queueRoots env roots) = .ok b) := by
  obtain ⟨b1, h1, h2⟩ := Process_cases env src fuel steps _ b h
  have hf := processPackages_frame src _ _ _ h2
  obtain ⟨_, hq⟩ := processQueue_pkgInv env fuel steps _ b1 h1 (queueRoots_pkgInv env roots)
  have hqb : b.QueuedPackages = keepFirst (scalarPackages env b.ProcessedTypes) := by
    rw [hf.qpkgs, hf.processed]; exact hq
  refine ⟨hqb, ?_, ?_, ?_⟩
  · rw [hqb]; exact keepFirst_nodup _
  · intro p
    rw [hqb, mem_keepFirst]
    simp only [scalarPackages, List.mem_map, List.mem_filter, decide_eq_true_eq]
    constructor
    · rintro ⟨t, ⟨ht, hk⟩, hp⟩
      exact ⟨t, ht, hk, hp⟩
    · rintro ⟨t, ht, hk, hp⟩
      exact ⟨t, ⟨ht, hk⟩, hp⟩
  · intro src' hs
    unfold Process
    rw [h1]
    simp only
    rw [processPackages_sources src src' _ b1 (by rw [← hf.qpkgs]; exact hs)]
    exact h2

theorem Process_queues_scalar_packages_witness :
    Process pkgEnv noSources 3 6 (queueRoots pkgEnv [0]) = .ok pkgResult ∧
    pkgResult.QueuedPackages = ["geo", "units"] ∧
    Process pkgEnv ptsSources 3 6 (queueRoots pkgEnv [0]) = .ok pkgResult :=
  have h : Process pkgEnv noSources 3 6 (queueRoots pkgEnv [0]) = .ok pkgResult := by decide
  have w := Process_queues_scalar_packages pkgEnv noSources [0] 3 6 pkgResult h
  ⟨h, w.1.trans (by decide),
   w.2.2.2 ptsSources (by
    intro p hp
    have hp' : p = "geo" ∨ p = "units" := by simpa [pkgResult] using hp
    rcases hp' with rfl | rfl <;> rfl)⟩

/-- C25: with a bound on the iterations that the number of digits does not exceed
(19 for every 64-bit `int`), `DigitsIn` returns: for `0` it gives 1; for `n > 0` it
gives the number `k` of decimal digits of `n`, the only `k >= 1` with
`10^(k-1) <= n < 10^k`; for every `n < 0` it gives 1, whatever the magnitude of `n`. -/
theorem DigitsIn_counts_decimal_digits (fuel : Nat) (n : Int) (hfuel : n < 10 ^ fuel) :
    (n = 0 → DigitsIn fuel n = some 1) ∧
    (0 < n → ∃ k : Nat, 1 ≤ k ∧ DigitsIn fuel n = some (k : Int) ∧
      (10 : Int) ^ (k - 1) ≤ n ∧ n < (10 : Int) ^ k ∧
      ∀ j : Nat, 1 ≤ j → (10 : Int) ^ (j - 1) ≤ n → n < (10 : Int) ^ j → j = k) ∧
    (n < 0 → DigitsIn fuel n = some 1) := by
  refine ⟨?_, ?_, ?_⟩
  · intro h0
    simp [DigitsIn, h0]
  · intro hpos
    obtain ⟨m, rfl⟩ := Int.eq_ofNat_of_zero_le (le_of_lt hpos)
    have hm : 0 < m := by exact_mod_cast hpos
    have hf : m < 10 ^ fuel := by exact_mod_cast hfuel
    obtain ⟨k, hk1, _, hloop, hlo, hhi⟩ := digitsLoop_pos m fuel 0 hm hf
    refine ⟨k, hk1, ?_, by exact_mod_cast hlo, by exact_mod_cast hhi, ?_⟩
    · have hne : (m : Int) ≠ 0 := by omega
      simp [DigitsIn, hne, hloop]
    · intro j hj hj1 hj2
      exact pow_bracket_unique m j k (by exact_mod_cast hj1) (by exact_mod_cast hj2) hlo hhi hj hk1
  · intro hneg
    have hne : n ≠ 0 := by omega
    simp [DigitsIn, hne, digitsLoop_nonpos fuel 0 n (le_of_lt hneg), hneg]

theorem DigitsIn_counts_decimal_digits_witness :
    DigitsIn 19 0 = some 1 ∧ DigitsIn 19 9223372036854775807 = some 19 ∧
    DigitsIn 19 (-9223372036854775808) = some 1 ∧ DigitsIn 19 1234 = some 4 :=
  ⟨(DigitsIn_counts_decimal_digits 19 0 (by decide)).1 rfl,
   by decide,
   (DigitsIn_counts_decimal_digits 19 (-9223372036854775808) (by decide)).2.2 (by decide),
   by decide⟩

end Vbeam
